import Mathlib

/-!
Verification of the half-edge planar graph kernel of the hpg-lib repository
(HourglassClasses: dihedralelement.py, halfstrand.py, halfhourglass.py,
vertex.py, face.py, hourglassplabicgraph.py).

The Python objects are embedded shallowly as an arena: every DihedralElement
(half strand or half hourglass), vertex and face is a natural-number handle,
and each Python attribute becomes a total map from handles in a single state
structure.  Pointer assignments become functional updates, executed in the
same order as the source lines.  Loops that the source runs on circular
pointer structures receive an explicit fuel argument; exhausting the fuel
corresponds to the source looping forever on a malformed circle and is
reported as an Option none, while Python exceptions (raise) are modelled with
Except.error carrying the message of the source.
-/

namespace Hpg


/-- Functional update of a pointer map: the effect of a single Python
attribute assignment on one record of the arena. -/
def upd {α : Type} (f : Nat → α) (x : Nat) (v : α) : Nat → α :=
  fun y => if y = x then v else f y

/-- DihedralElement.get_cw_ith_element / get_ccw_ith_element
(dihedralelement.py lines 234-312): walk i steps along a step map,
returning self for i = 0 (the while loop body runs while i is positive). -/
def getIth (step : Nat → Nat) : Nat → Nat → Nat
  | x, 0 => x
  | x, i + 1 => getIth step (step x) i

/-- The _DihedralIterator of dihedralelement.py (lines 615-637): yields the
start element, then keeps stepping until the head is reached again.  The
extra fuel argument bounds the walk; on a well-formed circle the fuel is
never exhausted. -/
def stepIter (step : Nat → Nat) (head : Nat) : Nat → Nat → List Nat
  | 0, _ => []
  | fuel + 1, cur =>
      cur :: (if step cur = head then [] else stepIter step head fuel (step cur))

/-- Closure-detecting variant of the same iteration: some list when the walk
returns to head within the fuel (the list of visited elements, one full
revolution), none when the fuel runs out first (the source would loop
forever). -/
def stepOrbit (step : Nat → Nat) (head : Nat) : Nat → Nat → Option (List Nat)
  | 0, _ => none
  | fuel + 1, cur =>
      if step cur = head then some [cur]
      else (stepOrbit step head fuel (step cur)).map (fun l => cur :: l)

/-- A step map realizes the circle whose clockwise order, starting at h, is
h :: t: each entry steps to the next one and the last entry steps back to h.
This is the well-formedness invariant of a DihedralElement circle. -/
def IsCircFrom (step : Nat → Nat) (h : Nat) (t : List Nat) : Prop :=
  List.Chain' (fun a b => step a = b) (h :: t) ∧
    step ((h :: t).getLast (List.cons_ne_nil h t)) = h

/-- Executable check of IsCircFrom: walk the list verifying each step. -/
def circFromB (step : Nat → Nat) (h : Nat) : Nat → List Nat → Bool
  | cur, [] => decide (step cur = h)
  | cur, b :: l => decide (step cur = b) && circFromB step h b l

instance (step : Nat → Nat) (h : Nat) (t : List Nat) :
    Decidable (IsCircFrom step h t) :=
  decidable_of_iff (circFromB step h h t = true)
    (show (circFromB step h h t = true) ↔ IsCircFrom step h t from by
      have key : ∀ (l : List Nat) (cur : Nat),
          circFromB step h cur l = true ↔
            (List.Chain' (fun a b => step a = b) (cur :: l) ∧
              step ((cur :: l).getLast (List.cons_ne_nil cur l)) = h) := by
        intro l
        induction l with
        | nil =>
          intro cur
          simp [circFromB]
        | cons b l ih =>
          intro cur
          simp only [circFromB, Bool.and_eq_true, decide_eq_true_eq, ih b]
          constructor
          · rintro ⟨h1, h2, h3⟩
            refine ⟨List.chain'_cons.mpr ⟨h1, h2⟩, ?_⟩
            rw [List.getLast_cons (List.cons_ne_nil b l)]
            exact h3
          · rintro ⟨h1, h2⟩
            rcases List.chain'_cons.mp h1 with ⟨ha, hb⟩
            refine ⟨ha, hb, ?_⟩
            rw [List.getLast_cons (List.cons_ne_nil b l)] at h2
            exact h2
      exact key t h)

/-- The arena state of an hourglass plabic graph.  Half strands, half
hourglasses, vertices and faces are identified by natural-number handles;
each Python attribute is a total map on handles.  Strand and hourglass
handles are allocated from the counters nextS and nextH, faces from nextF;
vertex handles are the vertex ids the source passes explicitly. -/
structure GState where
  /-- HalfStrand cw_next pointer (DihedralElement._cw_next). -/
  sCw : Nat → Nat
  /-- HalfStrand ccw_next pointer (DihedralElement._ccw_next). -/
  sCcw : Nat → Nat
  /-- HalfStrand twin (HalfStrand._twin). -/
  sTwin : Nat → Nat
  /-- HalfStrand owning hourglass (HalfStrand._hourglass). -/
  sHg : Nat → Nat
  /-- HalfHourglass cw_next pointer. -/
  hCw : Nat → Nat
  /-- HalfHourglass ccw_next pointer. -/
  hCcw : Nat → Nat
  /-- HalfHourglass twin (HalfHourglass._twin). -/
  hTwin : Nat → Nat
  /-- HalfHourglass._v_from vertex handle. -/
  hFrom : Nat → Nat
  /-- HalfHourglass._v_to vertex handle. -/
  hTo : Nat → Nat
  /-- HalfHourglass._multiplicity. -/
  hMult : Nat → Nat
  /-- HalfHourglass._half_strands_head. -/
  hSHead : Nat → Option Nat
  /-- HalfHourglass._half_strands_tail. -/
  hSTail : Nat → Option Nat
  /-- HalfHourglass._left_face. -/
  hLeft : Nat → Option Nat
  /-- HalfHourglass._right_face. -/
  hRight : Nat → Option Nat
  /-- Vertex.filled. -/
  vFilled : Nat → Bool
  /-- Vertex.boundary. -/
  vBoundary : Nat → Bool
  /-- Vertex._half_hourglasses_head. -/
  vHead : Nat → Option Nat
  /-- Face._half_hourglasses_head. -/
  fHead : Nat → Nat
  /-- Face.boundary flag. -/
  fBoundary : Nat → Bool
  /-- Face.outer flag. -/
  fOuter : Nat → Bool
  /-- Keys of HourglassPlabicGraph._inner_vertices, in insertion order. -/
  innerIds : List Nat
  /-- Keys of HourglassPlabicGraph._boundary_vertices, in insertion order. -/
  boundaryIds : List Nat
  /-- Keys of HourglassPlabicGraph._faces, in insertion order. -/
  faceIds : List Nat
  /-- Next free half-strand handle. -/
  nextS : Nat
  /-- Next free half-hourglass handle. -/
  nextH : Nat
  /-- Next free face handle. -/
  nextF : Nat

/-- HalfStrand.v_to (halfstrand.py line 99): the vertex the owning hourglass
traverses to. -/
def sVTo (s : GState) (x : Nat) : Nat := s.hTo (s.sHg x)

/-- HalfStrand.v_from (halfstrand.py line 115). -/
def sVFrom (s : GState) (x : Nat) : Nat := s.hFrom (s.sHg x)

/-- DihedralElement.insert_cw_next at the half-strand level
(dihedralelement.py lines 53-80): the four pointer assignments of the source,
performed in order.  Aliased in the source as insert_ccw_prev and append_ccw. -/
def sInsertCwNext (s : GState) (self elem : Nat) : GState :=
  let s1 := { s with sCcw := upd s.sCcw elem self }
  let s2 := { s1 with sCw := upd s1.sCw elem (s1.sCw self) }
  let s3 := { s2 with sCcw := upd s2.sCcw (s2.sCw self) elem }
  { s3 with sCw := upd s3.sCw self elem }

/-- DihedralElement.insert_ccw_next at the half-strand level
(dihedralelement.py lines 84-111).  Aliased as insert_cw_prev and append_cw. -/
def sInsertCcwNext (s : GState) (self elem : Nat) : GState :=
  let s1 := { s with sCw := upd s.sCw elem self }
  let s2 := { s1 with sCcw := upd s1.sCcw elem (s1.sCcw self) }
  let s3 := { s2 with sCw := upd s2.sCw (s2.sCcw self) elem }
  { s3 with sCcw := upd s3.sCcw self elem }

/-- DihedralElement.remove at the half-strand level (dihedralelement.py
lines 115-147): unsplice self and make it a singleton circle. -/
def sRemove (s : GState) (self : Nat) : GState :=
  let s1 := { s with sCcw := upd s.sCcw (s.sCw self) (s.sCcw self) }
  let s2 := { s1 with sCw := upd s1.sCw (s1.sCcw self) (s1.sCw self) }
  let s3 := { s2 with sCw := upd s2.sCw self self }
  { s3 with sCcw := upd s3.sCcw self self }

/-- DihedralElement.link_cw_next at the half-strand level (dihedralelement.py
lines 410-448).  Aliased as link_ccw_prev. -/
def sLinkCwNext (s : GState) (self elem : Nat) : GState :=
  let s1 := { s with sCw := upd s.sCw self elem }
  { s1 with sCcw := upd s1.sCcw elem self }

/-- DihedralElement.link_ccw_next at the half-strand level (dihedralelement.py
lines 450-488).  Aliased as link_cw_prev. -/
def sLinkCcwNext (s : GState) (self elem : Nat) : GState :=
  let s1 := { s with sCcw := upd s.sCcw self elem }
  { s1 with sCw := upd s1.sCw elem self }

/-- HalfStrand left_turn (dihedralelement.py line 316): twin, then cw_next. -/
def sLeftTurn (s : GState) (x : Nat) : Nat := s.sCw (s.sTwin x)

/-- HalfStrand right_turn (dihedralelement.py line 335): twin, then ccw_next. -/
def sRightTurn (s : GState) (x : Nat) : Nat := s.sCcw (s.sTwin x)

/-- DihedralElement.get_ith_left for half strands (dihedralelement.py
line 354): the i-th left turn is i clockwise steps from the twin. -/
def sGetIthLeft (s : GState) (x i : Nat) : Nat := getIth s.sCw (s.sTwin x) i

/-- DihedralElement.get_ith_right for half strands (dihedralelement.py
line 381): the i-th right turn is i counterclockwise steps from the twin. -/
def sGetIthRight (s : GState) (x i : Nat) : Nat := getIth s.sCcw (s.sTwin x) i

/-- HalfStrand.get_ith_trip_turn (halfstrand.py lines 233-247): the i-th
right turn when the vertex reached is filled, the i-th left turn otherwise. -/
def getIthTripTurn (s : GState) (x i : Nat) : Nat :=
  if s.vFilled (sVTo s x) then sGetIthRight s x i else sGetIthLeft s x i

/-- HalfHourglass.is_boundary / is_phantom (halfhourglass.py line 484):
multiplicity zero. -/
def isPhantom (s : GState) (e : Nat) : Bool := s.hMult e = 0

/-- HalfHourglass left_turn (dihedralelement.py line 316, at the hourglass
level): twin, then cw_next. -/
def hLeftTurn (s : GState) (x : Nat) : Nat := s.hCw (s.hTwin x)

/-- HalfHourglass right_turn (dihedralelement.py line 335, at the hourglass
level): twin, then ccw_next.  This is the step of Face iteration
(_TurnIterator with turn_right, face.py line 640). -/
def hRightTurn (s : GState) (x : Nat) : Nat := s.hCcw (s.hTwin x)

/-- DihedralElement.insert_cw_next on the hourglass pointer maps: the body of
the base-class method, before the HalfHourglass override adds strand
splicing. -/
def hInsertCwNextBase (s : GState) (self elem : Nat) : GState :=
  let s1 := { s with hCcw := upd s.hCcw elem self }
  let s2 := { s1 with hCw := upd s1.hCw elem (s1.hCw self) }
  let s3 := { s2 with hCcw := upd s2.hCcw (s2.hCw self) elem }
  { s3 with hCw := upd s3.hCw self elem }

/-- DihedralElement.insert_ccw_next on the hourglass pointer maps. -/
def hInsertCcwNextBase (s : GState) (self elem : Nat) : GState :=
  let s1 := { s with hCw := upd s.hCw elem self }
  let s2 := { s1 with hCcw := upd s1.hCcw elem (s1.hCcw self) }
  let s3 := { s2 with hCw := upd s2.hCw (s2.hCcw self) elem }
  { s3 with hCcw := upd s3.hCcw self elem }

/-- DihedralElement.remove on the hourglass pointer maps. -/
def hRemoveBase (s : GState) (self : Nat) : GState :=
  let s1 := { s with hCcw := upd s.hCcw (s.hCw self) (s.hCcw self) }
  let s2 := { s1 with hCw := upd s1.hCw (s1.hCcw self) (s1.hCw self) }
  let s3 := { s2 with hCw := upd s2.hCw self self }
  { s3 with hCcw := upd s3.hCcw self self }

/-- HalfHourglass._get_first_strand (halfhourglass.py lines 365-391): the own
strand head if any, else the head of the first hourglass with strands on one
clockwise revolution, else None (the bind also yields None if that head
attribute is None, as the source returns the attribute unchecked). -/
def hGetFirstStrand (s : GState) (self fuel : Nat) : Option Nat :=
  match s.hSHead self with
  | some h => some h
  | none =>
      ((stepIter s.hCw self fuel self).find? (fun hh => decide (0 < s.hMult hh))).bind
        (fun hh => s.hSHead hh)

/-- HalfHourglass.insert_cw_next override (halfhourglass.py lines 123-171):
base insertion, then splicing of the inserted hourglass strand run into the
neighbor strand circle.  In the source a non-None strand head forces a
non-None strand tail; the unreachable mismatching case is modelled as leaving
the spliced state unchanged (the source would crash there). -/
def hhInsertCwNext (s : GState) (self elem fuel : Nat) : GState :=
  let s1 := hInsertCwNextBase s self elem
  match s1.hSHead elem, s1.hSTail elem with
  | some ehead, some etail =>
      (match hGetFirstStrand s1 (s1.hCw elem) fuel with
       | none => s1
       | some nextStrand =>
          let prevStrand := s1.sCcw nextStrand
          let s2 := sLinkCwNext s1 etail nextStrand
          sLinkCcwNext s2 ehead prevStrand)
  | _, _ => s1

/-- HalfHourglass.insert_ccw_next override (halfhourglass.py lines 176-224):
same strand-splicing procedure after a counterclockwise base insertion. -/
def hhInsertCcwNext (s : GState) (self elem fuel : Nat) : GState :=
  let s1 := hInsertCcwNextBase s self elem
  match s1.hSHead elem, s1.hSTail elem with
  | some ehead, some etail =>
      (match hGetFirstStrand s1 (s1.hCw elem) fuel with
       | none => s1
       | some nextStrand =>
          let prevStrand := s1.sCcw nextStrand
          let s2 := sLinkCwNext s1 etail nextStrand
          sLinkCcwNext s2 ehead prevStrand)
  | _, _ => s1

/-- HalfHourglass.remove override (halfhourglass.py lines 229-254): unsplice
the strand run, then remove the hourglass from its circle. -/
def hhRemove (s : GState) (self : Nat) : GState :=
  let s1 :=
    match s.hSHead self, s.hSTail self with
    | some shead, some stail =>
        let sa := sLinkCwNext s (s.sCcw shead) (s.sCw stail)
        sLinkCcwNext sa shead stail
    | _, _ => s
  hRemoveBase s1 self

/-- HalfStrand.__init__ with automatic twin construction (halfstrand.py
lines 33-66): allocates a strand and its twin (handles nextS and nextS + 1),
both singleton circles, owned by the given hourglass and its twin. -/
def allocStrandPair (s : GState) (hg : Nat) : GState × Nat :=
  let ns := s.nextS
  let nst := s.nextS + 1
  ({ s with
      sCw := upd (upd s.sCw ns ns) nst nst
      sCcw := upd (upd s.sCcw ns ns) nst nst
      sTwin := upd (upd s.sTwin ns nst) nst ns
      sHg := upd (upd s.sHg ns hg) nst (s.hTwin hg)
      nextS := s.nextS + 2 }, ns)

/-- The strand-construction loop of HalfHourglass.__init__ (halfhourglass.py
lines 92-96): run multiplicity - 1 times, appending a fresh strand pair at
the clockwise end of the head strand and of the twin head strand
(append_cw is insert_ccw_next). -/
def strandLoop (s : GState) (hg headS theadS : Nat) : Nat → GState
  | 0 => s
  | k + 1 =>
      let p := allocStrandPair s hg
      let s2 := sInsertCcwNext p.1 headS p.2
      let s3 := sInsertCcwNext s2 theadS (s2.sTwin p.2)
      strandLoop s3 hg headS theadS k

/-- HalfHourglass.__init__ with automatic twin construction (halfhourglass.py
lines 33-102): allocates the hourglass pair (handles nextH and nextH + 1) as
singleton circles with cross-linked twins, swapped endpoint vertices, the
given multiplicity on both sides, no faces, and the strand run of the given
multiplicity (none for a phantom edge). -/
def createHourglassPair (s : GState) (v1 v2 m : Nat) : GState × Nat :=
  let nh := s.nextH
  let nht := s.nextH + 1
  let s1 := { s with
    hCw := upd (upd s.hCw nh nh) nht nht
    hCcw := upd (upd s.hCcw nh nh) nht nht
    hTwin := upd (upd s.hTwin nh nht) nht nh
    hFrom := upd (upd s.hFrom nh v1) nht v2
    hTo := upd (upd s.hTo nh v2) nht v1
    hMult := upd (upd s.hMult nh m) nht m
    hSHead := upd (upd s.hSHead nh none) nht none
    hSTail := upd (upd s.hSTail nh none) nht none
    hLeft := upd (upd s.hLeft nh none) nht none
    hRight := upd (upd s.hRight nh none) nht none
    nextH := s.nextH + 2 }
  if m = 0 then (s1, nh)
  else
    let p := allocStrandPair s1 nh
    let hs := p.2
    let s3 := { p.1 with hSHead := upd (upd p.1.hSHead nh (some hs)) nht (some (p.1.sTwin hs)) }
    let s4 := strandLoop s3 nh hs (s3.sTwin hs) (m - 1)
    let tl := s4.sCcw hs
    ({ s4 with hSTail := upd (upd s4.hSTail nh (some tl)) nht (some (s4.sTwin tl)) }, nh)

/-- HalfHourglass.add_strand / thicken (halfhourglass.py lines 289-322):
raises on a phantom edge, otherwise appends a fresh strand pair after the
tail strand and after its twin, repoints both tails, and increments both
multiplicities.  The AttributeError case models the crash the source would
hit if a non-phantom edge had no tail strand. -/
def addStrand (s : GState) (e : Nat) : Except String GState :=
  if s.hMult e = 0 then
    Except.error "Cannot add a strand to a phantom/boundary edge."
  else
    match s.hSTail e with
    | none => Except.error "AttributeError"
    | some t =>
        let p := allocStrandPair s e
        let ns := p.2
        let s2 := sInsertCwNext p.1 t ns
        let s3 := sInsertCwNext s2 (s2.sTwin t) (s2.sTwin ns)
        let s4 := { s3 with hSTail := upd s3.hSTail e (some ns) }
        let s5 := { s4 with hSTail := upd s4.hSTail (s4.hTwin e) (some (s4.sTwin ns)) }
        let s6 := { s5 with hMult := upd s5.hMult e (s5.hMult e + 1) }
        Except.ok { s6 with hMult := upd s6.hMult (s6.hTwin e) (s6.hMult (s6.hTwin e) + 1) }

/-- HalfHourglass.remove_strand / thin (halfhourglass.py lines 324-363):
raises on a phantom edge or a single-strand edge, otherwise retreats both
tails one step counterclockwise, removes the two old tail strands, and
decrements both multiplicities. -/
def removeStrand (s : GState) (e : Nat) : Except String GState :=
  if s.hMult e ≤ 1 then
    if s.hMult e = 0 then
      Except.error "Cannot remove a strand from a phantom/boundary edge."
    else
      Except.error "Cannot remove a strand from an edge with only one strand."
  else
    match s.hSTail e, s.hSTail (s.hTwin e) with
    | some t, some tt =>
        let newT := s.sCcw t
        let s1 := { s with hSTail := upd s.hSTail e (some newT) }
        let newTT := s1.sCcw tt
        let s2 := { s1 with hSTail := upd s1.hSTail (s1.hTwin e) (some newTT) }
        let s3 := sRemove s2 (s2.sCw newT)
        let s4 := sRemove s3 (s3.sCw newTT)
        let s5 := { s4 with hMult := upd s4.hMult e (s4.hMult e - 1) }
        Except.ok { s5 with hMult := upd s5.hMult (s5.hTwin e) (s5.hMult (s5.hTwin e) - 1) }
    | _, _ => Except.error "AttributeError"

/-- Vertex.__init__ (vertex.py lines 31-64): records fill and boundary status
and an empty rotation list; the float position is layout-only and is not
modelled. -/
def createVertexRaw (s : GState) (id : Nat) (filled boundary : Bool) : GState :=
  { s with
      vFilled := upd s.vFilled id filled
      vBoundary := upd s.vBoundary id boundary
      vHead := upd s.vHead id none }

/-- Vertex._insert_hourglass (vertex.py lines 124-154).  On an empty rotation
list the hourglass becomes the head.  Otherwise the source walks the list
comparing float angles (get_angle, atan2) to pick a position; structurally
both of its branches perform insert_cw_next at some existing element
(insert_ccw_prev and append_ccw are aliases of the insert_cw_next override),
and the head afterwards is either kept, reset, or repointed to the new
element.  The angle-driven choices are abstracted into the parameters target
(the existing element at which the insertion happens) and newHead (the head
after the operation); every theorem below holds for every such choice. -/
def vInsertHourglass (s : GState) (v hh target newHead fuel : Nat) : GState :=
  match s.vHead v with
  | none => { s with vHead := upd s.vHead v (some hh) }
  | some _ =>
      let s1 := hhInsertCwNext s target hh fuel
      { s1 with vHead := upd s1.vHead v (some newHead) }

/-- Vertex._remove_hourglass (vertex.py lines 197-212): repoint the head if
it is being removed (to None if it was the only element), then remove the
hourglass from its circle. -/
def vRemoveHourglass (s : GState) (v hh : Nat) : GState :=
  let s1 :=
    if s.vHead v = some hh then
      let nh := s.hCcw hh
      if nh = hh then { s with vHead := upd s.vHead v none }
      else { s with vHead := upd s.vHead v (some nh) }
    else s
  hhRemove s1 hh

/-- Vertex.create_hourglass_between (vertex.py lines 89-122): construct the
twinned pair, then insert each direction into its source vertex.  The
target/newHead pairs abstract the angle-driven positions as in
vInsertHourglass; they are ignored when the respective rotation list is
empty. -/
def createHourglassBetween (s : GState) (v1 v2 m tgt1 nh1 tgt2 nh2 fuel : Nat) :
    GState × Nat :=
  let p := createHourglassPair s v1 v2 m
  let s2 := vInsertHourglass p.1 v1 p.2 tgt1 nh1 fuel
  let s3 := vInsertHourglass s2 v2 (s2.hTwin p.2) tgt2 nh2 fuel
  (s3, p.2)

/-- HalfHourglass.reparent (halfhourglass.py lines 256-284): detach from the
current from-vertex, repoint v_from, reinsert under the new vertex, then do
the symmetric update on the twin (whose v_to becomes the new vertex).  The
string id recomputation of the source is not modelled (handles are the
identities here). -/
def reparent (s : GState) (e v tgt1 nh1 tgt2 nh2 fuel : Nat) : GState :=
  let s1 := vRemoveHourglass s (s.hFrom e) e
  let s2 := { s1 with hFrom := upd s1.hFrom e v }
  let s3 := vInsertHourglass s2 v e tgt1 nh1 fuel
  let tw := s3.hTwin e
  let s4 := vRemoveHourglass s3 (s3.hFrom tw) tw
  let s5 := { s4 with hTo := upd s4.hTo tw v }
  vInsertHourglass s5 (s5.hFrom tw) tw tgt2 nh2 fuel

/-- DihedralElement.iterate_clockwise (dihedralelement.py line 575) at the
hourglass level: one full clockwise revolution from x. -/
def iterateCw (s : GState) (x fuel : Nat) : List Nat := stepIter s.hCw x fuel x

/-- DihedralElement.iterate_counterclockwise (dihedralelement.py line 595) at
the hourglass level. -/
def iterateCcw (s : GState) (x fuel : Nat) : List Nat := stepIter s.hCcw x fuel x

/-- DihedralElement.get_num_elements (dihedralelement.py lines 492-518):
count the elements of one clockwise revolution. -/
def getNumElements (s : GState) (x fuel : Nat) : Nat := (iterateCw s x fuel).length

/-- DihedralElement.get_elements_as_list (dihedralelement.py lines 520-549)
at the hourglass level.  With clockwise=True the source returns the list
built from iterate_clockwise; with clockwise=False it builds the
counterclockwise list in a bare expression statement, never returns it, and
falls off the end of the function, so Python returns None. -/
def getElementsAsList (s : GState) (x : Nat) (clockwise : Bool) (fuel : Nat) :
    Option (List Nat) :=
  if clockwise then some (iterateCw s x fuel) else none

/-- Vertex.simple_degree (vertex.py lines 372-394): 0 on an isolated vertex,
else the element count of the head circle. -/
def simpleDegree (s : GState) (v fuel : Nat) : Nat :=
  match s.vHead v with
  | none => 0
  | some h => getNumElements s h fuel

/-- The empty graph state: HourglassPlabicGraph.__init__ with n = 0
(hourglassplabicgraph.py lines 36-68).  Arena maps hold default values for
unallocated handles. -/
def emptyG : GState where
  sCw := fun _ => 0
  sCcw := fun _ => 0
  sTwin := fun _ => 0
  sHg := fun _ => 0
  hCw := fun _ => 0
  hCcw := fun _ => 0
  hTwin := fun _ => 0
  hFrom := fun _ => 0
  hTo := fun _ => 0
  hMult := fun _ => 0
  hSHead := fun _ => none
  hSTail := fun _ => none
  hLeft := fun _ => none
  hRight := fun _ => none
  vFilled := fun _ => false
  vBoundary := fun _ => false
  vHead := fun _ => none
  fHead := fun _ => 0
  fBoundary := fun _ => false
  fOuter := fun _ => false
  innerIds := []
  boundaryIds := []
  faceIds := []
  nextS := 0
  nextH := 0
  nextF := 0

/-- Concrete configuration for claim C1: two vertices (vertex 1 filled),
joined by one hourglass of multiplicity 3 (handles 0 and 1, strand circles
0-2-4 and 1-3-5).  Built through Vertex.create_hourglass_between. -/
def c1State : GState :=
  (createHourglassBetween
    (createVertexRaw (createVertexRaw emptyG 0 false false) 1 true false)
    0 1 3 0 0 0 0 1).1

/-- Concrete configuration for claim C3: vertex 0 carries two hourglasses
(handles 0 and 2, to vertices 1 and 2), a two-element rotation circle. -/
def c3State : GState :=
  let s3 := createVertexRaw
    (createVertexRaw (createVertexRaw emptyG 0 false false) 1 true false) 2 true false
  let p1 := createHourglassBetween s3 0 1 1 0 0 0 0 4
  (createHourglassBetween p1.1 0 2 1 0 0 4 4 4).1

/-- The walk of _StrandIterator (halfhourglass.py lines 661-684): yield the
current strand and advance clockwise, stopping when the end strand is next
(the begin flag of the source makes the start element itself non-terminating
on the first visit, which this recursion reproduces). -/
def strandIterAux (s : GState) (endS : Nat) : Nat → Nat → List Nat
  | 0, _ => []
  | fuel + 1, cur =>
      cur :: (if s.sCw cur = endS then [] else strandIterAux s endS fuel (s.sCw cur))

/-- HalfHourglass.iterate_strands (halfhourglass.py lines 607-684): iterate
the strands owned by this hourglass, from the head strand up to (excluding)
the clockwise successor of the tail strand.  Iterating an hourglass without
strands yields nothing; the head-some/tail-none combination cannot occur in
the source (the iterator constructor would crash computing the end strand)
and yields nothing here. -/
def iterateStrands (s : GState) (e fuel : Nat) : List Nat :=
  match s.hSHead e with
  | none => []
  | some hd =>
      match s.hSTail e with
      | none => []
      | some tl => strandIterAux s (s.sCw tl) fuel hd

/-- True when the computation raised an exception (Except.error), the model
of a Python raise. -/
def raised {α : Type} : Except String α → Bool
  | Except.error _ => true
  | Except.ok _ => false

/-- The loop of Face.initialize_half_hourglasses (face.py lines 91-128):
walk the right-turn cycle from the head, setting this face as right face of
each hourglass and left face of its twin, and marking the face as boundary
when a phantom edge is seen; none when the cycle does not close within the
fuel (the source would loop forever). -/
def faceInitAux (fid head : Nat) : Nat → GState → Nat → Option GState
  | 0, _, _ => none
  | fuel + 1, s, cur =>
      let s2 := { s with
        hRight := upd s.hRight cur (some fid)
        hLeft := upd s.hLeft (s.hTwin cur) (some fid)
        fBoundary := if s.hMult cur = 0 then upd s.fBoundary fid true else s.fBoundary }
      let nxt := hRightTurn s2 cur
      if nxt = head then some s2 else faceInitAux fid head fuel s2 nxt

/-- Face.initialize_half_hourglasses (face.py lines 91-128): repoint the
head, reset the boundary flag, then walk the cycle. -/
def faceInit (s : GState) (fid hh fuel : Nat) : Option GState :=
  let s1 := { s with
    fHead := upd s.fHead fid hh
    fBoundary := upd s.fBoundary fid false }
  faceInitAux fid hh fuel s1 hh

/-- Face.__init__ (face.py lines 27-73): allocate a face handle, record the
outer flag, and initialize the half hourglasses of its right-turn cycle. -/
def mkFace (s : GState) (hh : Nat) (outer : Bool) (fuel : Nat) :
    Option (GState × Nat) :=
  let fid := s.nextF
  let s1 := { s with fOuter := upd s.fOuter fid outer, nextF := s.nextF + 1 }
  (faceInit s1 fid hh fuel).map (fun s2 => (s2, fid))

/-- The loop of Face.is_square_move_valid (face.py lines 133-195): walk the
face cycle; fail on a fill-color break or once a sixth half-hourglass is
seen (the count check fires only when count exceeds 4); at closure compare
the accumulated multiplicity sum with r. -/
def isqAux (s : GState) (r head : Nat) : Nat → Nat → Nat → Nat → Bool → Option Bool
  | 0, _, _, _, _ => none
  | fuel + 1, hh, count, msum, sbf =>
      if s.vFilled (s.hTo hh) ≠ sbf then some false
      else if 4 < count then some false
      else
        let msum2 := msum + s.hMult hh
        let nxt := hRightTurn s hh
        if nxt = head then some (decide (msum2 = r))
        else isqAux s r head fuel nxt (count + 1) msum2 (!sbf)

/-- Face.is_square_move_valid (face.py lines 133-195). -/
def is_square_move_valid (s : GState) (f r fuel : Nat) : Option Bool :=
  let head := s.fHead f
  isqAux s r head fuel head 0 0 (!(s.vFilled (s.hFrom head)))

/-- The loop of Face.is_benzene_move_valid (face.py lines 513-563):
multiplicities must follow the alternating 1/2 pattern fixed by the head,
colors must alternate, and the cycle length must be even. -/
def ibzAux (s : GState) (head : Nat) : Nat → Nat → Nat → Nat → Bool → Option Bool
  | 0, _, _, _, _ => none
  | fuel + 1, hh, count, expected, sbf =>
      if s.hMult hh ≠ expected then some false
      else if s.vFilled (s.hTo hh) ≠ sbf then some false
      else
        let nxt := hRightTurn s hh
        if nxt = head then some (decide ((count + 1) % 2 = 0))
        else ibzAux s head fuel nxt (count + 1) (3 - expected) (!sbf)

/-- Face.is_benzene_move_valid (face.py lines 513-563). -/
def is_benzene_move_valid (s : GState) (f fuel : Nat) : Option Bool :=
  let head := s.fHead f
  ibzAux s head fuel head 0 (if s.hMult head = 1 then 1 else 2)
    (!(s.vFilled (s.hFrom head)))

/-- The loop of Face.is_cycle_valid (face.py lines 395-452): every other
hourglass from the start must have multiplicity above 1, colors must
alternate, and the cycle length must be even. -/
def icvAux (s : GState) (head : Nat) : Nat → Nat → Nat → Bool → Bool → Option Bool
  | 0, _, _, _, _ => none
  | fuel + 1, hh, count, sbf, checkMult =>
      if checkMult && decide (s.hMult hh ≤ 1) then some false
      else if s.vFilled (s.hTo hh) ≠ sbf then some false
      else
        let nxt := hRightTurn s hh
        if nxt = head then some (decide ((count + 1) % 2 = 0))
        else icvAux s head fuel nxt (count + 1) (!sbf) (!checkMult)

/-- The iteration tail of Face.is_cycle_valid after the start hourglass has
been resolved and the optional inverse right turn applied. -/
def icvFrom (s : GState) (st : Nat) (inverse : Bool) (fuel : Nat) : Option Bool :=
  let st2 := if inverse then hRightTurn s st else st
  icvAux s st2 fuel st2 0 (!(s.vFilled (s.hFrom st2))) true

/-- Face.is_cycle_valid (face.py lines 395-452): when the start hourglass
does not have this face on its right, fall back to its twin if this face is
on its left, and otherwise raise ValueError; then run the alternating
multiplicity/color walk. -/
def is_cycle_valid (s : GState) (f : Nat) (startOpt : Option Nat)
    (inverse : Bool) (fuel : Nat) : Option (Except String Bool) :=
  let start0 := startOpt.getD (s.fHead f)
  if s.hRight start0 = some f then
    (icvFrom s start0 inverse fuel).map Except.ok
  else if s.hLeft start0 = some f then
    (icvFrom s (s.hTwin start0) inverse fuel).map Except.ok
  else some (Except.error "start_hh does not belong to this face.")

/-- The loop of Face.benzene_move (face.py lines 565-612): walk the face
cycle, alternately thickening and thinning, starting with thicken exactly
when the head has a single strand.  A raise from thicken or thin propagates;
none models a cycle that never closes. -/
def bzmAux (head : Nat) : Nat → GState → Nat → Bool → Option (Except String GState)
  | 0, _, _, _ => none
  | fuel + 1, s, hh, th =>
      let nxt := hRightTurn s hh
      match (if th then addStrand s hh else removeStrand s hh) with
      | Except.error m => some (Except.error m)
      | Except.ok s2 =>
          if nxt = head then some (Except.ok s2) else bzmAux head fuel s2 nxt (!th)

/-- Face.benzene_move (face.py lines 565-612). -/
def benzene_move (s : GState) (f fuel : Nat) : Option (Except String GState) :=
  let head := s.fHead f
  bzmAux head fuel s head (decide (s.hMult head = 1))

/-- Alternating fill colors along a face cycle, as checked by
is_square_move_valid: each v_to color equals the expected flag, which flips
at every step. -/
def altColors (s : GState) : Bool → List Nat → Bool
  | _, [] => true
  | sbf, hh :: rest => (s.vFilled (s.hTo hh) == sbf) && altColors s (!sbf) rest

/-- Total multiplicity along a face cycle. -/
def multSum (s : GState) (L : List Nat) : Nat := (L.map s.hMult).sum

/-- The twin-symmetry invariant of claim C6, over every allocated
half-hourglass handle: twins are allocated, twinning is an involution
without fixed points, multiplicities agree across twins, and the from
vertex of an hourglass is the to vertex of its twin. -/
def TwinInv (s : GState) : Prop :=
  ∀ e, e < s.nextH →
    s.hTwin e < s.nextH ∧
    s.hTwin (s.hTwin e) = e ∧
    s.hTwin e ≠ e ∧
    s.hMult e = s.hMult (s.hTwin e) ∧
    s.hFrom e = s.hTo (s.hTwin e)

/-- Agreement of the fields that TwinInv reads. -/
def HFieldsEq (a b : GState) : Prop :=
  a.hTwin = b.hTwin ∧ a.hMult = b.hMult ∧ a.hFrom = b.hFrom ∧
    a.hTo = b.hTo ∧ a.nextH = b.nextH

/-- Concrete configuration for claim C2: a bigon.  Vertex 0 is filled,
vertex 1 is unfilled, and two parallel multiplicity-2 hourglasses join them
(handle pairs 0/1 and 2/3); the face to the right of handle 0 is the bigon
with boundary cycle [0, 3].  Built through Vertex.create_hourglass_between
and the Face constructor. -/
def c2State : GState :=
  ((mkFace
      (createHourglassBetween
        (createHourglassBetween
          (createVertexRaw (createVertexRaw emptyG 0 true false) 1 false false)
          0 1 2 0 0 0 0 4).1
        0 1 2 0 0 1 1 4).1
      0 false 8).getD (emptyG, 0)).1

/-- Concrete configuration for claim C9: vertices 0 (filled), 1, 2; one
multiplicity-2 hourglass between 0 and 1 (handles 0/1) whose bigon face
(id 0) is constructed first, then a second hourglass between 1 and 2
(handles 2/3) added afterwards, so handles 2 and 3 have no face
references. -/
def c9State : GState :=
  (createHourglassBetween
    ((mkFace
        (createHourglassBetween
          (createVertexRaw
            (createVertexRaw (createVertexRaw emptyG 0 true false) 1 false false)
            2 false false)
          0 1 2 0 0 0 0 4).1
        0 false 4).getD (emptyG, 0)).1
    1 2 1 1 1 0 0 4).1

/-- Benzene-move precondition along a face cycle, relative to a twin map tw:
multiplicities follow the alternating 1/2 pattern fixed by the flag,
multiplicities agree across twins, both tail strands exist, and no
half-hourglass is its own twin. -/
def benzOk (tw : Nat → Nat) (σ : GState) : Bool → List Nat → Prop
  | _, [] => True
  | th, x :: r =>
      σ.hMult x = (if th then 1 else 2) ∧
      σ.hMult (tw x) = σ.hMult x ∧
      (σ.hSTail x).isSome = true ∧
      (σ.hSTail (tw x)).isSome = true ∧
      tw x ≠ x ∧
      benzOk tw σ (!th) r

/-- Pairwise distinctness of the half-hourglasses of a face cycle, also
across the twin map: later elements differ from each earlier element, from
its twin, and their twins do too. -/
def pairTw (tw : Nat → Nat) : List Nat → Prop
  | [] => True
  | x :: r => (∀ y ∈ r, y ≠ x ∧ y ≠ tw x ∧ tw y ≠ x ∧ tw y ≠ tw x) ∧ pairTw tw r

/-- The six vertices of the claim C8 hexagon, ids 1-6 with alternating fill
colors as in the face.py benzene example. -/
def c8Base : GState :=
  createVertexRaw (createVertexRaw (createVertexRaw (createVertexRaw
    (createVertexRaw (createVertexRaw emptyG 1 true false) 2 false false)
    3 true false) 4 false false) 5 true false) 6 false false

/-- The claim C8 hexagon: edges (2,1,1), (3,2,2), (4,3,1), (5,4,2), (6,5,1),
(1,6,2) as in the face.py benzene example (handle pairs 0/1 to 10/11), and
the face to the right of the half-hourglass from vertex 1 to vertex 6
(handle 10, face id 0, boundary cycle [10, 8, 6, 4, 2, 0] with
multiplicities [2, 1, 2, 1, 2, 1]). -/
def c8State : GState :=
  ((mkFace
    (createHourglassBetween
      (createHourglassBetween
        (createHourglassBetween
          (createHourglassBetween
            (createHourglassBetween
              (createHourglassBetween c8Base 2 1 1 0 0 0 0 8).1
              3 2 2 0 0 0 0 8).1
            4 3 1 0 0 2 2 8).1
          5 4 2 0 0 4 4 8).1
        6 5 1 0 0 6 6 8).1
      1 6 2 1 1 8 8 8).1
    10 false 8).getD (emptyG, 0)).1

/-- HourglassPlabicGraph.order (hourglassplabicgraph.py lines 1135-1139):
the number of inner plus boundary vertices. -/
def order (s : GState) : Nat := s.innerIds.length + s.boundaryIds.length

/-- The vertex loop of construct_boundary (hourglassplabicgraph.py
lines 314-315): create boundary vertices 0 .. n-1 with the given fill
statuses (filling covers both the single-boolean and the iterable form of
the source parameter) and register them in the boundary dictionary.  The
float positions are layout-only and are not modelled. -/
def boundaryVertLoop (filling : Nat → Bool) : Nat → GState → GState
  | 0, s => s
  | i + 1, s =>
      let s1 := boundaryVertLoop filling i s
      let s2 := createVertexRaw s1 i (filling i) true
      { s2 with boundaryIds := s2.boundaryIds ++ [i] }

/-- The edge loop of construct_boundary (hourglassplabicgraph.py
lines 317-318): connect vertices i and i+1 by a phantom hourglass for
i < n-1.  As in vInsertHourglass, the angle-driven rotation position is
abstracted: the insertion target at vertex i is its unique existing
element 2i-1, and nh supplies the head choice. -/
def boundaryEdgeLoop (nh : Nat → Nat) (fuel : Nat) : Nat → GState → GState
  | 0, s => s
  | i + 1, s =>
      let s1 := boundaryEdgeLoop nh fuel i s
      (createHourglassBetween s1 i (i + 1) 0 (2 * i - 1) (nh i) 0 0 fuel).1

/-- HourglassPlabicGraph.construct_boundary (hourglassplabicgraph.py
lines 286-324): assert the graph is empty, create the n boundary vertices,
connect consecutive ones by phantom edges, close the cycle with an edge
from vertex n-1 to vertex 0, then construct the inner face to the right of
that edge and the outer face to the right of its twin, and register both
faces.  none models a face walk that never closes (the source would loop
forever). -/
def construct_boundary (s : GState) (n : Nat) (filling : Nat → Bool)
    (nh : Nat → Nat) (fuel : Nat) : Option (Except String GState) :=
  if order s ≠ 0 then
    some (Except.error "Cannot call construct_boundary on a non-empty graph.")
  else
    let s1 := boundaryVertLoop filling n s
    let s2 := boundaryEdgeLoop nh fuel (n - 1) s1
    let p := createHourglassBetween s2 (n - 1) 0 0 (2 * (n - 1) - 1)
      (nh (n - 1)) 0 (nh n) fuel
    match mkFace p.1 p.2 false fuel with
    | none => none
    | some (s3, f1) =>
        match mkFace s3 (s3.hTwin p.2) false fuel with
        | none => none
        | some (s4, f2) =>
            some (Except.ok { s4 with faceIds := s4.faceIds ++ [f1, f2] })

theorem upd_same {α : Type} (f : Nat → α) (x : Nat) (v : α) : upd f x v x = v := by
  simp [upd]

theorem upd_other {α : Type} (f : Nat → α) (x : Nat) (v : α) (y : Nat) (h : y ≠ x) :
    upd f x v y = f y := by
  simp [upd, h]

theorem chain_of_decomp {step : Nat → Nat} {h cur b : Nat}
    {t pre rest : List Nat}
    (hch : List.Chain' (fun a b => step a = b) (h :: t))
    (hdec : h :: t = pre ++ cur :: b :: rest) : step cur = b := by
  have hinf : [cur, b].IsInfix (h :: t) := ⟨pre, rest, by simp [hdec]⟩
  have := List.Chain'.infix hch hinf
  simpa [List.chain'_cons] using this

theorem mem_tail_of_decomp {h cur b : Nat} {t pre rest : List Nat}
    (hdec : h :: t = pre ++ cur :: b :: rest) : b ∈ t := by
  cases pre with
  | nil =>
    simp only [List.nil_append, List.cons.injEq] at hdec
    rcases hdec with ⟨h1, h2⟩
    subst h2
    simp
  | cons p pre2 =>
    simp only [List.cons_append, List.cons.injEq] at hdec
    rcases hdec with ⟨h1, h2⟩
    subst h2
    simp

theorem getLast_of_decomp {h cur : Nat} {t pre : List Nat}
    (hdec : h :: t = pre ++ [cur]) :
    (h :: t).getLast (List.cons_ne_nil h t) = cur := by
  have h1 : (h :: t).getLast? = some cur := by
    rw [hdec, List.getLast?_append_of_ne_nil pre (by simp)]
    simp
  have h2 := List.getLast?_eq_getLast_of_ne_nil (l := h :: t) (List.cons_ne_nil h t)
  rw [h2] at h1
  exact Option.some.inj h1

theorem stepIter_decomp (step : Nat → Nat) {h : Nat} {t : List Nat}
    (hci : IsCircFrom step h t) (hnd : (h :: t).Nodup) :
    ∀ (rest pre : List Nat) (cur fuel : Nat),
      h :: t = pre ++ cur :: rest → rest.length + 1 ≤ fuel →
      stepIter step h fuel cur = cur :: rest := by
  intro rest
  induction rest with
  | nil =>
    intro pre cur fuel hdec hfuel
    match fuel, hfuel with
    | fuel + 1, _ =>
      have hlast : (h :: t).getLast (List.cons_ne_nil h t) = cur := getLast_of_decomp hdec
      have hstep : step cur = h := by rw [← hlast]; exact hci.2
      simp [stepIter, hstep]
  | cons b rest2 ih =>
    intro pre cur fuel hdec hfuel
    match fuel, hfuel with
    | fuel + 1, hfuel =>
      have hstep : step cur = b := chain_of_decomp hci.1 hdec
      have hbt : b ∈ t := mem_tail_of_decomp hdec
      have hbh : b ≠ h := by
        intro hbh
        subst hbh
        exact (List.nodup_cons.mp hnd).1 hbt
      have hdec2 : h :: t = (pre ++ [cur]) ++ b :: rest2 := by
        rw [hdec]; simp
      have := ih (pre ++ [cur]) b fuel hdec2 (Nat.lt_succ_iff.mp hfuel)
      simp [stepIter, hstep, hbh, this]

/-- One full revolution of the clockwise iterator on a well-formed circle
yields exactly the circle order, starting at the head. -/
theorem stepIter_circ (step : Nat → Nat) {h : Nat} {t : List Nat}
    (hci : IsCircFrom step h t) (hnd : (h :: t).Nodup) {fuel : Nat}
    (hfuel : t.length + 1 ≤ fuel) :
    stepIter step h fuel h = h :: t :=
  stepIter_decomp step hci hnd t [] h fuel (by simp) hfuel

theorem stepOrbit_decomp (step : Nat → Nat) {h : Nat} {t : List Nat}
    (hci : IsCircFrom step h t) (hnd : (h :: t).Nodup) :
    ∀ (rest pre : List Nat) (cur fuel : Nat),
      h :: t = pre ++ cur :: rest → rest.length + 1 ≤ fuel →
      stepOrbit step h fuel cur = some (cur :: rest) := by
  intro rest
  induction rest with
  | nil =>
    intro pre cur fuel hdec hfuel
    match fuel, hfuel with
    | fuel + 1, _ =>
      have hlast : (h :: t).getLast (List.cons_ne_nil h t) = cur := getLast_of_decomp hdec
      have hstep : step cur = h := by rw [← hlast]; exact hci.2
      simp [stepOrbit, hstep]
  | cons b rest2 ih =>
    intro pre cur fuel hdec hfuel
    match fuel, hfuel with
    | fuel + 1, hfuel =>
      have hstep : step cur = b := chain_of_decomp hci.1 hdec
      have hbt : b ∈ t := mem_tail_of_decomp hdec
      have hbh : b ≠ h := by
        intro hbh
        subst hbh
        exact (List.nodup_cons.mp hnd).1 hbt
      have hdec2 : h :: t = (pre ++ [cur]) ++ b :: rest2 := by
        rw [hdec]; simp
      have := ih (pre ++ [cur]) b fuel hdec2 (Nat.lt_succ_iff.mp hfuel)
      simp [stepOrbit, hstep, hbh, this]

theorem stepOrbit_circ (step : Nat → Nat) {h : Nat} {t : List Nat}
    (hci : IsCircFrom step h t) (hnd : (h :: t).Nodup) {fuel : Nat}
    (hfuel : t.length + 1 ≤ fuel) :
    stepOrbit step h fuel h = some (h :: t) :=
  stepOrbit_decomp step hci hnd t [] h fuel (by simp) hfuel

theorem getIth_decomp (step : Nat → Nat) {h : Nat} {t : List Nat}
    (hci : IsCircFrom step h t) :
    ∀ (rest pre : List Nat) (cur : Nat),
      h :: t = pre ++ cur :: rest →
      getIth step cur (rest.length + 1) = h := by
  intro rest
  induction rest with
  | nil =>
    intro pre cur hdec
    have hlast : (h :: t).getLast (List.cons_ne_nil h t) = cur := getLast_of_decomp hdec
    have hstep : step cur = h := by rw [← hlast]; exact hci.2
    simp [getIth, hstep]
  | cons b rest2 ih =>
    intro pre cur hdec
    have hstep : step cur = b := chain_of_decomp hci.1 hdec
    have hdec2 : h :: t = (pre ++ [cur]) ++ b :: rest2 := by
      rw [hdec]; simp
    have := ih (pre ++ [cur]) b hdec2
    simpa [getIth, hstep] using this

/-- Walking the full circle length along the step map returns to the start. -/
theorem getIth_circ (step : Nat → Nat) {h : Nat} {t : List Nat}
    (hci : IsCircFrom step h t) :
    getIth step h (t.length + 1) = h :=
  getIth_decomp step hci t [] h (by simp)

theorem isCircFrom_getD_step (step : Nat → Nat) {h : Nat} {t : List Nat}
    (hci : IsCircFrom step h t) (k : Nat) (hk : k < (h :: t).length) :
    step ((h :: t).getD k 0) = (h :: t).getD ((k + 1) % (h :: t).length) 0 := by
  have hpos : 0 < (h :: t).length := Nat.succ_pos _
  have hk1 : (k + 1) % (h :: t).length < (h :: t).length := Nat.mod_lt _ hpos
  rw [List.getD_eq_get _ _ hk, List.getD_eq_get _ _ hk1]
  rcases Nat.lt_or_ge (k + 1) (h :: t).length with hlt | hge
  · have hcg := (List.chain'_iff_get.mp hci.1) k (by omega)
    have hidx : ((⟨(k + 1) % (h :: t).length, hk1⟩ : Fin (h :: t).length))
        = ⟨k + 1, hlt⟩ := Fin.ext (Nat.mod_eq_of_lt hlt)
    rw [hidx]
    exact hcg
  · have hkeq : k + 1 = (h :: t).length := by omega
    have hmod : (k + 1) % (h :: t).length = 0 := by rw [hkeq]; exact Nat.mod_self _
    have hidx : ((⟨(k + 1) % (h :: t).length, hk1⟩ : Fin (h :: t).length))
        = ⟨0, hpos⟩ := Fin.ext hmod
    have hidx2 : ((⟨k, hk⟩ : Fin (h :: t).length))
        = ⟨(h :: t).length - 1, by omega⟩ :=
      Fin.ext (show k = (h :: t).length - 1 by omega)
    rw [hidx, hidx2]
    have hlast : (h :: t).get ⟨(h :: t).length - 1, by omega⟩
        = (h :: t).getLast (List.cons_ne_nil h t) := by
      rw [List.getLast_eq_get]
    rw [hlast, hci.2]
    rfl

theorem getIth_circ_getD (step : Nat → Nat) {h : Nat} {t : List Nat}
    (hci : IsCircFrom step h t) :
    ∀ (i k : Nat), k < (h :: t).length →
      getIth step ((h :: t).getD k 0) i =
        (h :: t).getD ((k + i) % (h :: t).length) 0 := by
  intro i
  induction i with
  | zero =>
    intro k hk
    have hk2 : (k + 0) % (h :: t).length = k := by
      rw [Nat.add_zero]
      exact Nat.mod_eq_of_lt hk
    rw [hk2]
    rfl
  | succ i ih =>
    intro k hk
    have hstep := isCircFrom_getD_step step hci k hk
    have hk1 : (k + 1) % (h :: t).length < (h :: t).length :=
      Nat.mod_lt _ (Nat.succ_pos _)
    have hrec := ih ((k + 1) % (h :: t).length) hk1
    calc getIth step ((h :: t).getD k 0) (i + 1)
        = getIth step (step ((h :: t).getD k 0)) i := rfl
      _ = getIth step ((h :: t).getD ((k + 1) % (h :: t).length) 0) i := by rw [hstep]
      _ = (h :: t).getD (((k + 1) % (h :: t).length + i) % (h :: t).length) 0 := hrec
      _ = (h :: t).getD ((k + (i + 1)) % (h :: t).length) 0 := by
          congr 1
          rw [Nat.mod_add_mod]
          congr 1
          omega

/-- Walking i steps from the head of a circle lands on the element at index
i mod length. -/
theorem getIth_circ_head (step : Nat → Nat) {h : Nat} {t : List Nat}
    (hci : IsCircFrom step h t) (i : Nat) :
    getIth step h i = (h :: t).getD (i % (h :: t).length) 0 := by
  have := getIth_circ_getD step hci i 0 (Nat.succ_pos _)
  simpa using this

/-- Claim C1, counterexample.  On a multiplicity-3 hourglass into a filled
vertex, the single trip step of strand 0 for i = 1 (HalfStrand.
get_ith_trip_turn) is one counterclockwise step from the twin strand, which
differs from the claimed value of one clockwise step from the twin
(twin().get_cw_ith_element(1)): the claim swaps the clockwise and
counterclockwise walks. -/
theorem c1_counterexample :
    c1State.vFilled (sVTo c1State 0) = true ∧
    getIthTripTurn c1State 0 1 = getIth c1State.sCcw (c1State.sTwin 0) 1 ∧
    getIthTripTurn c1State 0 1 ≠ getIth c1State.sCw (c1State.sTwin 0) 1 := by
  decide

/-- Claim C1 (amended).  For every half strand x and trip index i, the trip
step at a filled vertex is the i-th right turn, computed as the i-th
counterclockwise element from the twin (twin().get_ccw_ith_element(i)), and
at an unfilled vertex the i-th left turn, computed as the i-th clockwise
element from the twin (twin().get_cw_ith_element(i)); on well-formed strand
circles these are the elements at index i (mod circle length) of the
counterclockwise resp. clockwise circle order starting at the twin. -/
theorem c1_trip_turn_spec (s : GState) (x i : Nat) (tcw tccw : List Nat)
    (hcw : IsCircFrom s.sCw (s.sTwin x) tcw)
    (hccw : IsCircFrom s.sCcw (s.sTwin x) tccw) :
    getIthTripTurn s x i =
      (if s.vFilled (sVTo s x) then sGetIthRight s x i else sGetIthLeft s x i) ∧
    sGetIthRight s x i =
      (s.sTwin x :: tccw).getD (i % (s.sTwin x :: tccw).length) 0 ∧
    sGetIthLeft s x i =
      (s.sTwin x :: tcw).getD (i % (s.sTwin x :: tcw).length) 0 := by
  refine ⟨rfl, ?_, ?_⟩
  · exact getIth_circ_head s.sCcw hccw i
  · exact getIth_circ_head s.sCw hcw i

/-- Witness for c1_trip_turn_spec at the concrete c1State, strand 0, i = 1:
the twin strand circle is 1-3-5 clockwise (so 1-5-3 counterclockwise), and
the trip turn at the filled vertex is strand 5, the first counterclockwise
element from the twin. -/
theorem c1_trip_turn_spec_witness :
    IsCircFrom c1State.sCw (c1State.sTwin 0) [3, 5] ∧
    IsCircFrom c1State.sCcw (c1State.sTwin 0) [5, 3] ∧
    (getIthTripTurn c1State 0 1 =
        (if c1State.vFilled (sVTo c1State 0) then sGetIthRight c1State 0 1
         else sGetIthLeft c1State 0 1) ∧
      sGetIthRight c1State 0 1 =
        (c1State.sTwin 0 :: [5, 3]).getD (1 % (c1State.sTwin 0 :: [5, 3]).length) 0 ∧
      sGetIthLeft c1State 0 1 =
        (c1State.sTwin 0 :: [3, 5]).getD (1 % (c1State.sTwin 0 :: [3, 5]).length) 0) :=
  ⟨by decide, by decide,
    c1_trip_turn_spec c1State 0 1 [3, 5] [5, 3] (by decide) (by decide)⟩

/-- Claim C10.  get_elements_as_list(False) returns None (the source builds
the counterclockwise list in a bare expression and never returns it), while
get_elements_as_list(True) returns the full circle in clockwise order
starting at the element. -/
theorem c10_get_elements_as_list (s : GState) (x fuel : Nat) (t : List Nat)
    (hci : IsCircFrom s.hCw x t) (hnd : (x :: t).Nodup)
    (hfuel : t.length + 1 ≤ fuel) :
    getElementsAsList s x false fuel = none ∧
    getElementsAsList s x true fuel = some (x :: t) := by
  constructor
  · rfl
  · show some (iterateCw s x fuel) = some (x :: t)
    rw [show iterateCw s x fuel = stepIter s.hCw x fuel x from rfl]
    rw [stepIter_circ s.hCw hci hnd hfuel]

/-- Witness for c10_get_elements_as_list: hourglass 0 of c1State is a
one-element rotation circle. -/
theorem c10_get_elements_as_list_witness :
    IsCircFrom c1State.hCw 0 [] ∧
    (getElementsAsList c1State 0 false 1 = none ∧
      getElementsAsList c1State 0 true 1 = some [0]) :=
  ⟨by decide, c10_get_elements_as_list c1State 0 1 [] (by decide) (by decide) (by decide)⟩

/-- Claim C3, counterexample.  On the two-element rotation circle of vertex 0
of c3State, the clockwise iteration from head 0 is the list 0, 2 and the
counterclockwise iteration is also 0, 2; they both start at 0, so the
clockwise sequence is not the reverse of the counterclockwise one. -/
theorem c3_counterexample :
    IsCircFrom c3State.hCw 0 [2] ∧
    IsCircFrom c3State.hCcw 0 [2] ∧
    c3State.vHead 0 = some 0 ∧
    iterateCw c3State 0 2 ≠ (iterateCcw c3State 0 2).reverse := by
  decide

/-- Claim C3 (amended).  For a vertex v with rotation circle h :: t (clockwise
from its head h), one clockwise revolution from h yields h :: t, one
counterclockwise revolution yields h :: t.reverse; the clockwise sequence is
h followed by the reverse of the counterclockwise sequence with its head
removed (rather than the exact reverse of the whole sequence), and stepping
clockwise simple_degree() times from h returns to h. -/
theorem c3_rotation_invariant (s : GState) (v h fuel : Nat) (t : List Nat)
    (hhead : s.vHead v = some h)
    (hcw : IsCircFrom s.hCw h t)
    (hccw : IsCircFrom s.hCcw h t.reverse)
    (hnd : (h :: t).Nodup)
    (hfuel : t.length + 1 ≤ fuel) :
    iterateCw s h fuel = h :: t ∧
    iterateCcw s h fuel = h :: t.reverse ∧
    iterateCw s h fuel = h :: ((iterateCcw s h fuel).tail).reverse ∧
    getIth s.hCw h (simpleDegree s v fuel) = h := by
  have hnd2 : (h :: t.reverse).Nodup := by
    rw [List.nodup_cons] at hnd ⊢
    exact ⟨fun hm => hnd.1 (List.mem_reverse.mp hm), List.nodup_reverse.mpr hnd.2⟩
  have h1 : iterateCw s h fuel = h :: t := stepIter_circ s.hCw hcw hnd hfuel
  have h2 : iterateCcw s h fuel = h :: t.reverse :=
    stepIter_circ s.hCcw hccw hnd2 (by simpa using hfuel)
  refine ⟨h1, h2, ?_, ?_⟩
  · rw [h1, h2]
    simp
  · have hdeg : simpleDegree s v fuel = t.length + 1 := by
      unfold simpleDegree
      rw [hhead]
      show getNumElements s h fuel = t.length + 1
      unfold getNumElements
      rw [h1]
      simp
    rw [hdeg]
    exact getIth_circ s.hCw hcw

theorem strandIterAux_congr {sa sb : GState} {N : Nat}
    (hagree : ∀ x, x < N → sb.sCw x = sa.sCw x)
    (hclosed : ∀ x, x < N → sa.sCw x < N) :
    ∀ (fuel cur endS : Nat), cur < N →
      strandIterAux sb endS fuel cur = strandIterAux sa endS fuel cur := by
  intro fuel
  induction fuel with
  | zero => intro cur endS _; rfl
  | succ fuel ih =>
    intro cur endS hcur
    show cur :: _ = cur :: _
    rw [hagree cur hcur]
    by_cases hstop : sa.sCw cur = endS
    · simp [hstop]
    · simp only [if_neg hstop]
      rw [ih (sa.sCw cur) endS (hclosed cur hcur)]

theorem raised_ok {α : Type} {x : Except String α} (h : raised x = false) :
    ∃ v, x = Except.ok v := by
  cases x with
  | error m => simp [raised] at h
  | ok v => exact ⟨v, rfl⟩

/-- add_strand succeeds exactly on a non-phantom edge with a tail strand. -/
theorem addStrand_ok {s : GState} {e t : Nat}
    (hm : s.hMult e ≠ 0) (ht : s.hSTail e = some t) :
    ∃ s2, addStrand s e = Except.ok s2 := by
  unfold addStrand
  rw [if_neg hm, ht]
  exact ⟨_, rfl⟩

theorem addStrand_err {s : GState} {e : Nat} (hm : s.hMult e = 0) :
    addStrand s e = Except.error "Cannot add a strand to a phantom/boundary edge." := by
  unfold addStrand
  rw [if_pos hm]

/-- Field description of a successful add_strand: the hourglass rotation
structure, twins, endpoints, faces and vertex data are untouched; the tails
of the edge and its twin repoint to the two fresh strands, and both
multiplicities increase by one. -/
theorem addStrand_fields {s s2 : GState} {e t : Nat}
    (ht : s.hSTail e = some t) (hok : addStrand s e = Except.ok s2) :
    s2.hCw = s.hCw ∧ s2.hCcw = s.hCcw ∧ s2.hTwin = s.hTwin ∧
    s2.hFrom = s.hFrom ∧ s2.hTo = s.hTo ∧ s2.hSHead = s.hSHead ∧
    s2.hSTail = upd (upd s.hSTail e (some s.nextS)) (s.hTwin e) (some (s.nextS + 1)) ∧
    s2.hMult = upd (upd s.hMult e (s.hMult e + 1)) (s.hTwin e)
      (upd s.hMult e (s.hMult e + 1) (s.hTwin e) + 1) ∧
    s2.vFilled = s.vFilled ∧ s2.vBoundary = s.vBoundary ∧ s2.vHead = s.vHead ∧
    s2.fHead = s.fHead ∧ s2.fBoundary = s.fBoundary ∧ s2.fOuter = s.fOuter ∧
    s2.hLeft = s.hLeft ∧ s2.hRight = s.hRight ∧
    s2.innerIds = s.innerIds ∧ s2.boundaryIds = s.boundaryIds ∧
    s2.faceIds = s.faceIds ∧ s2.nextH = s.nextH ∧ s2.nextF = s.nextF ∧
    s2.nextS = s.nextS + 2 := by
  unfold addStrand at hok
  split at hok
  · exact absurd hok (by simp)
  · rw [ht] at hok
    simp only at hok
    cases hok
    refine ⟨rfl, rfl, rfl, rfl, rfl, rfl, ?_, rfl, rfl, rfl, rfl, rfl, rfl, rfl,
      rfl, rfl, rfl, rfl, rfl, rfl, rfl, rfl⟩
    have htwin : (upd (upd s.sTwin s.nextS (s.nextS + 1)) (s.nextS + 1) s.nextS) s.nextS
        = s.nextS + 1 := by
      simp [upd]
    show upd (upd s.hSTail e (some s.nextS)) (s.hTwin e)
        (some ((upd (upd s.sTwin s.nextS (s.nextS + 1)) (s.nextS + 1) s.nextS) s.nextS))
      = upd (upd s.hSTail e (some s.nextS)) (s.hTwin e) (some (s.nextS + 1))
    rw [htwin]

/-- Pointwise description of the strand pointer maps after a successful
add_strand: the two fresh strands nextS and nextS + 1 are spliced clockwise
after the tail strand t and after its twin, and no other pointer moves. -/
theorem addStrand_pointwise {s s2 : GState} {e t : Nat}
    (ht : s.hSTail e = some t) (hok : addStrand s e = Except.ok s2)
    (hb1 : t < s.nextS) (hb2 : s.sTwin t < s.nextS)
    (hne1 : s.sTwin t ≠ t) :
    (∀ x, s2.sCw x =
      if x = s.sTwin t then s.nextS + 1
      else if x = s.nextS + 1 then s.sCw (s.sTwin t)
      else if x = t then s.nextS
      else if x = s.nextS then s.sCw t
      else s.sCw x) ∧
    (∀ x, s2.sCcw x =
      if x = s.sCw (s.sTwin t) then s.nextS + 1
      else if x = s.nextS + 1 then s.sTwin t
      else if x = s.sCw t then s.nextS
      else if x = s.nextS then t
      else s.sCcw x) ∧
    (∀ x, s2.sTwin x =
      if x = s.nextS then s.nextS + 1
      else if x = s.nextS + 1 then s.nextS
      else s.sTwin x) := by
  have hm : s.hMult e ≠ 0 := by
    intro hm
    rw [addStrand_err hm] at hok
    exact absurd hok (by simp)
  unfold addStrand at hok
  rw [if_neg hm, ht] at hok
  simp only at hok
  cases hok
  have hA : t ≠ s.nextS := by omega
  have hB : t ≠ s.nextS + 1 := by omega
  have hC : s.sTwin t ≠ s.nextS := by omega
  have hD : s.sTwin t ≠ s.nextS + 1 := by omega
  have hE : s.nextS ≠ s.nextS + 1 := by omega
  have hF : s.nextS + 1 ≠ s.nextS := by omega
  refine ⟨?_, ?_, ?_⟩ <;>
    · intro x
      simp only [sInsertCwNext, allocStrandPair]
      simp [upd, hA, hB, hC, hD, hE, hF, hne1]
      split_ifs <;> first | rfl | omega

/-- Pointwise description of the strand pointer maps after a successful
remove_strand, by symbolic execution of the source lines: retreat both
tails, remove the old tail, remove the old twin tail. -/
theorem removeStrand_pointwise {s s2 : GState} {e t0 tt0 : Nat}
    (hm : 1 < s.hMult e) (ht : s.hSTail e = some t0)
    (htt : s.hSTail (s.hTwin e) = some tt0)
    (hok : removeStrand s e = Except.ok s2) :
    s2.sCw =
      (let x1 := s.sCw (s.sCcw t0)
       let cwE := upd (upd s.sCw (s.sCcw x1) (s.sCw x1)) x1 x1
       let ccwE := upd (upd s.sCcw (s.sCw x1) (s.sCcw x1)) x1 x1
       let y1 := cwE (s.sCcw tt0)
       upd (upd cwE (ccwE y1) (cwE y1)) y1 y1) ∧
    s2.sCcw =
      (let x1 := s.sCw (s.sCcw t0)
       let cwE := upd (upd s.sCw (s.sCcw x1) (s.sCw x1)) x1 x1
       let ccwE := upd (upd s.sCcw (s.sCw x1) (s.sCcw x1)) x1 x1
       let y1 := cwE (s.sCcw tt0)
       upd (upd ccwE (cwE y1) (ccwE y1)) y1 y1) ∧
    s2.sTwin = s.sTwin := by
  unfold removeStrand at hok
  rw [if_neg (by omega), ht, htt] at hok
  simp only at hok
  cases hok
  refine ⟨?_, ?_, rfl⟩ <;>
    · simp only [sRemove, upd, ite_self]

/-- remove_strand succeeds exactly on an edge with at least two strands and
tail strands on both directions. -/
theorem removeStrand_ok {s : GState} {e t tt : Nat}
    (hm : 1 < s.hMult e) (ht : s.hSTail e = some t)
    (htt : s.hSTail (s.hTwin e) = some tt) :
    ∃ s2, removeStrand s e = Except.ok s2 := by
  unfold removeStrand
  rw [if_neg (by omega), ht, htt]
  exact ⟨_, rfl⟩

theorem removeStrand_err {s : GState} {e : Nat} (hm : s.hMult e ≤ 1) :
    raised (removeStrand s e) = true := by
  unfold removeStrand
  rw [if_pos hm]
  split <;> rfl

/-- Field description of a successful remove_strand. -/
theorem removeStrand_fields {s s2 : GState} {e t tt : Nat}
    (hm : 1 < s.hMult e) (ht : s.hSTail e = some t)
    (htt : s.hSTail (s.hTwin e) = some tt)
    (hok : removeStrand s e = Except.ok s2) :
    s2.hCw = s.hCw ∧ s2.hCcw = s.hCcw ∧ s2.hTwin = s.hTwin ∧
    s2.hFrom = s.hFrom ∧ s2.hTo = s.hTo ∧ s2.hSHead = s.hSHead ∧
    s2.hSTail = upd (upd s.hSTail e (some (s.sCcw t))) (s.hTwin e) (some (s.sCcw tt)) ∧
    s2.hMult = upd (upd s.hMult e (s.hMult e - 1)) (s.hTwin e)
      (upd s.hMult e (s.hMult e - 1) (s.hTwin e) - 1) ∧
    s2.vFilled = s.vFilled ∧ s2.vBoundary = s.vBoundary ∧ s2.vHead = s.vHead ∧
    s2.fHead = s.fHead ∧ s2.fBoundary = s.fBoundary ∧ s2.fOuter = s.fOuter ∧
    s2.hLeft = s.hLeft ∧ s2.hRight = s.hRight ∧
    s2.innerIds = s.innerIds ∧ s2.boundaryIds = s.boundaryIds ∧
    s2.faceIds = s.faceIds ∧ s2.nextH = s.nextH ∧ s2.nextF = s.nextF ∧
    s2.nextS = s.nextS := by
  unfold removeStrand at hok
  rw [if_neg (by omega), ht, htt] at hok
  simp only at hok
  cases hok
  exact ⟨rfl, rfl, rfl, rfl, rfl, rfl, rfl, rfl, rfl, rfl, rfl, rfl, rfl, rfl,
    rfl, rfl, rfl, rfl, rfl, rfl, rfl, rfl⟩

theorem iterateStrands_eq {s : GState} {e hd tl : Nat} (fuel : Nat)
    (hh : s.hSHead e = some hd) (htl : s.hSTail e = some tl) :
    iterateStrands s e fuel = strandIterAux s (s.sCw tl) fuel hd := by
  unfold iterateStrands
  rw [hh, htl]

theorem iterateStrands_none {s : GState} {e : Nat} (fuel : Nat)
    (hh : s.hSHead e = none) : iterateStrands s e fuel = [] := by
  unfold iterateStrands
  rw [hh]

/-- Claim C5.  For every non-phantom half-hourglass e with multiplicity
m >= 1 in a well-formed state, thicken() followed by thin() restores every
multiplicity (in particular m on e and its twin), both strand tails and
heads, and every pre-existing strand pointer, so the strand sub-lists of e
and of its twin are exactly the original m-strand lists. -/
theorem c5_thicken_thin_round_trip (s : GState) (e t fuel : Nat)
    (hm : 0 < s.hMult e)
    (ht : s.hSTail e = some t)
    (htt : s.hSTail (s.hTwin e) = some (s.sTwin t))
    (htw : s.hTwin e ≠ e)
    (hb1 : t < s.nextS) (hb2 : s.sTwin t < s.nextS)
    (hb3 : s.sCw t < s.nextS) (hb4 : s.sCw (s.sTwin t) < s.nextS)
    (hne1 : s.sTwin t ≠ t)
    (hne2 : s.sCw t ≠ s.sCw (s.sTwin t))
    (hwf1 : s.sCcw (s.sCw t) = t)
    (hwf2 : s.sCcw (s.sCw (s.sTwin t)) = s.sTwin t)
    (hclosed : ∀ x, x < s.nextS → s.sCw x < s.nextS)
    (hhd : ∀ y, s.hSHead e = some y → y < s.nextS)
    (hhd2 : ∀ y, s.hSHead (s.hTwin e) = some y → y < s.nextS) :
    ∃ s1 s2, addStrand s e = Except.ok s1 ∧ removeStrand s1 e = Except.ok s2 ∧
      (∀ x, s2.hMult x = s.hMult x) ∧
      (∀ x, s2.hSTail x = s.hSTail x) ∧
      (∀ x, s2.hSHead x = s.hSHead x) ∧
      (∀ x, x < s.nextS → s2.sCw x = s.sCw x ∧ s2.sCcw x = s.sCcw x) ∧
      iterateStrands s2 e fuel = iterateStrands s e fuel ∧
      iterateStrands s2 (s.hTwin e) fuel = iterateStrands s (s.hTwin e) fuel := by
  have hemne : e ≠ s.hTwin e := fun h2 => htw h2.symm
  obtain ⟨s1, hok1⟩ := addStrand_ok (by omega) ht
  obtain ⟨hcwA, hccwA, htwinA, hfromA, htoA, hsheadA, hstailA, hmultA, -, -, -, -,
    -, -, -, -, -, -, -, -, -, hnextsA⟩ := addStrand_fields ht hok1
  obtain ⟨hpcw, hpccw, hptw⟩ := addStrand_pointwise ht hok1 hb1 hb2 hne1
  have ht1 : s1.hSTail e = some s.nextS := by
    rw [hstailA, upd_other _ _ _ _ hemne, upd_same]
  have htt1 : s1.hSTail (s1.hTwin e) = some (s.nextS + 1) := by
    rw [htwinA, hstailA, upd_same]
  have hm1 : 1 < s1.hMult e := by
    rw [hmultA, upd_other _ _ _ _ hemne, upd_same]
    omega
  obtain ⟨s2, hok2⟩ := removeStrand_ok hm1 ht1 htt1
  obtain ⟨hcwB, hccwB, htwinB, hfromB, htoB, hsheadB, hstailB, hmultB, -, -, -, -,
    -, -, -, -, -, -, -, -, -, hnextsB⟩ := removeStrand_fields hm1 ht1 htt1 hok2
  obtain ⟨hscw2, hsccw2, -⟩ := removeStrand_pointwise hm1 ht1 htt1 hok2
  have v1 : s1.sCcw s.nextS = t := by
    rw [hpccw, if_neg (by omega), if_neg (by omega), if_neg (by omega), if_pos rfl]
  have v2 : s1.sCcw (s.nextS + 1) = s.sTwin t := by
    rw [hpccw, if_neg (by omega), if_pos rfl]
  have v3 : s1.sCw t = s.nextS := by
    rw [hpcw, if_neg (by omega), if_neg (by omega), if_pos rfl]
  have v4 : s1.sCw (s.sTwin t) = s.nextS + 1 := by
    rw [hpcw, if_pos rfl]
  have v5 : s1.sCw s.nextS = s.sCw t := by
    rw [hpcw, if_neg (by omega), if_neg (by omega), if_neg (by omega), if_pos rfl]
  have v6 : s1.sCw (s.nextS + 1) = s.sCw (s.sTwin t) := by
    rw [hpcw, if_neg (by omega), if_pos rfl]
  have hcwFinal : s2.sCw =
      upd (upd (upd (upd s1.sCw t (s.sCw t)) s.nextS s.nextS)
        (s.sTwin t) (s.sCw (s.sTwin t))) (s.nextS + 1) (s.nextS + 1) := by
    rw [hscw2]
    simp only [v1, v3, v5, v2]
    have w1 : (upd (upd s1.sCw t (s.sCw t)) s.nextS s.nextS) (s.sTwin t)
        = s.nextS + 1 := by
      rw [upd_other _ _ _ _ (by omega), upd_other _ _ _ _ (by omega), v4]
    have w2 : (upd (upd s1.sCcw (s.sCw t) t) s.nextS s.nextS) (s.nextS + 1)
        = s.sTwin t := by
      rw [upd_other _ _ _ _ (by omega), upd_other _ _ _ _ (by omega), v2]
    have w3 : (upd (upd s1.sCw t (s.sCw t)) s.nextS s.nextS) (s.nextS + 1)
        = s.sCw (s.sTwin t) := by
      rw [upd_other _ _ _ _ (by omega), upd_other _ _ _ _ (by omega), v6]
    rw [w1, w2, w3]
  have hccwFinal : s2.sCcw =
      upd (upd (upd (upd s1.sCcw (s.sCw t) t) s.nextS s.nextS)
        (s.sCw (s.sTwin t)) (s.sTwin t)) (s.nextS + 1) (s.nextS + 1) := by
    rw [hsccw2]
    simp only [v1, v3, v5, v2]
    have w1 : (upd (upd s1.sCw t (s.sCw t)) s.nextS s.nextS) (s.sTwin t)
        = s.nextS + 1 := by
      rw [upd_other _ _ _ _ (by omega), upd_other _ _ _ _ (by omega), v4]
    have w2 : (upd (upd s1.sCcw (s.sCw t) t) s.nextS s.nextS) (s.nextS + 1)
        = s.sTwin t := by
      rw [upd_other _ _ _ _ (by omega), upd_other _ _ _ _ (by omega), v2]
    have w3 : (upd (upd s1.sCw t (s.sCw t)) s.nextS s.nextS) (s.nextS + 1)
        = s.sCw (s.sTwin t) := by
      rw [upd_other _ _ _ _ (by omega), upd_other _ _ _ _ (by omega), v6]
    rw [w1, w2, w3]
  have hpoint : ∀ x, x < s.nextS → s2.sCw x = s.sCw x ∧ s2.sCcw x = s.sCcw x := by
    intro x hx
    constructor
    · rw [hcwFinal]
      by_cases hx1 : x = s.sTwin t
      · rw [upd_other _ _ _ _ (by omega), hx1, upd_same]
      · by_cases hx2 : x = t
        · rw [upd_other _ _ _ _ (by omega), upd_other _ _ _ _ hx1,
            upd_other _ _ _ _ (by omega), hx2, upd_same]
        · rw [upd_other _ _ _ _ (by omega), upd_other _ _ _ _ hx1,
            upd_other _ _ _ _ (by omega), upd_other _ _ _ _ hx2, hpcw,
            if_neg hx1, if_neg (by omega), if_neg hx2, if_neg (by omega)]
    · rw [hccwFinal]
      by_cases hx1 : x = s.sCw (s.sTwin t)
      · rw [upd_other _ _ _ _ (by omega), hx1, upd_same, hwf2]
      · by_cases hx2 : x = s.sCw t
        · rw [upd_other _ _ _ _ (by omega), upd_other _ _ _ _ hx1,
            upd_other _ _ _ _ (by omega), hx2, upd_same, hwf1]
        · rw [upd_other _ _ _ _ (by omega), upd_other _ _ _ _ hx1,
            upd_other _ _ _ _ (by omega), upd_other _ _ _ _ hx2, hpccw,
            if_neg hx1, if_neg (by omega), if_neg hx2, if_neg (by omega)]
  have hstail2 : ∀ x, s2.hSTail x = s.hSTail x := by
    intro x
    rw [hstailB, v1, v2, htwinA]
    by_cases hx1 : x = s.hTwin e
    · rw [hx1, upd_same, htt]
    · by_cases hx2 : x = e
      · rw [upd_other _ _ _ _ hx1, hx2, upd_same, ht]
      · rw [upd_other _ _ _ _ hx1, upd_other _ _ _ _ hx2, hstailA,
          upd_other _ _ _ _ hx1, upd_other _ _ _ _ hx2]
  have hshead2 : ∀ x, s2.hSHead x = s.hSHead x := by
    intro x
    rw [hsheadB, hsheadA]
  have hmult2 : ∀ x, s2.hMult x = s.hMult x := by
    intro x
    rw [hmultB, hmultA, htwinA]
    by_cases hx1 : x = s.hTwin e
    · subst hx1
      simp [upd, htw]
    · by_cases hx2 : x = e
      · subst hx2
        simp [upd, hemne]
      · simp [upd, hx1, hx2]
  refine ⟨s1, s2, hok1, hok2, hmult2, hstail2, hshead2, hpoint, ?_, ?_⟩
  · cases hhe : s.hSHead e with
    | none =>
      rw [iterateStrands_none fuel hhe, iterateStrands_none fuel
        (by rw [hshead2 e]; exact hhe)]
    | some hd =>
      have hhdlt := hhd hd hhe
      rw [iterateStrands_eq fuel hhe ht,
        iterateStrands_eq fuel (by rw [hshead2 e]; exact hhe) (by rw [hstail2 e]; exact ht),
        (hpoint t hb1).1]
      exact strandIterAux_congr (fun x hx => (hpoint x hx).1) hclosed fuel hd
        (s.sCw t) hhdlt
  · cases hhe : s.hSHead (s.hTwin e) with
    | none =>
      rw [iterateStrands_none fuel hhe, iterateStrands_none fuel
        (by rw [hshead2 (s.hTwin e)]; exact hhe)]
    | some hd =>
      have hhdlt := hhd2 hd hhe
      rw [iterateStrands_eq fuel hhe htt,
        iterateStrands_eq fuel (by rw [hshead2 (s.hTwin e)]; exact hhe)
          (by rw [hstail2 (s.hTwin e)]; exact htt),
        (hpoint (s.sTwin t) hb2).1]
      exact strandIterAux_congr (fun x hx => (hpoint x hx).1) hclosed fuel hd
        (s.sCw (s.sTwin t)) hhdlt

/-- Witness for c5_thicken_thin_round_trip at c1State, hourglass 0 with
multiplicity 3 (tail strand 4, twin tail 5). -/
theorem c5_thicken_thin_round_trip_witness :
    (0 < c1State.hMult 0 ∧ c1State.hSTail 0 = some 4 ∧
      c1State.hSTail (c1State.hTwin 0) = some (c1State.sTwin 4) ∧
      (∀ x, x < c1State.nextS → c1State.sCw x < c1State.nextS)) ∧
    (∃ s1 s2, addStrand c1State 0 = Except.ok s1 ∧
      removeStrand s1 0 = Except.ok s2 ∧
      (∀ x, s2.hMult x = c1State.hMult x) ∧
      (∀ x, s2.hSTail x = c1State.hSTail x) ∧
      (∀ x, s2.hSHead x = c1State.hSHead x) ∧
      (∀ x, x < c1State.nextS →
        s2.sCw x = c1State.sCw x ∧ s2.sCcw x = c1State.sCcw x) ∧
      iterateStrands s2 0 3 = iterateStrands c1State 0 3 ∧
      iterateStrands s2 (c1State.hTwin 0) 3 =
        iterateStrands c1State (c1State.hTwin 0) 3) :=
  ⟨⟨by decide, by decide, by decide, by decide⟩,
    c5_thicken_thin_round_trip c1State 0 4 3 (by decide) (by decide) (by decide)
      (by decide) (by decide) (by decide) (by decide) (by decide) (by decide)
      (by decide) (by decide) (by decide) (by decide)
      (by
        intro y hy
        rw [show c1State.hSHead 0 = some 0 from by decide] at hy
        injection hy with h
        rw [← h]
        decide)
      (by
        intro y hy
        rw [show c1State.hSHead (c1State.hTwin 0) = some 1 from by decide] at hy
        injection hy with h
        rw [← h]
        decide)⟩

/-- Claim C4.  For every half-hourglass e in a well-formed state (tail
strands present wherever the multiplicity demands them, and e distinct from
its twin): remove_strand/thin raises exactly when the multiplicity is 0
(phantom) or 1, add_strand/thicken raises exactly when the multiplicity is
0, and in the non-raising cases the operation completes, adjusting the
multiplicity of e and of its twin by exactly one. -/
theorem c4_strand_mutation_errors (s : GState) (e : Nat)
    (h1 : 0 < s.hMult e → s.hSTail e ≠ none)
    (h2 : 1 < s.hMult e → s.hSTail (s.hTwin e) ≠ none)
    (htw : s.hTwin e ≠ e) :
    (raised (removeStrand s e) = true ↔ (s.hMult e = 0 ∨ s.hMult e = 1)) ∧
    (raised (addStrand s e) = true ↔ s.hMult e = 0) ∧
    (∀ s2, addStrand s e = Except.ok s2 →
      s2.hMult e = s.hMult e + 1 ∧ s2.hMult (s.hTwin e) = s.hMult (s.hTwin e) + 1) ∧
    (∀ s2, removeStrand s e = Except.ok s2 →
      s2.hMult e = s.hMult e - 1 ∧ s2.hMult (s.hTwin e) = s.hMult (s.hTwin e) - 1) := by
  have hemne : e ≠ s.hTwin e := fun hcontra => htw hcontra.symm
  refine ⟨⟨?_, ?_⟩, ⟨?_, ?_⟩, ?_, ?_⟩
  · intro hr
    by_contra hcontra
    push_neg at hcontra
    have hm : 1 < s.hMult e := by omega
    obtain ⟨t, ht⟩ := Option.ne_none_iff_exists'.mp (h1 (by omega))
    obtain ⟨tt, htt⟩ := Option.ne_none_iff_exists'.mp (h2 hm)
    obtain ⟨s2, hok⟩ := removeStrand_ok hm ht htt
    rw [hok] at hr
    simp [raised] at hr
  · intro hm
    exact removeStrand_err (by omega)
  · intro hr
    by_contra hm
    obtain ⟨t, ht⟩ := Option.ne_none_iff_exists'.mp (h1 (by omega))
    obtain ⟨s2, hok⟩ := addStrand_ok hm ht
    rw [hok] at hr
    simp [raised] at hr
  · intro hm
    rw [addStrand_err hm]
    rfl
  · intro s2 hok
    have hm : s.hMult e ≠ 0 := by
      intro hm
      rw [addStrand_err hm] at hok
      exact absurd hok (by simp)
    obtain ⟨t, ht⟩ := Option.ne_none_iff_exists'.mp (h1 (by omega))
    obtain ⟨-, -, -, -, -, -, -, hmult, -⟩ := addStrand_fields ht hok
    rw [hmult]
    constructor
    · rw [upd_other _ _ _ _ hemne, upd_same]
    · rw [upd_same, upd_other _ _ _ _ htw]
  · intro s2 hok
    have hm : 1 < s.hMult e := by
      by_contra hm
      have := removeStrand_err (e := e) (s := s) (by omega)
      rcases hr : removeStrand s e with m | v
      · rw [hr] at hok; exact absurd hok (by simp)
      · rw [hr] at this; simp [raised] at this
    obtain ⟨t, ht⟩ := Option.ne_none_iff_exists'.mp (h1 (by omega))
    obtain ⟨tt, htt⟩ := Option.ne_none_iff_exists'.mp (h2 hm)
    obtain ⟨-, -, -, -, -, -, -, hmult, -⟩ := removeStrand_fields hm ht htt hok
    rw [hmult]
    constructor
    · rw [upd_other _ _ _ _ hemne, upd_same]
    · rw [upd_same, upd_other _ _ _ _ htw]

/-- Witness for c4_strand_mutation_errors at c1State, hourglass 0
(multiplicity 3): no raise, and both multiplicities move by one. -/
theorem c4_strand_mutation_errors_witness :
    (0 < c1State.hMult 0 → c1State.hSTail 0 ≠ none) ∧
    (1 < c1State.hMult 0 → c1State.hSTail (c1State.hTwin 0) ≠ none) ∧
    c1State.hTwin 0 ≠ 0 ∧
    ((raised (removeStrand c1State 0) = true ↔
        (c1State.hMult 0 = 0 ∨ c1State.hMult 0 = 1)) ∧
      (raised (addStrand c1State 0) = true ↔ c1State.hMult 0 = 0) ∧
      (∀ s2, addStrand c1State 0 = Except.ok s2 →
        s2.hMult 0 = c1State.hMult 0 + 1 ∧
        s2.hMult (c1State.hTwin 0) = c1State.hMult (c1State.hTwin 0) + 1) ∧
      (∀ s2, removeStrand c1State 0 = Except.ok s2 →
        s2.hMult 0 = c1State.hMult 0 - 1 ∧
        s2.hMult (c1State.hTwin 0) = c1State.hMult (c1State.hTwin 0) - 1)) :=
  ⟨by decide, by decide, by decide,
    c4_strand_mutation_errors c1State 0 (by decide) (by decide) (by decide)⟩

theorem twinInv_of_hFieldsEq {a b : GState} (h : HFieldsEq a b)
    (hi : TwinInv b) : TwinInv a := by
  obtain ⟨h1, h2, h3, h4, h5⟩ := h
  intro e he
  rw [h1, h2, h3, h4, h5] at *
  exact hi e he

theorem strandLoop_hFieldsEq (hg a b : Nat) :
    ∀ (k : Nat) (s : GState), HFieldsEq (strandLoop s hg a b k) s := by
  intro k
  induction k with
  | zero => intro s; exact ⟨rfl, rfl, rfl, rfl, rfl⟩
  | succ k ih =>
    intro s
    show HFieldsEq (strandLoop _ hg a b k) s
    obtain ⟨h1, h2, h3, h4, h5⟩ := ih (sInsertCcwNext (sInsertCcwNext
      (allocStrandPair s hg).1 a (allocStrandPair s hg).2)
      b ((sInsertCcwNext (allocStrandPair s hg).1 a (allocStrandPair s hg).2).sTwin
        (allocStrandPair s hg).2))
    exact ⟨h1, h2, h3, h4, h5⟩

theorem hFieldsEq_trans {a b c : GState} (h1 : HFieldsEq a b)
    (h2 : HFieldsEq b c) : HFieldsEq a c :=
  ⟨h1.1.trans h2.1, h1.2.1.trans h2.2.1, h1.2.2.1.trans h2.2.2.1,
    h1.2.2.2.1.trans h2.2.2.2.1, h1.2.2.2.2.trans h2.2.2.2.2⟩

theorem hhInsertCwNext_hFieldsEq (s : GState) (a b fuel : Nat) :
    HFieldsEq (hhInsertCwNext s a b fuel) s := by
  unfold hhInsertCwNext
  dsimp only
  split
  · split
    · exact ⟨rfl, rfl, rfl, rfl, rfl⟩
    · exact ⟨rfl, rfl, rfl, rfl, rfl⟩
  · exact ⟨rfl, rfl, rfl, rfl, rfl⟩

theorem hhInsertCcwNext_hFieldsEq (s : GState) (a b fuel : Nat) :
    HFieldsEq (hhInsertCcwNext s a b fuel) s := by
  unfold hhInsertCcwNext
  dsimp only
  split
  · split
    · exact ⟨rfl, rfl, rfl, rfl, rfl⟩
    · exact ⟨rfl, rfl, rfl, rfl, rfl⟩
  · exact ⟨rfl, rfl, rfl, rfl, rfl⟩

theorem hhRemove_hFieldsEq (s : GState) (a : Nat) :
    HFieldsEq (hhRemove s a) s := by
  unfold hhRemove
  dsimp only
  split
  · exact ⟨rfl, rfl, rfl, rfl, rfl⟩
  · exact ⟨rfl, rfl, rfl, rfl, rfl⟩

theorem vInsertHourglass_hFieldsEq (s : GState) (v hh tgt nh fuel : Nat) :
    HFieldsEq (vInsertHourglass s v hh tgt nh fuel) s := by
  unfold vInsertHourglass
  split
  · exact ⟨rfl, rfl, rfl, rfl, rfl⟩
  · exact hFieldsEq_trans ⟨rfl, rfl, rfl, rfl, rfl⟩
      (hhInsertCwNext_hFieldsEq s tgt hh fuel)

theorem vRemoveHourglass_hFieldsEq (s : GState) (v hh : Nat) :
    HFieldsEq (vRemoveHourglass s v hh) s := by
  unfold vRemoveHourglass
  dsimp only
  split
  · split
    · exact hFieldsEq_trans (hhRemove_hFieldsEq _ hh) ⟨rfl, rfl, rfl, rfl, rfl⟩
    · exact hFieldsEq_trans (hhRemove_hFieldsEq _ hh) ⟨rfl, rfl, rfl, rfl, rfl⟩
  · exact hhRemove_hFieldsEq s hh

theorem createHourglassPair_hfields (s : GState) (v1 v2 m : Nat) :
    (createHourglassPair s v1 v2 m).1.hTwin
      = upd (upd s.hTwin s.nextH (s.nextH + 1)) (s.nextH + 1) s.nextH ∧
    (createHourglassPair s v1 v2 m).1.hMult
      = upd (upd s.hMult s.nextH m) (s.nextH + 1) m ∧
    (createHourglassPair s v1 v2 m).1.hFrom
      = upd (upd s.hFrom s.nextH v1) (s.nextH + 1) v2 ∧
    (createHourglassPair s v1 v2 m).1.hTo
      = upd (upd s.hTo s.nextH v2) (s.nextH + 1) v1 ∧
    (createHourglassPair s v1 v2 m).1.nextH = s.nextH + 2 := by
  unfold createHourglassPair
  split
  · exact ⟨rfl, rfl, rfl, rfl, rfl⟩
  · obtain ⟨h1, h2, h3, h4, h5⟩ := strandLoop_hFieldsEq s.nextH
      (allocStrandPair _ s.nextH).2 _ (m - 1) _
    exact ⟨h1, h2, h3, h4, h5⟩

theorem vIns_hTwin (s : GState) (v hh tgt nh fuel : Nat) :
    (vInsertHourglass s v hh tgt nh fuel).hTwin = s.hTwin :=
  (vInsertHourglass_hFieldsEq s v hh tgt nh fuel).1

theorem vIns_hMult (s : GState) (v hh tgt nh fuel : Nat) :
    (vInsertHourglass s v hh tgt nh fuel).hMult = s.hMult :=
  (vInsertHourglass_hFieldsEq s v hh tgt nh fuel).2.1

theorem vIns_hFrom (s : GState) (v hh tgt nh fuel : Nat) :
    (vInsertHourglass s v hh tgt nh fuel).hFrom = s.hFrom :=
  (vInsertHourglass_hFieldsEq s v hh tgt nh fuel).2.2.1

theorem vIns_hTo (s : GState) (v hh tgt nh fuel : Nat) :
    (vInsertHourglass s v hh tgt nh fuel).hTo = s.hTo :=
  (vInsertHourglass_hFieldsEq s v hh tgt nh fuel).2.2.2.1

theorem vIns_nextH (s : GState) (v hh tgt nh fuel : Nat) :
    (vInsertHourglass s v hh tgt nh fuel).nextH = s.nextH :=
  (vInsertHourglass_hFieldsEq s v hh tgt nh fuel).2.2.2.2

theorem vRem_hTwin (s : GState) (v hh : Nat) :
    (vRemoveHourglass s v hh).hTwin = s.hTwin :=
  (vRemoveHourglass_hFieldsEq s v hh).1

theorem vRem_hMult (s : GState) (v hh : Nat) :
    (vRemoveHourglass s v hh).hMult = s.hMult :=
  (vRemoveHourglass_hFieldsEq s v hh).2.1

theorem vRem_hFrom (s : GState) (v hh : Nat) :
    (vRemoveHourglass s v hh).hFrom = s.hFrom :=
  (vRemoveHourglass_hFieldsEq s v hh).2.2.1

theorem vRem_hTo (s : GState) (v hh : Nat) :
    (vRemoveHourglass s v hh).hTo = s.hTo :=
  (vRemoveHourglass_hFieldsEq s v hh).2.2.2.1

theorem vRem_nextH (s : GState) (v hh : Nat) :
    (vRemoveHourglass s v hh).nextH = s.nextH :=
  (vRemoveHourglass_hFieldsEq s v hh).2.2.2.2

/-- Field description of reparent (halfhourglass.py lines 256-284): twins,
multiplicities and the allocation counter are untouched; only the from
vertex of e and the to vertex of its twin change, both to the new vertex. -/
theorem reparent_hfields (s : GState) (e v tgt1 nh1 tgt2 nh2 fuel : Nat) :
    (reparent s e v tgt1 nh1 tgt2 nh2 fuel).hTwin = s.hTwin ∧
    (reparent s e v tgt1 nh1 tgt2 nh2 fuel).hMult = s.hMult ∧
    (reparent s e v tgt1 nh1 tgt2 nh2 fuel).nextH = s.nextH ∧
    (reparent s e v tgt1 nh1 tgt2 nh2 fuel).hFrom = upd s.hFrom e v ∧
    (reparent s e v tgt1 nh1 tgt2 nh2 fuel).hTo = upd s.hTo (s.hTwin e) v := by
  refine ⟨?_, ?_, ?_, ?_, ?_⟩ <;>
    simp [reparent, vIns_hTwin, vIns_hMult, vIns_hFrom, vIns_hTo, vIns_nextH,
      vRem_hTwin, vRem_hMult, vRem_hFrom, vRem_hTo, vRem_nextH]

theorem addStrand_ok_tail {s s2 : GState} {e : Nat}
    (hok : addStrand s e = Except.ok s2) : ∃ t, s.hSTail e = some t := by
  unfold addStrand at hok
  split at hok
  · exact absurd hok (by simp)
  · cases hht : s.hSTail e with
    | none => rw [hht] at hok; exact absurd hok (by simp)
    | some t => exact ⟨t, rfl⟩

theorem removeStrand_ok_inv {s s2 : GState} {e : Nat}
    (hok : removeStrand s e = Except.ok s2) :
    1 < s.hMult e ∧ (∃ t, s.hSTail e = some t) ∧
      ∃ tt, s.hSTail (s.hTwin e) = some tt := by
  unfold removeStrand at hok
  split at hok
  · split at hok
    · exact absurd hok (by simp)
    · exact absurd hok (by simp)
  · refine ⟨by omega, ?_⟩
    cases hht : s.hSTail e with
    | none => rw [hht] at hok; exact absurd hok (by simp)
    | some t =>
      cases hhtt : s.hSTail (s.hTwin e) with
      | none => rw [hht, hhtt] at hok; exact absurd hok (by simp)
      | some tt => exact ⟨⟨t, rfl⟩, ⟨tt, rfl⟩⟩

theorem twinInv_mult_step {s : GState}
    (hi : TwinInv s) {e : Nat} (he : e < s.nextH)
    (M : Nat → Nat)
    (hMe : M e = M (s.hTwin e)) (hMo : ∀ x, x ≠ e → x ≠ s.hTwin e → M x = s.hMult x) :
    ∀ f, f < s.nextH → M f = M (s.hTwin f) := by
  intro f hf
  obtain ⟨htlt, htinv, htne, htm, -⟩ := hi e he
  by_cases hf1 : f = e
  · subst hf1
    exact hMe
  · by_cases hf2 : f = s.hTwin e
    · subst hf2
      rw [htinv]
      exact hMe.symm
    · have htf1 : s.hTwin f ≠ e := by
        intro hc
        obtain ⟨-, hfinv, -, -, -⟩ := hi f hf
        rw [← hfinv, hc] at hf2
        exact hf2 rfl
      have htf2 : s.hTwin f ≠ s.hTwin e := by
        intro hc
        obtain ⟨-, hfinv, -, -, -⟩ := hi f hf
        rw [← hfinv, hc, htinv] at hf1
        exact hf1 rfl
      rw [hMo f hf1 hf2, hMo (s.hTwin f) htf1 htf2]
      exact (hi f hf).2.2.2.1

/-- Claim C6.  Twin symmetry (twin of twin is self, twins are distinct,
multiplicities agree across twins, and v_from equals the twin v_to) holds
for the empty graph, is established by hourglass pair construction, and is
preserved by add_strand/thicken, remove_strand/thin, reparent (for any
insertion positions), the rotation-list insertions and removals of the
HalfHourglass overrides, and the vertex-level insert and remove. -/
theorem c6_twin_symmetry_invariant :
    TwinInv emptyG ∧
    (∀ s v1 v2 m, TwinInv s → TwinInv (createHourglassPair s v1 v2 m).1) ∧
    (∀ s e s2, e < s.nextH → TwinInv s → addStrand s e = Except.ok s2 →
      TwinInv s2) ∧
    (∀ s e s2, e < s.nextH → TwinInv s → removeStrand s e = Except.ok s2 →
      TwinInv s2) ∧
    (∀ s e v tgt1 nh1 tgt2 nh2 fuel, e < s.nextH → TwinInv s →
      TwinInv (reparent s e v tgt1 nh1 tgt2 nh2 fuel)) ∧
    (∀ s a b fuel, TwinInv s → TwinInv (hhInsertCwNext s a b fuel)) ∧
    (∀ s a b fuel, TwinInv s → TwinInv (hhInsertCcwNext s a b fuel)) ∧
    (∀ s a, TwinInv s → TwinInv (hhRemove s a)) ∧
    (∀ s v hh tgt nh fuel, TwinInv s →
      TwinInv (vInsertHourglass s v hh tgt nh fuel)) ∧
    (∀ s v hh, TwinInv s → TwinInv (vRemoveHourglass s v hh)) := by
  refine ⟨?_, ?_, ?_, ?_, ?_, ?_, ?_, ?_, ?_, ?_⟩
  · intro e he
    exact absurd he (by simp [emptyG])
  · -- pair construction
    intro s v1 v2 m hi
    obtain ⟨hTw, hM, hF, hT, hN⟩ := createHourglassPair_hfields s v1 v2 m
    intro f hf
    rw [hTw, hM, hF, hT, hN] at *
    by_cases hf1 : f = s.nextH
    · subst hf1
      refine ⟨?_, ?_, ?_, ?_, ?_⟩ <;> simp [upd]
    · by_cases hf2 : f = s.nextH + 1
      · subst hf2
        refine ⟨?_, ?_, ?_, ?_, ?_⟩ <;> simp [upd]
      · have hlt : f < s.nextH := by omega
        obtain ⟨htlt, htinv, htne, htm, hft⟩ := hi f hlt
        have h3 : s.hTwin f ≠ s.nextH := by omega
        have h4 : s.hTwin f ≠ s.nextH + 1 := by omega
        refine ⟨?_, ?_, ?_, ?_, ?_⟩
        · simp only [upd, if_neg hf2, if_neg hf1]
          omega
        · simp only [upd, if_neg hf2, if_neg hf1, if_neg h4, if_neg h3]
          exact htinv
        · simp only [upd, if_neg hf2, if_neg hf1]
          exact htne
        · simp only [upd, if_neg hf2, if_neg hf1, if_neg h4, if_neg h3]
          exact htm
        · simp only [upd, if_neg hf2, if_neg hf1, if_neg h4, if_neg h3]
          exact hft
  · -- add_strand
    intro s e s2 he hi hok
    obtain ⟨t, ht⟩ := addStrand_ok_tail hok
    obtain ⟨-, -, hTw, hF, hT, -, -, hM, -⟩ := addStrand_fields ht hok
    obtain ⟨-, -, htne, -, -⟩ := hi e he
    have hemne : e ≠ s.hTwin e := fun h2 => htne h2.symm
    have hnh : s2.nextH = s.nextH := by
      obtain ⟨-, -, -, -, -, -, -, -, -, -, -, -, -, -, -, -, -, -, -, hnh, -, -⟩ :=
        addStrand_fields ht hok
      exact hnh
    intro f hf
    rw [hnh] at hf
    rw [hTw, hF, hT, hM, hnh]
    have hmstep := twinInv_mult_step hi he
      (upd (upd s.hMult e (s.hMult e + 1)) (s.hTwin e)
        (upd s.hMult e (s.hMult e + 1) (s.hTwin e) + 1))
      (by
        rw [upd_other _ _ _ _ hemne, upd_same, upd_same,
          upd_other _ _ _ _ htne]
        exact congrArg (fun z => z + 1) (hi e he).2.2.2.1)
      (by
        intro x hx1 hx2
        rw [upd_other _ _ _ _ hx2, upd_other _ _ _ _ hx1])
    obtain ⟨h1, h2, h3, -, h5⟩ := hi f hf
    exact ⟨h1, h2, h3, hmstep f hf, h5⟩
  · -- remove_strand
    intro s e s2 he hi hok
    obtain ⟨hm, ⟨t, ht⟩, ⟨tt, htt⟩⟩ := removeStrand_ok_inv hok
    obtain ⟨-, -, hTw, hF, hT, -, -, hM, -, -, -, -, -, -, -, -, -, -, -, hnh, -, -⟩ :=
      removeStrand_fields hm ht htt hok
    obtain ⟨-, -, htne, -, -⟩ := hi e he
    have hemne : e ≠ s.hTwin e := fun h2 => htne h2.symm
    intro f hf
    rw [hnh] at hf
    rw [hTw, hF, hT, hM, hnh]
    have hmstep := twinInv_mult_step hi he
      (upd (upd s.hMult e (s.hMult e - 1)) (s.hTwin e)
        (upd s.hMult e (s.hMult e - 1) (s.hTwin e) - 1))
      (by
        rw [upd_other _ _ _ _ hemne, upd_same, upd_same,
          upd_other _ _ _ _ htne]
        exact congrArg (fun z => z - 1) (hi e he).2.2.2.1)
      (by
        intro x hx1 hx2
        rw [upd_other _ _ _ _ hx2, upd_other _ _ _ _ hx1])
    obtain ⟨h1, h2, h3, -, h5⟩ := hi f hf
    exact ⟨h1, h2, h3, hmstep f hf, h5⟩
  · -- reparent
    intro s e v tgt1 nh1 tgt2 nh2 fuel he hi
    obtain ⟨hTw, hM, hN, hF, hT⟩ := reparent_hfields s e v tgt1 nh1 tgt2 nh2 fuel
    intro f hf
    rw [hN] at hf
    rw [hTw, hM, hN, hF, hT]
    obtain ⟨h1, h2, h3, h4, h5⟩ := hi f hf
    obtain ⟨-, heinv, hetne, -, -⟩ := hi e he
    refine ⟨h1, h2, h3, h4, ?_⟩
    by_cases hf1 : f = e
    · subst hf1
      rw [upd_same, upd_same]
    · have htfne : s.hTwin f ≠ s.hTwin e := by
        intro hc
        obtain ⟨-, hfinv, -, -, -⟩ := hi f hf
        rw [← hfinv, hc, heinv] at hf1
        exact hf1 rfl
      rw [upd_other _ _ _ _ hf1, upd_other _ _ _ _ htfne]
      exact h5
  · -- hourglass-level insert_cw_next
    intro s a b fuel hi
    exact twinInv_of_hFieldsEq (hhInsertCwNext_hFieldsEq s a b fuel) hi
  · intro s a b fuel hi
    exact twinInv_of_hFieldsEq (hhInsertCcwNext_hFieldsEq s a b fuel) hi
  · intro s a hi
    exact twinInv_of_hFieldsEq (hhRemove_hFieldsEq s a) hi
  · intro s v hh tgt nh fuel hi
    exact twinInv_of_hFieldsEq (vInsertHourglass_hFieldsEq s v hh tgt nh fuel) hi
  · intro s v hh hi
    exact twinInv_of_hFieldsEq (vRemoveHourglass_hFieldsEq s v hh) hi

/-- Witness for c6_twin_symmetry_invariant: pair construction on the empty
graph establishes the invariant. -/
theorem c6_twin_symmetry_invariant_witness :
    TwinInv emptyG ∧ TwinInv (createHourglassPair emptyG 0 1 2).1 :=
  ⟨c6_twin_symmetry_invariant.1,
    c6_twin_symmetry_invariant.2.1 emptyG 0 1 2 c6_twin_symmetry_invariant.1⟩

/-- Witness for c3_rotation_invariant at c3State, vertex 0, circle 0 :: [2]. -/
theorem c3_rotation_invariant_witness :
    c3State.vHead 0 = some 0 ∧
    (iterateCw c3State 0 2 = 0 :: [2] ∧
      iterateCcw c3State 0 2 = 0 :: [2].reverse ∧
      iterateCw c3State 0 2 = 0 :: ((iterateCcw c3State 0 2).tail).reverse ∧
      getIth c3State.hCw 0 (simpleDegree c3State 0 2) = 0) :=
  ⟨by decide,
    c3_rotation_invariant c3State 0 0 2 [2] (by decide) (by decide) (by decide)
      (by decide) (by decide)⟩

/-- Characterization of the is_square_move_valid loop: when the right-turn
walk from cur closes back to head with visited list L, the loop returns a
boolean that is true exactly when the colors alternate from the running
flag, the running count stays at most 4 throughout (count + L.length ≤ 5),
and the accumulated multiplicities sum to r. -/
theorem isqAux_spec (s : GState) (r head : Nat) :
    ∀ (fuel : Nat) (L : List Nat) (cur count msum : Nat) (sbf : Bool),
      stepOrbit (hRightTurn s) head fuel cur = some L →
      isqAux s r head fuel cur count msum sbf =
        some (altColors s sbf L &&
          (decide (count + L.length ≤ 5) && decide (msum + multSum s L = r))) := by
  intro fuel
  induction fuel with
  | zero =>
    intro L cur count msum sbf horb
    simp [stepOrbit] at horb
  | succ fuel ih =>
    intro L cur count msum sbf horb
    rw [stepOrbit] at horb
    by_cases hstep : hRightTurn s cur = head
    · rw [if_pos hstep] at horb
      injection horb with hL
      subst hL
      simp only [isqAux]
      by_cases hc : s.vFilled (s.hTo cur) = sbf
      · rw [if_neg (show ¬(s.vFilled (s.hTo cur) ≠ sbf) from by simp [hc])]
        by_cases hcount : 4 < count
        · rw [if_pos hcount]
          have h5 : ¬ (count + ([cur] : List Nat).length ≤ 5) := by simp; omega
          simp [altColors, multSum, hc, h5]
          omega
        · rw [if_neg hcount, if_pos hstep]
          have h5 : count + ([cur] : List Nat).length ≤ 5 := by simp; omega
          simp [altColors, multSum, hc, h5]
          omega
      · rw [if_pos (show s.vFilled (s.hTo cur) ≠ sbf from hc)]
        simp [altColors, hc]
    · rw [if_neg hstep] at horb
      rcases Option.map_eq_some'.mp horb with ⟨L2, hL2, hcons⟩
      subst hcons
      simp only [isqAux]
      by_cases hc : s.vFilled (s.hTo cur) = sbf
      · rw [if_neg (show ¬(s.vFilled (s.hTo cur) ≠ sbf) from by simp [hc])]
        by_cases hcount : 4 < count
        · rw [if_pos hcount]
          have h5 : ¬ (count + (cur :: L2).length ≤ 5) := by simp; omega
          simp [altColors, multSum, hc, h5]
          intro h1 h2
          omega
        · rw [if_neg hcount, if_neg hstep]
          rw [ih L2 (hRightTurn s cur) (count + 1) (msum + s.hMult cur) (!sbf) hL2]
          simp only [altColors, multSum, List.map_cons, List.sum_cons,
            List.length_cons]
          rw [show (s.vFilled (s.hTo cur) == sbf) = true from by simp [hc]]
          have e1 : decide (count + 1 + L2.length ≤ 5) =
              decide (count + (L2.length + 1) ≤ 5) :=
            decide_eq_decide.mpr (by omega)
          have e2 : decide (msum + s.hMult cur + (L2.map s.hMult).sum = r) =
              decide (msum + (s.hMult cur + (L2.map s.hMult).sum) = r) :=
            decide_eq_decide.mpr (by omega)
          rw [e1, e2, Bool.true_and]
      · rw [if_pos (show s.vFilled (s.hTo cur) ≠ sbf from hc)]
        simp [altColors, hc]

/-- Claim C2, counterexample.  The bigon face of c2State has a boundary
cycle of exactly 2 half-hourglasses between 2 vertices, yet
is_square_move_valid(4) returns True: the count guard only rejects cycles
longer than 5, so a 2-cycle with alternating colors and total multiplicity
4 passes, refuting the claimed "exactly 4 vertices". -/
theorem c2_counterexample :
    stepOrbit (hRightTurn c2State) (c2State.fHead 0) 8 (c2State.fHead 0) =
      some [0, 3] ∧
    c2State.hFrom 0 = 0 ∧ c2State.hFrom 3 = 1 ∧
    is_square_move_valid c2State 0 4 8 = some true := by
  decide

/-- Claim C2 (amended).  For every face whose right-turn boundary cycle
closes with visited list L, is_square_move_valid(r) returns true exactly
when the vertex fill colors alternate around the cycle starting against the
head's source color, the cycle has at most 5 half-hourglasses (not exactly
4: the source guard `count > 4` only rejects longer cycles), and the sum of
the multiplicities of the boundary half-hourglasses equals r. -/
theorem c2_square_move_validity (s : GState) (f r fuel : Nat) (L : List Nat)
    (horb : stepOrbit (hRightTurn s) (s.fHead f) fuel (s.fHead f) = some L) :
    is_square_move_valid s f r fuel =
      some (altColors s (!(s.vFilled (s.hFrom (s.fHead f)))) L &&
        (decide (L.length ≤ 5) && decide (multSum s L = r))) := by
  have h := isqAux_spec s r (s.fHead f) fuel L (s.fHead f) 0 0
    (!(s.vFilled (s.hFrom (s.fHead f)))) horb
  simpa [is_square_move_valid] using h

/-- Witness for c2_square_move_validity at the bigon face of c2State. -/
theorem c2_square_move_validity_witness :
    is_square_move_valid c2State 0 4 8 =
      some (altColors c2State (!(c2State.vFilled (c2State.hFrom (c2State.fHead 0))))
          [0, 3] &&
        (decide (([0, 3] : List Nat).length ≤ 5) &&
          decide (multSum c2State [0, 3] = 4))) :=
  c2_square_move_validity c2State 0 4 8 [0, 3] (by decide)

/-- Totality of the is_benzene_move_valid loop: when the right-turn walk
from cur closes back to head, the loop returns a boolean. -/
theorem ibzAux_total (s : GState) (head : Nat) :
    ∀ (fuel : Nat) (L : List Nat) (cur count expected : Nat) (sbf : Bool),
      stepOrbit (hRightTurn s) head fuel cur = some L →
      ∃ b, ibzAux s head fuel cur count expected sbf = some b := by
  intro fuel
  induction fuel with
  | zero =>
    intro L cur count expected sbf horb
    simp [stepOrbit] at horb
  | succ fuel ih =>
    intro L cur count expected sbf horb
    rw [stepOrbit] at horb
    simp only [ibzAux]
    by_cases h1 : s.hMult cur ≠ expected
    · rw [if_pos h1]; exact ⟨false, rfl⟩
    · rw [if_neg h1]
      by_cases h2 : s.vFilled (s.hTo cur) ≠ sbf
      · rw [if_pos h2]; exact ⟨false, rfl⟩
      · rw [if_neg h2]
        by_cases hstep : hRightTurn s cur = head
        · rw [if_pos hstep]; exact ⟨_, rfl⟩
        · rw [if_neg hstep]
          rw [if_neg hstep] at horb
          rcases Option.map_eq_some'.mp horb with ⟨L2, hL2, _⟩
          exact ih L2 _ _ _ _ hL2

/-- Totality of the is_cycle_valid loop: when the right-turn walk from cur
closes back to head, the loop returns a boolean. -/
theorem icvAux_total (s : GState) (head : Nat) :
    ∀ (fuel : Nat) (L : List Nat) (cur count : Nat) (sbf cm : Bool),
      stepOrbit (hRightTurn s) head fuel cur = some L →
      ∃ b, icvAux s head fuel cur count sbf cm = some b := by
  intro fuel
  induction fuel with
  | zero =>
    intro L cur count sbf cm horb
    simp [stepOrbit] at horb
  | succ fuel ih =>
    intro L cur count sbf cm horb
    rw [stepOrbit] at horb
    simp only [icvAux]
    cases h1 : cm && decide (s.hMult cur ≤ 1) with
    | true => exact ⟨false, by simp⟩
    | false =>
      rw [if_neg (show ¬(false = true) by simp)]
      by_cases h2 : s.vFilled (s.hTo cur) ≠ sbf
      · rw [if_pos h2]; exact ⟨false, rfl⟩
      · rw [if_neg h2]
        by_cases hstep : hRightTurn s cur = head
        · rw [if_pos hstep]; exact ⟨_, rfl⟩
        · rw [if_neg hstep]
          rw [if_neg hstep] at horb
          rcases Option.map_eq_some'.mp horb with ⟨L2, hL2, _⟩
          exact ih L2 _ _ _ _ hL2

/-- Claim C9, counterexample.  Half-hourglass 2 of c9State borders face 0 on
neither side, and is_cycle_valid with it as start_hh raises
ValueError("start_hh does not belong to this face.") instead of returning a
boolean (face.py line 436), refuting "returns a boolean for every argument
value". -/
theorem c9_counterexample :
    c9State.hRight 2 ≠ some 0 ∧ c9State.hLeft 2 ≠ some 0 ∧
    is_cycle_valid c9State 0 (some 2) false 8 =
      some (Except.error "start_hh does not belong to this face.") :=
  ⟨by decide, by decide, by rfl⟩

/-- Claim C9 (amended).  The validity predicates are pure boolean checks:
in this embedding they are functions of the graph state that return no
state, mirroring the source methods, which assign only local variables.  On
every face whose right-turn boundary cycle closes, is_square_move_valid(r)
and is_benzene_move_valid() return a boolean; is_cycle_valid(start_hh)
returns a boolean when start_hh has the face on its right (or, falling back
to its twin, on its left) and its walk closes, but raises
ValueError("start_hh does not belong to this face.") when start_hh borders
the face on neither side. -/
theorem c9_validity_predicates (s : GState) (f r fuel st : Nat) (L : List Nat)
    (horb : stepOrbit (hRightTurn s) (s.fHead f) fuel (s.fHead f) = some L) :
    (∃ b, is_square_move_valid s f r fuel = some b) ∧
    (∃ b, is_benzene_move_valid s f fuel = some b) ∧
    (s.hRight st = some f →
      ∀ M, stepOrbit (hRightTurn s) st fuel st = some M →
        ∃ b, is_cycle_valid s f (some st) false fuel = some (Except.ok b)) ∧
    (s.hRight st ≠ some f → s.hLeft st = some f →
      ∀ M, stepOrbit (hRightTurn s) (s.hTwin st) fuel (s.hTwin st) = some M →
        ∃ b, is_cycle_valid s f (some st) false fuel = some (Except.ok b)) ∧
    (s.hRight st ≠ some f → s.hLeft st ≠ some f →
      is_cycle_valid s f (some st) false fuel =
        some (Except.error "start_hh does not belong to this face.")) := by
  refine ⟨?_, ?_, ?_, ?_, ?_⟩
  · have h := isqAux_spec s r (s.fHead f) fuel L (s.fHead f) 0 0
      (!(s.vFilled (s.hFrom (s.fHead f)))) horb
    exact ⟨_, by simpa [is_square_move_valid] using h⟩
  · rcases ibzAux_total s (s.fHead f) fuel L (s.fHead f) 0
      (if s.hMult (s.fHead f) = 1 then 1 else 2)
      (!(s.vFilled (s.hFrom (s.fHead f)))) horb with ⟨b, hb⟩
    exact ⟨b, by simpa [is_benzene_move_valid] using hb⟩
  · intro h3 M hM
    rcases icvAux_total s st fuel M st 0 (!(s.vFilled (s.hFrom st))) true hM with
      ⟨b, hb⟩
    refine ⟨b, ?_⟩
    simp only [is_cycle_valid, Option.getD_some]
    rw [if_pos h3]
    simp [icvFrom, hb]
  · intro h3 h4 M hM
    rcases icvAux_total s (s.hTwin st) fuel M (s.hTwin st) 0
      (!(s.vFilled (s.hFrom (s.hTwin st)))) true hM with ⟨b, hb⟩
    refine ⟨b, ?_⟩
    simp only [is_cycle_valid, Option.getD_some]
    rw [if_neg h3, if_pos h4]
    simp [icvFrom, hb]
  · intro h3 h4
    simp only [is_cycle_valid, Option.getD_some]
    rw [if_neg h3, if_neg h4]

/-- Witness for c9_validity_predicates at c9State, face 0, start
half-hourglass 2 (which borders the face on neither side). -/
theorem c9_validity_predicates_witness :
    (∃ b, is_square_move_valid c9State 0 4 8 = some b) ∧
    (∃ b, is_benzene_move_valid c9State 0 8 = some b) ∧
    (c9State.hRight 2 = some 0 →
      ∀ M, stepOrbit (hRightTurn c9State) 2 8 2 = some M →
        ∃ b, is_cycle_valid c9State 0 (some 2) false 8 = some (Except.ok b)) ∧
    (c9State.hRight 2 ≠ some 0 → c9State.hLeft 2 = some 0 →
      ∀ M, stepOrbit (hRightTurn c9State) (c9State.hTwin 2) 8
          (c9State.hTwin 2) = some M →
        ∃ b, is_cycle_valid c9State 0 (some 2) false 8 = some (Except.ok b)) ∧
    (c9State.hRight 2 ≠ some 0 → c9State.hLeft 2 ≠ some 0 →
      is_cycle_valid c9State 0 (some 2) false 8 =
        some (Except.error "start_hh does not belong to this face.")) :=
  c9_validity_predicates c9State 0 4 8 2 [0, 2, 3, 1] (by decide)

/-- benzOk only inspects multiplicities and tails at the members and their
twins, so it transfers to any state agreeing there. -/
theorem benzOk_congr {tw : Nat → Nat} {σ σ2 : GState} :
    ∀ {th : Bool} {r : List Nat},
      (∀ y ∈ r, σ2.hMult y = σ.hMult y ∧ σ2.hMult (tw y) = σ.hMult (tw y) ∧
        σ2.hSTail y = σ.hSTail y ∧ σ2.hSTail (tw y) = σ.hSTail (tw y)) →
      benzOk tw σ th r → benzOk tw σ2 th r := by
  intro th r
  induction r generalizing th with
  | nil => intro _ _; trivial
  | cons x r ih =>
    intro hag hok
    simp only [benzOk] at hok ⊢
    obtain ⟨h1, h2, h3, h4, h5, h6⟩ := hok
    obtain ⟨g1, g2, g3, g4⟩ := hag x (by simp)
    exact ⟨by rw [g1]; exact h1, by rw [g2, g1]; exact h2,
      by rw [g3]; exact h3, by rw [g4]; exact h4, h5,
      ih (fun y hy => hag y (by simp [hy])) h6⟩

/-- Flipping every multiplicity between 1 and 2 flips the benzOk flag. -/
theorem benzOk_flip {tw : Nat → Nat} {σ σ2 : GState} :
    ∀ {th : Bool} {r : List Nat},
      benzOk tw σ th r →
      (∀ x ∈ r, σ2.hMult x = 3 - σ.hMult x ∧
        σ2.hMult (tw x) = 3 - σ.hMult (tw x) ∧
        (σ2.hSTail x).isSome = true ∧ (σ2.hSTail (tw x)).isSome = true) →
      benzOk tw σ2 (!th) r := by
  intro th r
  induction r generalizing th with
  | nil => intro _ _; trivial
  | cons x r ih =>
    intro hok hf
    simp only [benzOk] at hok ⊢
    obtain ⟨h1, h2, h3, h4, h5, h6⟩ := hok
    obtain ⟨g1, g2, g3, g4⟩ := hf x (by simp)
    refine ⟨?_, by rw [g2, h2, g1], g3, g4, h5,
      ih h6 (fun y hy => hf y (by simp [hy]))⟩
    rw [g1, h1]
    cases th <;> rfl

/-- Every member of a benzOk cycle has multiplicity 1 or 2, matched by its
twin. -/
theorem benzOk_mem {tw : Nat → Nat} {σ : GState} :
    ∀ {th : Bool} {L : List Nat}, benzOk tw σ th L →
      ∀ x ∈ L, (σ.hMult x = 1 ∨ σ.hMult x = 2) ∧ σ.hMult (tw x) = σ.hMult x := by
  intro th L
  induction L generalizing th with
  | nil => intro _ x hx; simp at hx
  | cons a r ih =>
    intro h x hx
    simp only [benzOk] at h
    obtain ⟨h1, h2, -, -, -, h6⟩ := h
    rcases List.mem_cons.mp hx with hx | hx
    · subst hx
      refine ⟨?_, h2⟩
      cases th
      · right; simpa using h1
      · left; simpa using h1
    · exact ih h6 x hx

/-- The list returned by a closed stepOrbit starts at the walk's start. -/
theorem stepOrbit_head {step : Nat → Nat} {head fuel cur : Nat} {L : List Nat}
    (h : stepOrbit step head fuel cur = some L) : ∃ r, L = cur :: r := by
  match fuel with
  | 0 => simp [stepOrbit] at h
  | fuel + 1 =>
    rw [stepOrbit] at h
    by_cases hs : step cur = head
    · rw [if_pos hs] at h
      injection h with h
      exact ⟨[], h.symm⟩
    · rw [if_neg hs] at h
      rcases Option.map_eq_some'.mp h with ⟨l, _, hl⟩
      exact ⟨l, hl.symm⟩

/-- One thicken-or-thin step of benzene_move succeeds when the multiplicity
matches the flag and the tail strands exist. -/
theorem benz_step_ok {σ : GState} {cur : Nat} {th : Bool}
    (hm1 : σ.hMult cur = (if th then 1 else 2))
    (ht1 : (σ.hSTail cur).isSome = true)
    (ht2 : (σ.hSTail (σ.hTwin cur)).isSome = true) :
    ∃ σ1, (if th then addStrand σ cur else removeStrand σ cur) = Except.ok σ1 := by
  rcases Option.isSome_iff_exists.mp ht1 with ⟨t, ht⟩
  rcases Option.isSome_iff_exists.mp ht2 with ⟨tt, htt⟩
  cases th with
  | false =>
    have hm : 1 < σ.hMult cur := by simp at hm1; omega
    rcases removeStrand_ok hm ht htt with ⟨σ1, h⟩
    exact ⟨σ1, by simpa using h⟩
  | true =>
    have hm : σ.hMult cur ≠ 0 := by simp at hm1; omega
    rcases addStrand_ok hm ht with ⟨σ1, h⟩
    exact ⟨σ1, by simpa using h⟩

/-- Effect of one thicken-or-thin step of benzene_move: the multiplicity of
the processed half-hourglass and of its twin flips between 1 and 2, their
tails stay present, and every other multiplicity, tail and all links are
untouched. -/
theorem benz_step {s0 σ σ1 : GState} {cur : Nat} {th : Bool}
    (hcw : σ.hCw = s0.hCw) (hccw : σ.hCcw = s0.hCcw) (htw : σ.hTwin = s0.hTwin)
    (hm1 : σ.hMult cur = (if th then 1 else 2))
    (hm2 : σ.hMult (s0.hTwin cur) = σ.hMult cur)
    (hne : s0.hTwin cur ≠ cur)
    (hok : (if th then addStrand σ cur else removeStrand σ cur) = Except.ok σ1) :
    σ1.hCw = s0.hCw ∧ σ1.hCcw = s0.hCcw ∧ σ1.hTwin = s0.hTwin ∧
    σ1.fHead = σ.fHead ∧ σ1.vFilled = σ.vFilled ∧
    σ1.hFrom = σ.hFrom ∧ σ1.hTo = σ.hTo ∧
    σ1.hMult cur = 3 - σ.hMult cur ∧
    σ1.hMult (s0.hTwin cur) = 3 - σ.hMult (s0.hTwin cur) ∧
    (σ1.hSTail cur).isSome = true ∧
    (σ1.hSTail (s0.hTwin cur)).isSome = true ∧
    (∀ x, x ≠ cur → x ≠ s0.hTwin cur →
      σ1.hMult x = σ.hMult x ∧ σ1.hSTail x = σ.hSTail x) := by
  have hneσ : σ.hTwin cur ≠ cur := by rw [htw]; exact hne
  have hm2σ : σ.hMult (σ.hTwin cur) = σ.hMult cur := by rw [htw]; exact hm2
  cases th with
  | true =>
    replace hok : addStrand σ cur = Except.ok σ1 := by simpa using hok
    obtain ⟨t, ht⟩ := addStrand_ok_tail hok
    obtain ⟨f1, f2, f3, f4, f5, f6, f7, f8, f9, f10, f11, f12, f13, f14, f15,
      f16, f17, f18, f19, f20, f21, f22⟩ := addStrand_fields ht hok
    simp only [if_true] at hm1
    refine ⟨by rw [f1, hcw], by rw [f2, hccw], by rw [f3, htw], f12, f9, f4, f5,
      ?_, ?_, ?_, ?_, ?_⟩
    · rw [f8, upd_other _ _ _ _ (Ne.symm hneσ), upd_same]
      omega
    · rw [← htw, f8, upd_same, upd_other _ _ _ _ hneσ]
      omega
    · rw [f7, upd_other _ _ _ _ (Ne.symm hneσ), upd_same]
      rfl
    · rw [← htw, f7, upd_same]
      rfl
    · intro x hx1 hx2
      have hx2σ : x ≠ σ.hTwin cur := by rw [htw]; exact hx2
      exact ⟨by rw [f8, upd_other _ _ _ _ hx2σ, upd_other _ _ _ _ hx1],
        by rw [f7, upd_other _ _ _ _ hx2σ, upd_other _ _ _ _ hx1]⟩
  | false =>
    replace hok : removeStrand σ cur = Except.ok σ1 := by simpa using hok
    obtain ⟨hmgt, ⟨t, ht⟩, ⟨tt, htt⟩⟩ := removeStrand_ok_inv hok
    obtain ⟨f1, f2, f3, f4, f5, f6, f7, f8, f9, f10, f11, f12, f13, f14, f15,
      f16, f17, f18, f19, f20, f21, f22⟩ := removeStrand_fields hmgt ht htt hok
    simp at hm1
    refine ⟨by rw [f1, hcw], by rw [f2, hccw], by rw [f3, htw], f12, f9, f4, f5,
      ?_, ?_, ?_, ?_, ?_⟩
    · rw [f8, upd_other _ _ _ _ (Ne.symm hneσ), upd_same]
      omega
    · rw [← htw, f8, upd_same, upd_other _ _ _ _ hneσ]
      omega
    · rw [f7, upd_other _ _ _ _ (Ne.symm hneσ), upd_same]
      rfl
    · rw [← htw, f7, upd_same]
      rfl
    · intro x hx1 hx2
      have hx2σ : x ≠ σ.hTwin cur := by rw [htw]; exact hx2
      exact ⟨by rw [f8, upd_other _ _ _ _ hx2σ, upd_other _ _ _ _ hx1],
        by rw [f7, upd_other _ _ _ _ hx2σ, upd_other _ _ _ _ hx1]⟩

/-- The benzene_move loop over a closed face cycle of pairwise twin-distinct
half-hourglasses with alternating 1/2 multiplicities succeeds and flips
every multiplicity along the cycle and its twins, leaving links, faces,
vertex data and all other multiplicities and tails untouched. -/
theorem bzmAux_run (s0 : GState) (head : Nat) :
    ∀ (fuel : Nat) (rest : List Nat) (σ : GState) (cur : Nat) (th : Bool),
      σ.hCw = s0.hCw → σ.hCcw = s0.hCcw → σ.hTwin = s0.hTwin →
      stepOrbit (hRightTurn s0) head fuel cur = some rest →
      benzOk s0.hTwin σ th rest →
      pairTw s0.hTwin rest →
      ∃ σ2, bzmAux head fuel σ cur th = some (Except.ok σ2) ∧
        σ2.hCw = s0.hCw ∧ σ2.hCcw = s0.hCcw ∧ σ2.hTwin = s0.hTwin ∧
        σ2.fHead = σ.fHead ∧ σ2.vFilled = σ.vFilled ∧
        σ2.hFrom = σ.hFrom ∧ σ2.hTo = σ.hTo ∧
        (∀ x, x ∉ rest → (∀ y ∈ rest, x ≠ s0.hTwin y) →
          σ2.hMult x = σ.hMult x ∧ σ2.hSTail x = σ.hSTail x) ∧
        (∀ x ∈ rest, σ2.hMult x = 3 - σ.hMult x ∧
          σ2.hMult (s0.hTwin x) = 3 - σ.hMult (s0.hTwin x) ∧
          (σ2.hSTail x).isSome = true ∧
          (σ2.hSTail (s0.hTwin x)).isSome = true) := by
  intro fuel
  induction fuel with
  | zero =>
    intro rest σ cur th _ _ _ horb _ _
    simp [stepOrbit] at horb
  | succ fuel ih =>
    intro rest σ cur th hcw hccw htw horb hok hpw
    rw [stepOrbit] at horb
    have hstepσ : hRightTurn σ cur = hRightTurn s0 cur := by
      simp [hRightTurn, hccw, htw]
    by_cases hs : hRightTurn s0 cur = head
    · rw [if_pos hs] at horb
      injection horb with hrest
      subst hrest
      simp only [benzOk] at hok
      obtain ⟨hm1, hm2, ht1, ht2, hne, -⟩ := hok
      obtain ⟨σ1, hop⟩ := benz_step_ok hm1 ht1 (by rw [htw]; exact ht2)
      obtain ⟨g1, g2, g3, g4, g5, g6, g7, g8, g9, g10, g11, gfr⟩ :=
        benz_step hcw hccw htw hm1 hm2 hne hop
      refine ⟨σ1, ?_, g1, g2, g3, g4, g5, g6, g7, ?_, ?_⟩
      · simp only [bzmAux]
        rw [hop]
        simp only [hstepσ]
        rw [if_pos hs]
      · intro x hx hxy
        exact gfr x (by simpa using hx) (hxy cur (by simp))
      · intro x hx
        have hx' : x = cur := by simpa using hx
        subst hx'
        exact ⟨g8, g9, g10, g11⟩
    · rw [if_neg hs] at horb
      rcases Option.map_eq_some'.mp horb with ⟨L2, hL2, hcons⟩
      subst hcons
      simp only [benzOk] at hok
      obtain ⟨hm1, hm2, ht1, ht2, hne, hok2⟩ := hok
      simp only [pairTw] at hpw
      obtain ⟨hpw1, hpw2⟩ := hpw
      obtain ⟨σ1, hop⟩ := benz_step_ok hm1 ht1 (by rw [htw]; exact ht2)
      obtain ⟨g1, g2, g3, g4, g5, g6, g7, g8, g9, g10, g11, gfr⟩ :=
        benz_step hcw hccw htw hm1 hm2 hne hop
      have hok1 : benzOk s0.hTwin σ1 (!th) L2 := by
        apply benzOk_congr ?_ hok2
        intro y hy
        obtain ⟨hy1, hy2, hy3, hy4⟩ := hpw1 y hy
        obtain ⟨e1, e2⟩ := gfr y hy1 hy2
        obtain ⟨e3, e4⟩ := gfr (s0.hTwin y) hy3 hy4
        exact ⟨e1, e3, e2, e4⟩
      obtain ⟨σ2, hrun, k1, k2, k3, k4, k5, k6, k7, kfr, kmem⟩ :=
        ih L2 σ1 (hRightTurn s0 cur) (!th) g1 g2 g3 hL2 hok1 hpw2
      refine ⟨σ2, ?_, k1, k2, k3, by rw [k4, g4], by rw [k5, g5],
        by rw [k6, g6], by rw [k7, g7], ?_, ?_⟩
      · simp only [bzmAux]
        rw [hop]
        simp only [hstepσ]
        rw [if_neg hs]
        exact hrun
      · intro x hx hxy
        have hx1 : x ≠ cur := fun h => hx (by simp [h])
        have hxn : x ∉ L2 := fun h => hx (by simp [h])
        have hx2 : x ≠ s0.hTwin cur := hxy cur (by simp)
        have hxy2 : ∀ y ∈ L2, x ≠ s0.hTwin y := fun y hy => hxy y (by simp [hy])
        obtain ⟨e1, e2⟩ := gfr x hx1 hx2
        obtain ⟨e3, e4⟩ := kfr x hxn hxy2
        exact ⟨by rw [e3, e1], by rw [e4, e2]⟩
      · intro x hx
        rcases List.mem_cons.mp hx with hx | hx
        · subst hx
          have hcn : x ∉ L2 := fun h => (hpw1 x h).1 rfl
          have hcy : ∀ y ∈ L2, x ≠ s0.hTwin y := fun y hy h =>
            (hpw1 y hy).2.2.1 h.symm
          obtain ⟨e1, e2⟩ := kfr x hcn hcy
          have htn : s0.hTwin x ∉ L2 := fun h => (hpw1 _ h).2.1 rfl
          have hty : ∀ y ∈ L2, s0.hTwin x ≠ s0.hTwin y := fun y hy h =>
            (hpw1 y hy).2.2.2 h.symm
          obtain ⟨e3, e4⟩ := kfr (s0.hTwin x) htn hty
          exact ⟨by rw [e1, g8], by rw [e3, g9], by rw [e2]; exact g10,
            by rw [e4]; exact g11⟩
        · obtain ⟨hy1, hy2, hy3, hy4⟩ := hpw1 x hx
          obtain ⟨e1, e2⟩ := gfr x hy1 hy2
          obtain ⟨e3, e4⟩ := gfr (s0.hTwin x) hy3 hy4
          obtain ⟨m1, m2, m3, m4⟩ := kmem x hx
          exact ⟨by rw [m1, e1], by rw [m2, e3], m3, m4⟩

/-- Claim C8.  On a face whose right-turn cycle closes, passes
is_benzene_move_valid, and consists of pairwise twin-distinct
half-hourglasses with alternating 1/2 multiplicities matched by their twins
and present tail strands, one benzene_move() succeeds and maps every
multiplicity m along the cycle to 3 - m (so [1,2,1,2,1,2] becomes
[2,1,2,1,2,1]), and a second benzene_move() succeeds and restores every
multiplicity of the graph: benzene_move is an involution on such faces. -/
theorem c8_benzene_involution (s : GState) (f fuel : Nat) (L : List Nat)
    (horb : stepOrbit (hRightTurn s) (s.fHead f) fuel (s.fHead f) = some L)
    (hval : is_benzene_move_valid s f fuel = some true)
    (hok : benzOk s.hTwin s (decide (s.hMult (s.fHead f) = 1)) L)
    (hpw : pairTw s.hTwin L) :
    ∃ s2 s3,
      benzene_move s f fuel = some (Except.ok s2) ∧
      L.map s2.hMult = L.map (fun x => 3 - s.hMult x) ∧
      benzene_move s2 f fuel = some (Except.ok s3) ∧
      (∀ x, s3.hMult x = s.hMult x) := by
  obtain ⟨rest, hL⟩ := stepOrbit_head horb
  subst hL
  obtain ⟨s2, hrun2, k1, k2, k3, k4, k5, k6, k7, kfr, kmem⟩ :=
    bzmAux_run s (s.fHead f) fuel (s.fHead f :: rest) s (s.fHead f)
      (decide (s.hMult (s.fHead f) = 1)) rfl rfl rfl horb hok hpw
  have hok' := hok
  simp only [benzOk] at hok'
  obtain ⟨hm1, hm2, -, -, hne0, -⟩ := hok'
  have hh2 : s2.hMult (s.fHead f) = 3 - s.hMult (s.fHead f) :=
    (kmem _ (by simp)).1
  have hth2 : decide (s2.hMult (s.fHead f) = 1) =
      !(decide (s.hMult (s.fHead f) = 1)) := by
    cases hd1 : decide (s.hMult (s.fHead f) = 1) with
    | true =>
      have hv : s.hMult (s.fHead f) = 1 := of_decide_eq_true hd1
      have h2 : s2.hMult (s.fHead f) = 2 := by omega
      simp [h2]
    | false =>
      rw [hd1] at hm1
      simp at hm1
      have h2 : s2.hMult (s.fHead f) = 1 := by omega
      simp [h2]
  have hok2 : benzOk s.hTwin s2 (!(decide (s.hMult (s.fHead f) = 1)))
      (s.fHead f :: rest) := by
    apply benzOk_flip hok
    intro x hx
    exact kmem x hx
  obtain ⟨s3, hrun3, j1, j2, j3, j4, j5, j6, j7, jfr, jmem⟩ :=
    bzmAux_run s (s.fHead f) fuel (s.fHead f :: rest) s2 (s.fHead f)
      (!(decide (s.hMult (s.fHead f) = 1))) k1 k2 k3 horb hok2 hpw
  have hbm := benzOk_mem hok
  refine ⟨s2, s3, ?_, ?_, ?_, ?_⟩
  · simpa [benzene_move] using hrun2
  · apply List.map_congr_left
    intro x hx
    exact (kmem x hx).1
  · have hmove2 : benzene_move s2 f fuel =
        bzmAux (s.fHead f) fuel s2 (s.fHead f)
          (decide (s2.hMult (s.fHead f) = 1)) := by
      simp [benzene_move, k4]
    rw [hmove2, hth2]
    exact hrun3
  · intro x
    by_cases hx : x ∈ s.fHead f :: rest
    · obtain ⟨hv, htwm⟩ := hbm x hx
      have e1 := (kmem x hx).1
      have e2 := (jmem x hx).1
      rw [e2, e1]
      rcases hv with h | h <;> omega
    · by_cases hx2 : ∃ y ∈ s.fHead f :: rest, x = s.hTwin y
      · obtain ⟨y, hy, rfl⟩ := hx2
        obtain ⟨hv, htwm⟩ := hbm y hy
        have e1 := (kmem y hy).2.1
        have e2 := (jmem y hy).2.1
        rw [e2, e1]
        rcases hv with h | h <;> omega
      · have hxy : ∀ y ∈ s.fHead f :: rest, x ≠ s.hTwin y := fun y hy h =>
          hx2 ⟨y, hy, h⟩
        have e1 := (kfr x hx hxy).1
        have e2 := (jfr x hx hxy).1
        rw [e2, e1]

/-- Witness for c8_benzene_involution on the concrete hexagon c8State. -/
theorem c8_benzene_involution_witness :
    ∃ s2 s3,
      benzene_move c8State 0 8 = some (Except.ok s2) ∧
      ([10, 8, 6, 4, 2, 0] : List Nat).map s2.hMult =
        ([10, 8, 6, 4, 2, 0] : List Nat).map (fun x => 3 - c8State.hMult x) ∧
      benzene_move s2 0 8 = some (Except.ok s3) ∧
      (∀ x, s3.hMult x = c8State.hMult x) :=
  c8_benzene_involution c8State 0 8 [10, 8, 6, 4, 2, 0] (by decide) (by decide)
    (by simp only [benzOk]; decide) (by simp only [pairTw]; decide)

/-- Vertex._insert_hourglass on an empty rotation list: the element becomes
the head. -/
theorem vInsertHourglass_none {s : GState} (v hh tgt nh fuel : Nat)
    (h : s.vHead v = none) :
    vInsertHourglass s v hh tgt nh fuel =
      { s with vHead := upd s.vHead v (some hh) } := by
  unfold vInsertHourglass
  rw [h]

/-- Vertex._insert_hourglass on a nonempty rotation list: insert clockwise
after the target and repoint the head. -/
theorem vInsertHourglass_some {s : GState} (v hh tgt nh fuel : Nat) {h0 : Nat}
    (h : s.vHead v = some h0) :
    vInsertHourglass s v hh tgt nh fuel =
      { hhInsertCwNext s tgt hh fuel with
          vHead := upd (hhInsertCwNext s tgt hh fuel).vHead v (some nh) } := by
  unfold vInsertHourglass
  rw [h]

/-- HalfHourglass.insert_cw_next on an element with no strands reduces to
the base-class pointer insertion (halfhourglass.py line 163). -/
theorem hhInsertCwNext_phantom {s : GState} (self elem fuel : Nat)
    (h : s.hSHead elem = none) :
    hhInsertCwNext s self elem fuel = hInsertCwNextBase s self elem := by
  unfold hhInsertCwNext
  dsimp only
  rw [show (hInsertCwNextBase s self elem).hSHead elem = none from h]

/-- Explicit form of the base-class insert_cw_next pointer updates when the
inserted element is distinct from the insertion point. -/
theorem hInsertCwNextBase_eq (s : GState) (self elem : Nat)
    (h : self ≠ elem) :
    hInsertCwNextBase s self elem =
      { s with
          hCw := upd (upd s.hCw elem (s.hCw self)) self elem
          hCcw := upd (upd s.hCcw elem self) (s.hCw self) elem } := by
  unfold hInsertCwNextBase
  dsimp only
  rw [upd_other s.hCw elem (s.hCw self) self h]

/-- Explicit form of the twinned-pair construction for a phantom hourglass
(multiplicity 0): no strands are created. -/
theorem createHourglassPair_zero (s : GState) (v1 v2 : Nat) :
    createHourglassPair s v1 v2 0 =
      ({ s with
          hCw := upd (upd s.hCw s.nextH s.nextH) (s.nextH + 1) (s.nextH + 1)
          hCcw := upd (upd s.hCcw s.nextH s.nextH) (s.nextH + 1) (s.nextH + 1)
          hTwin := upd (upd s.hTwin s.nextH (s.nextH + 1)) (s.nextH + 1) s.nextH
          hFrom := upd (upd s.hFrom s.nextH v1) (s.nextH + 1) v2
          hTo := upd (upd s.hTo s.nextH v2) (s.nextH + 1) v1
          hMult := upd (upd s.hMult s.nextH 0) (s.nextH + 1) 0
          hSHead := upd (upd s.hSHead s.nextH none) (s.nextH + 1) none
          hSTail := upd (upd s.hSTail s.nextH none) (s.nextH + 1) none
          hLeft := upd (upd s.hLeft s.nextH none) (s.nextH + 1) none
          hRight := upd (upd s.hRight s.nextH none) (s.nextH + 1) none
          nextH := s.nextH + 2 }, s.nextH) := by
  rfl

/-- Phantom-edge creation between two vertices with empty rotation lists:
the fresh pair becomes the two heads, both as singleton circles. -/
theorem createEdge0_empty (σ : GState) (va vb tgt1 nh1 tgt2 nh2 fuel : Nat)
    (hvab : vb ≠ va) (hva : σ.vHead va = none) (hvb : σ.vHead vb = none) :
    (createHourglassBetween σ va vb 0 tgt1 nh1 tgt2 nh2 fuel).1 =
      { σ with
          hCw := upd (upd σ.hCw σ.nextH σ.nextH) (σ.nextH + 1) (σ.nextH + 1)
          hCcw := upd (upd σ.hCcw σ.nextH σ.nextH) (σ.nextH + 1) (σ.nextH + 1)
          hTwin := upd (upd σ.hTwin σ.nextH (σ.nextH + 1)) (σ.nextH + 1) σ.nextH
          hFrom := upd (upd σ.hFrom σ.nextH va) (σ.nextH + 1) vb
          hTo := upd (upd σ.hTo σ.nextH vb) (σ.nextH + 1) va
          hMult := upd (upd σ.hMult σ.nextH 0) (σ.nextH + 1) 0
          hSHead := upd (upd σ.hSHead σ.nextH none) (σ.nextH + 1) none
          hSTail := upd (upd σ.hSTail σ.nextH none) (σ.nextH + 1) none
          hLeft := upd (upd σ.hLeft σ.nextH none) (σ.nextH + 1) none
          hRight := upd (upd σ.hRight σ.nextH none) (σ.nextH + 1) none
          vHead := upd (upd σ.vHead va (some σ.nextH)) vb (some (σ.nextH + 1))
          nextH := σ.nextH + 2 } := by
  simp only [createHourglassBetween]
  rw [createHourglassPair_zero]
  dsimp only
  set P : GState := { σ with
      hCw := upd (upd σ.hCw σ.nextH σ.nextH) (σ.nextH + 1) (σ.nextH + 1)
      hCcw := upd (upd σ.hCcw σ.nextH σ.nextH) (σ.nextH + 1) (σ.nextH + 1)
      hTwin := upd (upd σ.hTwin σ.nextH (σ.nextH + 1)) (σ.nextH + 1) σ.nextH
      hFrom := upd (upd σ.hFrom σ.nextH va) (σ.nextH + 1) vb
      hTo := upd (upd σ.hTo σ.nextH vb) (σ.nextH + 1) va
      hMult := upd (upd σ.hMult σ.nextH 0) (σ.nextH + 1) 0
      hSHead := upd (upd σ.hSHead σ.nextH none) (σ.nextH + 1) none
      hSTail := upd (upd σ.hSTail σ.nextH none) (σ.nextH + 1) none
      hLeft := upd (upd σ.hLeft σ.nextH none) (σ.nextH + 1) none
      hRight := upd (upd σ.hRight σ.nextH none) (σ.nextH + 1) none
      nextH := σ.nextH + 2 }
  rw [vInsertHourglass_none va σ.nextH tgt1 nh1 fuel
    (show P.vHead va = none from hva)]
  rw [vInsertHourglass_none vb
    (({ P with vHead := upd P.vHead va (some σ.nextH) } : GState).hTwin σ.nextH)
    tgt2 nh2 fuel
    (show ({ P with vHead := upd P.vHead va (some σ.nextH) } : GState).vHead vb
        = none from by
      show upd P.vHead va (some σ.nextH) vb = none
      rw [upd_other _ _ _ _ hvab]
      exact hvb)]
  have htw : ({ P with vHead := upd P.vHead va (some σ.nextH) } : GState).hTwin
      σ.nextH = σ.nextH + 1 := by
    show upd (upd σ.hTwin σ.nextH (σ.nextH + 1)) (σ.nextH + 1) σ.nextH σ.nextH
      = σ.nextH + 1
    rw [upd_other _ _ _ _ (by omega), upd_same]
  rw [htw]

/-- Phantom-edge creation from a vertex whose rotation list is the single
element tgt1 to a vertex with an empty rotation list. -/
theorem createEdge0_one_empty (σ : GState) (va vb tgt1 nh1 tgt2 nh2 fuel h0 : Nat)
    (hvab : vb ≠ va) (hva : σ.vHead va = some h0) (hvb : σ.vHead vb = none)
    (htlt : tgt1 < σ.nextH) (hsing : σ.hCw tgt1 = tgt1) :
    (createHourglassBetween σ va vb 0 tgt1 nh1 tgt2 nh2 fuel).1 =
      { σ with
          hCw := upd (upd (upd (upd σ.hCw σ.nextH σ.nextH) (σ.nextH + 1)
            (σ.nextH + 1)) σ.nextH tgt1) tgt1 σ.nextH
          hCcw := upd (upd (upd (upd σ.hCcw σ.nextH σ.nextH) (σ.nextH + 1)
            (σ.nextH + 1)) σ.nextH tgt1) tgt1 σ.nextH
          hTwin := upd (upd σ.hTwin σ.nextH (σ.nextH + 1)) (σ.nextH + 1) σ.nextH
          hFrom := upd (upd σ.hFrom σ.nextH va) (σ.nextH + 1) vb
          hTo := upd (upd σ.hTo σ.nextH vb) (σ.nextH + 1) va
          hMult := upd (upd σ.hMult σ.nextH 0) (σ.nextH + 1) 0
          hSHead := upd (upd σ.hSHead σ.nextH none) (σ.nextH + 1) none
          hSTail := upd (upd σ.hSTail σ.nextH none) (σ.nextH + 1) none
          hLeft := upd (upd σ.hLeft σ.nextH none) (σ.nextH + 1) none
          hRight := upd (upd σ.hRight σ.nextH none) (σ.nextH + 1) none
          vHead := upd (upd σ.vHead va (some nh1)) vb (some (σ.nextH + 1))
          nextH := σ.nextH + 2 } := by
  simp only [createHourglassBetween]
  rw [createHourglassPair_zero]
  dsimp only
  set P : GState := { σ with
      hCw := upd (upd σ.hCw σ.nextH σ.nextH) (σ.nextH + 1) (σ.nextH + 1)
      hCcw := upd (upd σ.hCcw σ.nextH σ.nextH) (σ.nextH + 1) (σ.nextH + 1)
      hTwin := upd (upd σ.hTwin σ.nextH (σ.nextH + 1)) (σ.nextH + 1) σ.nextH
      hFrom := upd (upd σ.hFrom σ.nextH va) (σ.nextH + 1) vb
      hTo := upd (upd σ.hTo σ.nextH vb) (σ.nextH + 1) va
      hMult := upd (upd σ.hMult σ.nextH 0) (σ.nextH + 1) 0
      hSHead := upd (upd σ.hSHead σ.nextH none) (σ.nextH + 1) none
      hSTail := upd (upd σ.hSTail σ.nextH none) (σ.nextH + 1) none
      hLeft := upd (upd σ.hLeft σ.nextH none) (σ.nextH + 1) none
      hRight := upd (upd σ.hRight σ.nextH none) (σ.nextH + 1) none
      nextH := σ.nextH + 2 }
  rw [vInsertHourglass_some va σ.nextH tgt1 nh1 fuel
    (show P.vHead va = some h0 from hva)]
  rw [hhInsertCwNext_phantom tgt1 σ.nextH fuel
    (show P.hSHead σ.nextH = none from by
      show upd (upd σ.hSHead σ.nextH none) (σ.nextH + 1) none σ.nextH = none
      rw [upd_other _ _ _ _ (by omega), upd_same])]
  rw [hInsertCwNextBase_eq P tgt1 σ.nextH (by omega)]
  have hPcw : P.hCw tgt1 = tgt1 := by
    show upd (upd σ.hCw σ.nextH σ.nextH) (σ.nextH + 1) (σ.nextH + 1) tgt1 = tgt1
    rw [upd_other _ _ _ _ (by omega), upd_other _ _ _ _ (by omega), hsing]
  rw [hPcw]
  set B : GState := { P with
      hCw := upd (upd P.hCw σ.nextH tgt1) tgt1 σ.nextH
      hCcw := upd (upd P.hCcw σ.nextH tgt1) tgt1 σ.nextH }
  rw [vInsertHourglass_none vb
    (({ B with vHead := upd B.vHead va (some nh1) } : GState).hTwin σ.nextH)
    tgt2 nh2 fuel
    (show ({ B with vHead := upd B.vHead va (some nh1) } : GState).vHead vb
        = none from by
      show upd B.vHead va (some nh1) vb = none
      rw [upd_other _ _ _ _ hvab]
      exact hvb)]
  have htw : ({ B with vHead := upd B.vHead va (some nh1) } : GState).hTwin
      σ.nextH = σ.nextH + 1 := by
    show upd (upd σ.hTwin σ.nextH (σ.nextH + 1)) (σ.nextH + 1) σ.nextH σ.nextH
      = σ.nextH + 1
    rw [upd_other _ _ _ _ (by omega), upd_same]
  rw [htw]

/-- Phantom-edge creation between two vertices whose rotation lists are the
single distinct elements tgt1 and tgt2. -/
theorem createEdge0_one_one (σ : GState) (va vb tgt1 nh1 tgt2 nh2 fuel h0 h1 : Nat)
    (hvab : vb ≠ va) (hva : σ.vHead va = some h0) (hvb : σ.vHead vb = some h1)
    (htlt1 : tgt1 < σ.nextH) (hsing1 : σ.hCw tgt1 = tgt1)
    (htlt2 : tgt2 < σ.nextH) (hsing2 : σ.hCw tgt2 = tgt2)
    (htt : tgt2 ≠ tgt1) :
    (createHourglassBetween σ va vb 0 tgt1 nh1 tgt2 nh2 fuel).1 =
      { σ with
          hCw := upd (upd (upd (upd (upd (upd σ.hCw σ.nextH σ.nextH)
            (σ.nextH + 1) (σ.nextH + 1)) σ.nextH tgt1) tgt1 σ.nextH)
            (σ.nextH + 1) tgt2) tgt2 (σ.nextH + 1)
          hCcw := upd (upd (upd (upd (upd (upd σ.hCcw σ.nextH σ.nextH)
            (σ.nextH + 1) (σ.nextH + 1)) σ.nextH tgt1) tgt1 σ.nextH)
            (σ.nextH + 1) tgt2) tgt2 (σ.nextH + 1)
          hTwin := upd (upd σ.hTwin σ.nextH (σ.nextH + 1)) (σ.nextH + 1) σ.nextH
          hFrom := upd (upd σ.hFrom σ.nextH va) (σ.nextH + 1) vb
          hTo := upd (upd σ.hTo σ.nextH vb) (σ.nextH + 1) va
          hMult := upd (upd σ.hMult σ.nextH 0) (σ.nextH + 1) 0
          hSHead := upd (upd σ.hSHead σ.nextH none) (σ.nextH + 1) none
          hSTail := upd (upd σ.hSTail σ.nextH none) (σ.nextH + 1) none
          hLeft := upd (upd σ.hLeft σ.nextH none) (σ.nextH + 1) none
          hRight := upd (upd σ.hRight σ.nextH none) (σ.nextH + 1) none
          vHead := upd (upd σ.vHead va (some nh1)) vb (some nh2)
          nextH := σ.nextH + 2 } := by
  simp only [createHourglassBetween]
  rw [createHourglassPair_zero]
  dsimp only
  set P : GState := { σ with
      hCw := upd (upd σ.hCw σ.nextH σ.nextH) (σ.nextH + 1) (σ.nextH + 1)
      hCcw := upd (upd σ.hCcw σ.nextH σ.nextH) (σ.nextH + 1) (σ.nextH + 1)
      hTwin := upd (upd σ.hTwin σ.nextH (σ.nextH + 1)) (σ.nextH + 1) σ.nextH
      hFrom := upd (upd σ.hFrom σ.nextH va) (σ.nextH + 1) vb
      hTo := upd (upd σ.hTo σ.nextH vb) (σ.nextH + 1) va
      hMult := upd (upd σ.hMult σ.nextH 0) (σ.nextH + 1) 0
      hSHead := upd (upd σ.hSHead σ.nextH none) (σ.nextH + 1) none
      hSTail := upd (upd σ.hSTail σ.nextH none) (σ.nextH + 1) none
      hLeft := upd (upd σ.hLeft σ.nextH none) (σ.nextH + 1) none
      hRight := upd (upd σ.hRight σ.nextH none) (σ.nextH + 1) none
      nextH := σ.nextH + 2 }
  rw [vInsertHourglass_some va σ.nextH tgt1 nh1 fuel
    (show P.vHead va = some h0 from hva)]
  rw [hhInsertCwNext_phantom tgt1 σ.nextH fuel
    (show P.hSHead σ.nextH = none from by
      show upd (upd σ.hSHead σ.nextH none) (σ.nextH + 1) none σ.nextH = none
      rw [upd_other _ _ _ _ (by omega), upd_same])]
  rw [hInsertCwNextBase_eq P tgt1 σ.nextH (by omega)]
  have hPcw : P.hCw tgt1 = tgt1 := by
    show upd (upd σ.hCw σ.nextH σ.nextH) (σ.nextH + 1) (σ.nextH + 1) tgt1 = tgt1
    rw [upd_other _ _ _ _ (by omega), upd_other _ _ _ _ (by omega), hsing1]
  rw [hPcw]
  set B : GState := { P with
      hCw := upd (upd P.hCw σ.nextH tgt1) tgt1 σ.nextH
      hCcw := upd (upd P.hCcw σ.nextH tgt1) tgt1 σ.nextH }
  set S : GState := { B with vHead := upd B.vHead va (some nh1) }
  have htw : S.hTwin σ.nextH = σ.nextH + 1 := by
    show upd (upd σ.hTwin σ.nextH (σ.nextH + 1)) (σ.nextH + 1) σ.nextH σ.nextH
      = σ.nextH + 1
    rw [upd_other _ _ _ _ (by omega), upd_same]
  rw [htw]
  rw [vInsertHourglass_some vb (σ.nextH + 1) tgt2 nh2 fuel
    (show S.vHead vb = some h1 from by
      show upd B.vHead va (some nh1) vb = some h1
      rw [upd_other _ _ _ _ hvab]
      exact hvb)]
  rw [hhInsertCwNext_phantom tgt2 (σ.nextH + 1) fuel
    (show S.hSHead (σ.nextH + 1) = none from by
      show upd (upd σ.hSHead σ.nextH none) (σ.nextH + 1) none (σ.nextH + 1)
        = none
      rw [upd_same])]
  rw [hInsertCwNextBase_eq S tgt2 (σ.nextH + 1) (by omega)]
  have hScw : S.hCw tgt2 = tgt2 := by
    show upd (upd P.hCw σ.nextH tgt1) tgt1 σ.nextH tgt2 = tgt2
    rw [upd_other _ _ _ _ htt, upd_other _ _ _ _ (by omega)]
    show upd (upd σ.hCw σ.nextH σ.nextH) (σ.nextH + 1) (σ.nextH + 1) tgt2 = tgt2
    rw [upd_other _ _ _ _ (by omega), upd_other _ _ _ _ (by omega), hsing2]
  rw [hScw]

/-- Phantom-edge creation from an isolated vertex to itself (the n = 1
boundary): the second insertion lands clockwise after the freshly inserted
first half, making the pair a 2-element rotation circle at the vertex. -/
theorem createEdge0_self (σ : GState) (va tgt1 nh1 tgt2 nh2 fuel : Nat)
    (hva : σ.vHead va = none) (ht2 : tgt2 = σ.nextH) :
    (createHourglassBetween σ va va 0 tgt1 nh1 tgt2 nh2 fuel).1 =
      { σ with
          hCw := upd (upd (upd (upd σ.hCw σ.nextH σ.nextH) (σ.nextH + 1)
            (σ.nextH + 1)) (σ.nextH + 1) σ.nextH) σ.nextH (σ.nextH + 1)
          hCcw := upd (upd (upd (upd σ.hCcw σ.nextH σ.nextH) (σ.nextH + 1)
            (σ.nextH + 1)) (σ.nextH + 1) σ.nextH) σ.nextH (σ.nextH + 1)
          hTwin := upd (upd σ.hTwin σ.nextH (σ.nextH + 1)) (σ.nextH + 1) σ.nextH
          hFrom := upd (upd σ.hFrom σ.nextH va) (σ.nextH + 1) va
          hTo := upd (upd σ.hTo σ.nextH va) (σ.nextH + 1) va
          hMult := upd (upd σ.hMult σ.nextH 0) (σ.nextH + 1) 0
          hSHead := upd (upd σ.hSHead σ.nextH none) (σ.nextH + 1) none
          hSTail := upd (upd σ.hSTail σ.nextH none) (σ.nextH + 1) none
          hLeft := upd (upd σ.hLeft σ.nextH none) (σ.nextH + 1) none
          hRight := upd (upd σ.hRight σ.nextH none) (σ.nextH + 1) none
          vHead := upd (upd σ.vHead va (some σ.nextH)) va (some nh2)
          nextH := σ.nextH + 2 } := by
  subst ht2
  simp only [createHourglassBetween]
  rw [createHourglassPair_zero]
  dsimp only
  set P : GState := { σ with
      hCw := upd (upd σ.hCw σ.nextH σ.nextH) (σ.nextH + 1) (σ.nextH + 1)
      hCcw := upd (upd σ.hCcw σ.nextH σ.nextH) (σ.nextH + 1) (σ.nextH + 1)
      hTwin := upd (upd σ.hTwin σ.nextH (σ.nextH + 1)) (σ.nextH + 1) σ.nextH
      hFrom := upd (upd σ.hFrom σ.nextH va) (σ.nextH + 1) va
      hTo := upd (upd σ.hTo σ.nextH va) (σ.nextH + 1) va
      hMult := upd (upd σ.hMult σ.nextH 0) (σ.nextH + 1) 0
      hSHead := upd (upd σ.hSHead σ.nextH none) (σ.nextH + 1) none
      hSTail := upd (upd σ.hSTail σ.nextH none) (σ.nextH + 1) none
      hLeft := upd (upd σ.hLeft σ.nextH none) (σ.nextH + 1) none
      hRight := upd (upd σ.hRight σ.nextH none) (σ.nextH + 1) none
      nextH := σ.nextH + 2 }
  rw [vInsertHourglass_none va σ.nextH tgt1 nh1 fuel
    (show P.vHead va = none from hva)]
  set S : GState := { P with vHead := upd P.vHead va (some σ.nextH) }
  have htw : S.hTwin σ.nextH = σ.nextH + 1 := by
    show upd (upd σ.hTwin σ.nextH (σ.nextH + 1)) (σ.nextH + 1) σ.nextH σ.nextH
      = σ.nextH + 1
    rw [upd_other _ _ _ _ (by omega), upd_same]
  rw [htw]
  rw [vInsertHourglass_some va (σ.nextH + 1) σ.nextH nh2 fuel
    (show S.vHead va = some σ.nextH from by
      show upd P.vHead va (some σ.nextH) va = some σ.nextH
      rw [upd_same])]
  rw [hhInsertCwNext_phantom σ.nextH (σ.nextH + 1) fuel
    (show S.hSHead (σ.nextH + 1) = none from by
      show upd (upd σ.hSHead σ.nextH none) (σ.nextH + 1) none (σ.nextH + 1)
        = none
      rw [upd_same])]
  rw [hInsertCwNextBase_eq S σ.nextH (σ.nextH + 1) (by omega)]
  have hScw : S.hCw σ.nextH = σ.nextH := by
    show upd (upd σ.hCw σ.nextH σ.nextH) (σ.nextH + 1) (σ.nextH + 1) σ.nextH
      = σ.nextH
    rw [upd_other _ _ _ _ (by omega), upd_same]
  rw [hScw]

/-- Field description of the construct_boundary vertex loop: it registers
boundary vertices 0 .. n-1 with the requested fillings and touches nothing
else. -/
theorem boundaryVertLoop_fields (filling : Nat → Bool) :
    ∀ (n : Nat) (s : GState),
      (boundaryVertLoop filling n s).boundaryIds = s.boundaryIds ++ List.range n ∧
      (boundaryVertLoop filling n s).innerIds = s.innerIds ∧
      (boundaryVertLoop filling n s).faceIds = s.faceIds ∧
      (boundaryVertLoop filling n s).nextH = s.nextH ∧
      (boundaryVertLoop filling n s).nextS = s.nextS ∧
      (boundaryVertLoop filling n s).nextF = s.nextF ∧
      (boundaryVertLoop filling n s).hCw = s.hCw ∧
      (boundaryVertLoop filling n s).hCcw = s.hCcw ∧
      (boundaryVertLoop filling n s).hTwin = s.hTwin ∧
      (boundaryVertLoop filling n s).hFrom = s.hFrom ∧
      (boundaryVertLoop filling n s).hTo = s.hTo ∧
      (boundaryVertLoop filling n s).hMult = s.hMult ∧
      (boundaryVertLoop filling n s).hSHead = s.hSHead ∧
      (boundaryVertLoop filling n s).hSTail = s.hSTail ∧
      (boundaryVertLoop filling n s).hLeft = s.hLeft ∧
      (boundaryVertLoop filling n s).hRight = s.hRight ∧
      (boundaryVertLoop filling n s).fHead = s.fHead ∧
      (boundaryVertLoop filling n s).fBoundary = s.fBoundary ∧
      (boundaryVertLoop filling n s).fOuter = s.fOuter ∧
      (∀ v, v < n → (boundaryVertLoop filling n s).vHead v = none) ∧
      (∀ v, n ≤ v → (boundaryVertLoop filling n s).vHead v = s.vHead v) ∧
      (∀ i, i < n → (boundaryVertLoop filling n s).vFilled i = filling i ∧
        (boundaryVertLoop filling n s).vBoundary i = true) ∧
      (∀ i, n ≤ i → (boundaryVertLoop filling n s).vFilled i = s.vFilled i ∧
        (boundaryVertLoop filling n s).vBoundary i = s.vBoundary i) := by
  intro n
  induction n with
  | zero =>
    intro s
    refine ⟨by simp [boundaryVertLoop], rfl, rfl, rfl, rfl, rfl, rfl, rfl, rfl,
      rfl, rfl, rfl, rfl, rfl, rfl, rfl, rfl, rfl, rfl, ?_, ?_, ?_, ?_⟩
    · intro v hv; omega
    · intro v _; rfl
    · intro i hi; omega
    · intro i _; exact ⟨rfl, rfl⟩
  | succ n ih =>
    intro s
    obtain ⟨g1, g2, g3, g4, g5, g6, g7, g8, g9, g10, g11, g12, g13, g14, g15,
      g16, g17, g18, g19, g20, g21, g22, g23⟩ := ih s
    simp only [boundaryVertLoop, createVertexRaw]
    refine ⟨?_, g2, g3, g4, g5, g6, g7, g8, g9, g10, g11, g12, g13, g14, g15,
      g16, g17, g18, g19, ?_, ?_, ?_, ?_⟩
    · rw [g1, List.range_succ, List.append_assoc]
    · intro v hv
      by_cases hvn : v = n
      · subst hvn
        rw [upd_same]
      · rw [upd_other _ _ _ _ hvn]
        exact g20 v (by omega)
    · intro v hv
      rw [upd_other _ _ _ _ (by omega)]
      exact g21 v (by omega)
    · intro i hi
      by_cases hin : i = n
      · subst hin
        rw [upd_same, upd_same]
        exact ⟨rfl, rfl⟩
      · rw [upd_other _ _ _ _ hin, upd_other _ _ _ _ hin]
        exact g22 i (by omega)
    · intro i hi
      rw [upd_other _ _ _ _ (by omega), upd_other _ _ _ _ (by omega)]
      exact g23 i (by omega)

/-- One step of the construct_boundary edge loop for k >= 1: connecting
vertex k (rotation list {2k-1}) to the empty vertex k+1 maintains the
boundary-cycle invariant. -/
theorem edgeStepSucc (σ : GState) (filling : Nat → Bool) (n k nh1 fuel : Nat)
    (hk : 0 < k)
    (i1 : σ.boundaryIds = List.range n)
    (i2 : σ.innerIds = [])
    (i3 : σ.faceIds = [])
    (i4 : σ.nextH = 2 * k)
    (i5 : σ.nextS = 0)
    (i6 : σ.nextF = 0)
    (i7 : ∀ i, i < n → σ.vFilled i = filling i ∧ σ.vBoundary i = true)
    (i8 : ∀ x, σ.hSHead x = none)
    (i9 : ∀ x, σ.hSTail x = none)
    (i10 : ∀ x, σ.hLeft x = none)
    (i11 : ∀ x, σ.hRight x = none)
    (i12 : ∀ j, j < k → σ.hFrom (2*j) = j ∧ σ.hTo (2*j) = j + 1 ∧
      σ.hFrom (2*j+1) = j + 1 ∧ σ.hTo (2*j+1) = j ∧
      σ.hMult (2*j) = 0 ∧ σ.hMult (2*j+1) = 0 ∧
      σ.hTwin (2*j) = 2*j+1 ∧ σ.hTwin (2*j+1) = 2*j)
    (i13 : 0 < k → σ.vHead 0 = some 0 ∧ σ.hCw 0 = 0 ∧ σ.hCcw 0 = 0)
    (i14 : 0 < k → σ.vHead k = some (2*k-1) ∧ σ.hCw (2*k-1) = 2*k-1 ∧
      σ.hCcw (2*k-1) = 2*k-1)
    (i15 : ∀ j, 0 < j → j < k → σ.hCw (2*j) = 2*j-1 ∧ σ.hCw (2*j-1) = 2*j ∧
      σ.hCcw (2*j) = 2*j-1 ∧ σ.hCcw (2*j-1) = 2*j)
    (i16 : ∀ v, k < v → σ.vHead v = none) :
    ∀ r, r = (createHourglassBetween σ k (k + 1) 0 (2 * k - 1) nh1 0 0 fuel).1 →
      r.boundaryIds = List.range n ∧
      r.innerIds = [] ∧
      r.faceIds = [] ∧
      r.nextH = 2 * (k + 1) ∧
      r.nextS = 0 ∧
      r.nextF = 0 ∧
      (∀ i, i < n → r.vFilled i = filling i ∧ r.vBoundary i = true) ∧
      (∀ x, r.hSHead x = none) ∧
      (∀ x, r.hSTail x = none) ∧
      (∀ x, r.hLeft x = none) ∧
      (∀ x, r.hRight x = none) ∧
      (∀ j, j < k + 1 → r.hFrom (2*j) = j ∧ r.hTo (2*j) = j + 1 ∧
        r.hFrom (2*j+1) = j + 1 ∧ r.hTo (2*j+1) = j ∧
        r.hMult (2*j) = 0 ∧ r.hMult (2*j+1) = 0 ∧
        r.hTwin (2*j) = 2*j+1 ∧ r.hTwin (2*j+1) = 2*j) ∧
      (0 < k + 1 → r.vHead 0 = some 0 ∧ r.hCw 0 = 0 ∧ r.hCcw 0 = 0) ∧
      (0 < k + 1 → r.vHead (k+1) = some (2*(k+1)-1) ∧
        r.hCw (2*(k+1)-1) = 2*(k+1)-1 ∧ r.hCcw (2*(k+1)-1) = 2*(k+1)-1) ∧
      (∀ j, 0 < j → j < k + 1 → r.hCw (2*j) = 2*j-1 ∧ r.hCw (2*j-1) = 2*j ∧
        r.hCcw (2*j) = 2*j-1 ∧ r.hCcw (2*j-1) = 2*j) ∧
      (∀ v, k + 1 < v → r.vHead v = none) ∧
      (k + 1 = 0 → r.vHead 0 = none) := by
  intro r hr
  obtain ⟨hva, hsing1, hsing1c⟩ := i14 hk
  rw [createEdge0_one_empty σ k (k+1) (2*k-1) nh1 0 0 fuel (2*k-1)
    (by omega) hva (i16 (k+1) (by omega)) (by rw [i4]; omega) hsing1] at hr
  rw [i4] at hr
  subst hr
  have hm1 : 2 * (k+1) - 1 = 2*k + 1 := by omega
  refine ⟨i1, i2, i3, by show 2*k + 2 = 2 * (k+1); omega, i5, i6, i7,
    ?_, ?_, ?_, ?_, ?_, ?_, ?_, ?_, ?_, by omega⟩
  · intro x
    show upd (upd σ.hSHead (2*k) none) (2*k + 1) none x = none
    simp [upd, i8 x]
  · intro x
    show upd (upd σ.hSTail (2*k) none) (2*k + 1) none x = none
    simp [upd, i9 x]
  · intro x
    show upd (upd σ.hLeft (2*k) none) (2*k + 1) none x = none
    simp [upd, i10 x]
  · intro x
    show upd (upd σ.hRight (2*k) none) (2*k + 1) none x = none
    simp [upd, i11 x]
  · intro j hj
    by_cases hjk : j = k
    · subst hjk
      refine ⟨?_, ?_, ?_, ?_, ?_, ?_, ?_, ?_⟩
      · show upd (upd σ.hFrom (2*j) j) (2*j + 1) (j + 1) (2*j) = j
        rw [upd_other _ _ _ _ (by omega), upd_same]
      · show upd (upd σ.hTo (2*j) (j + 1)) (2*j + 1) j (2*j) = j + 1
        rw [upd_other _ _ _ _ (by omega), upd_same]
      · show upd (upd σ.hFrom (2*j) j) (2*j + 1) (j + 1) (2*j+1) = j + 1
        rw [upd_same]
      · show upd (upd σ.hTo (2*j) (j + 1)) (2*j + 1) j (2*j+1) = j
        rw [upd_same]
      · show upd (upd σ.hMult (2*j) 0) (2*j + 1) 0 (2*j) = 0
        rw [upd_other _ _ _ _ (by omega), upd_same]
      · show upd (upd σ.hMult (2*j) 0) (2*j + 1) 0 (2*j+1) = 0
        rw [upd_same]
      · show upd (upd σ.hTwin (2*j) (2*j + 1)) (2*j + 1) (2*j) (2*j) = 2*j+1
        rw [upd_other _ _ _ _ (by omega), upd_same]
      · show upd (upd σ.hTwin (2*j) (2*j + 1)) (2*j + 1) (2*j) (2*j+1) = 2*j
        rw [upd_same]
    · obtain ⟨e1, e2, e3, e4, e5, e6, e7, e8⟩ := i12 j (by omega)
      refine ⟨?_, ?_, ?_, ?_, ?_, ?_, ?_, ?_⟩
      · show upd (upd σ.hFrom (2*k) k) (2*k + 1) (k + 1) (2*j) = j
        rw [upd_other _ _ _ _ (by omega), upd_other _ _ _ _ (by omega)]
        exact e1
      · show upd (upd σ.hTo (2*k) (k + 1)) (2*k + 1) k (2*j) = j + 1
        rw [upd_other _ _ _ _ (by omega), upd_other _ _ _ _ (by omega)]
        exact e2
      · show upd (upd σ.hFrom (2*k) k) (2*k + 1) (k + 1) (2*j+1) = j + 1
        rw [upd_other _ _ _ _ (by omega), upd_other _ _ _ _ (by omega)]
        exact e3
      · show upd (upd σ.hTo (2*k) (k + 1)) (2*k + 1) k (2*j+1) = j
        rw [upd_other _ _ _ _ (by omega), upd_other _ _ _ _ (by omega)]
        exact e4
      · show upd (upd σ.hMult (2*k) 0) (2*k + 1) 0 (2*j) = 0
        rw [upd_other _ _ _ _ (by omega), upd_other _ _ _ _ (by omega)]
        exact e5
      · show upd (upd σ.hMult (2*k) 0) (2*k + 1) 0 (2*j+1) = 0
        rw [upd_other _ _ _ _ (by omega), upd_other _ _ _ _ (by omega)]
        exact e6
      · show upd (upd σ.hTwin (2*k) (2*k + 1)) (2*k + 1) (2*k) (2*j) = 2*j+1
        rw [upd_other _ _ _ _ (by omega), upd_other _ _ _ _ (by omega)]
        exact e7
      · show upd (upd σ.hTwin (2*k) (2*k + 1)) (2*k + 1) (2*k) (2*j+1) = 2*j
        rw [upd_other _ _ _ _ (by omega), upd_other _ _ _ _ (by omega)]
        exact e8
  · intro _
    refine ⟨?_, ?_, ?_⟩
    · show upd (upd σ.vHead k (some nh1)) (k + 1) (some (2*k + 1)) 0 = some 0
      rw [upd_other _ _ _ _ (by omega), upd_other _ _ _ _ (by omega)]
      exact (i13 hk).1
    · show upd (upd (upd (upd σ.hCw (2*k) (2*k)) (2*k + 1) (2*k + 1)) (2*k)
        (2*k-1)) (2*k-1) (2*k) 0 = 0
      rw [upd_other _ _ _ _ (by omega), upd_other _ _ _ _ (by omega),
        upd_other _ _ _ _ (by omega), upd_other _ _ _ _ (by omega)]
      exact (i13 hk).2.1
    · show upd (upd (upd (upd σ.hCcw (2*k) (2*k)) (2*k + 1) (2*k + 1)) (2*k)
        (2*k-1)) (2*k-1) (2*k) 0 = 0
      rw [upd_other _ _ _ _ (by omega), upd_other _ _ _ _ (by omega),
        upd_other _ _ _ _ (by omega), upd_other _ _ _ _ (by omega)]
      exact (i13 hk).2.2
  · intro _
    refine ⟨?_, ?_, ?_⟩
    · show upd (upd σ.vHead k (some nh1)) (k + 1) (some (2*k + 1)) (k+1)
        = some (2*(k+1)-1)
      rw [upd_same, hm1]
    · rw [hm1]
      show upd (upd (upd (upd σ.hCw (2*k) (2*k)) (2*k + 1) (2*k + 1)) (2*k)
        (2*k-1)) (2*k-1) (2*k) (2*k+1) = 2*k+1
      rw [upd_other _ _ _ _ (by omega), upd_other _ _ _ _ (by omega), upd_same]
    · rw [hm1]
      show upd (upd (upd (upd σ.hCcw (2*k) (2*k)) (2*k + 1) (2*k + 1)) (2*k)
        (2*k-1)) (2*k-1) (2*k) (2*k+1) = 2*k+1
      rw [upd_other _ _ _ _ (by omega), upd_other _ _ _ _ (by omega), upd_same]
  · intro j hj0 hjk1
    by_cases hjk : j = k
    · subst hjk
      refine ⟨?_, ?_, ?_, ?_⟩
      · show upd (upd (upd (upd σ.hCw (2*j) (2*j)) (2*j + 1) (2*j + 1)) (2*j)
          (2*j-1)) (2*j-1) (2*j) (2*j) = 2*j-1
        rw [upd_other _ _ _ _ (by omega), upd_same]
      · show upd (upd (upd (upd σ.hCw (2*j) (2*j)) (2*j + 1) (2*j + 1)) (2*j)
          (2*j-1)) (2*j-1) (2*j) (2*j-1) = 2*j
        rw [upd_same]
      · show upd (upd (upd (upd σ.hCcw (2*j) (2*j)) (2*j + 1) (2*j + 1)) (2*j)
          (2*j-1)) (2*j-1) (2*j) (2*j) = 2*j-1
        rw [upd_other _ _ _ _ (by omega), upd_same]
      · show upd (upd (upd (upd σ.hCcw (2*j) (2*j)) (2*j + 1) (2*j + 1)) (2*j)
          (2*j-1)) (2*j-1) (2*j) (2*j-1) = 2*j
        rw [upd_same]
    · obtain ⟨e1, e2, e3, e4⟩ := i15 j hj0 (by omega)
      refine ⟨?_, ?_, ?_, ?_⟩
      · show upd (upd (upd (upd σ.hCw (2*k) (2*k)) (2*k + 1) (2*k + 1)) (2*k)
          (2*k-1)) (2*k-1) (2*k) (2*j) = 2*j-1
        rw [upd_other _ _ _ _ (by omega), upd_other _ _ _ _ (by omega),
          upd_other _ _ _ _ (by omega), upd_other _ _ _ _ (by omega)]
        exact e1
      · show upd (upd (upd (upd σ.hCw (2*k) (2*k)) (2*k + 1) (2*k + 1)) (2*k)
          (2*k-1)) (2*k-1) (2*k) (2*j-1) = 2*j
        rw [upd_other _ _ _ _ (by omega), upd_other _ _ _ _ (by omega),
          upd_other _ _ _ _ (by omega), upd_other _ _ _ _ (by omega)]
        exact e2
      · show upd (upd (upd (upd σ.hCcw (2*k) (2*k)) (2*k + 1) (2*k + 1)) (2*k)
          (2*k-1)) (2*k-1) (2*k) (2*j) = 2*j-1
        rw [upd_other _ _ _ _ (by omega), upd_other _ _ _ _ (by omega),
          upd_other _ _ _ _ (by omega), upd_other _ _ _ _ (by omega)]
        exact e3
      · show upd (upd (upd (upd σ.hCcw (2*k) (2*k)) (2*k + 1) (2*k + 1)) (2*k)
          (2*k-1)) (2*k-1) (2*k) (2*j-1) = 2*j
        rw [upd_other _ _ _ _ (by omega), upd_other _ _ _ _ (by omega),
          upd_other _ _ _ _ (by omega), upd_other _ _ _ _ (by omega)]
        exact e4
  · intro v hv
    show upd (upd σ.vHead k (some nh1)) (k + 1) (some (2*k + 1)) v = none
    rw [upd_other _ _ _ _ (by omega), upd_other _ _ _ _ (by omega)]
    exact i16 v (by omega)

/-- The first step of the construct_boundary edge loop: connecting the two
empty vertices 0 and 1 establishes the boundary-cycle invariant. -/
theorem edgeStepZero (σ : GState) (filling : Nat → Bool) (n nh1 fuel : Nat)
    (i1 : σ.boundaryIds = List.range n)
    (i2 : σ.innerIds = [])
    (i3 : σ.faceIds = [])
    (i4 : σ.nextH = 0)
    (i5 : σ.nextS = 0)
    (i6 : σ.nextF = 0)
    (i7 : ∀ i, i < n → σ.vFilled i = filling i ∧ σ.vBoundary i = true)
    (i8 : ∀ x, σ.hSHead x = none)
    (i9 : ∀ x, σ.hSTail x = none)
    (i10 : ∀ x, σ.hLeft x = none)
    (i11 : ∀ x, σ.hRight x = none)
    (i16 : ∀ v, σ.vHead v = none) :
    ∀ r, r = (createHourglassBetween σ 0 (0 + 1) 0 (2 * 0 - 1) nh1 0 0 fuel).1 →
      r.boundaryIds = List.range n ∧
      r.innerIds = [] ∧
      r.faceIds = [] ∧
      r.nextH = 2 * 1 ∧
      r.nextS = 0 ∧
      r.nextF = 0 ∧
      (∀ i, i < n → r.vFilled i = filling i ∧ r.vBoundary i = true) ∧
      (∀ x, r.hSHead x = none) ∧
      (∀ x, r.hSTail x = none) ∧
      (∀ x, r.hLeft x = none) ∧
      (∀ x, r.hRight x = none) ∧
      (∀ j, j < 1 → r.hFrom (2*j) = j ∧ r.hTo (2*j) = j + 1 ∧
        r.hFrom (2*j+1) = j + 1 ∧ r.hTo (2*j+1) = j ∧
        r.hMult (2*j) = 0 ∧ r.hMult (2*j+1) = 0 ∧
        r.hTwin (2*j) = 2*j+1 ∧ r.hTwin (2*j+1) = 2*j) ∧
      (0 < 1 → r.vHead 0 = some 0 ∧ r.hCw 0 = 0 ∧ r.hCcw 0 = 0) ∧
      (0 < 1 → r.vHead 1 = some (2*1-1) ∧
        r.hCw (2*1-1) = 2*1-1 ∧ r.hCcw (2*1-1) = 2*1-1) ∧
      (∀ j, 0 < j → j < 1 → r.hCw (2*j) = 2*j-1 ∧ r.hCw (2*j-1) = 2*j ∧
        r.hCcw (2*j) = 2*j-1 ∧ r.hCcw (2*j-1) = 2*j) ∧
      (∀ v, 1 < v → r.vHead v = none) ∧
      (1 = 0 → r.vHead 0 = none) := by
  intro r hr
  rw [createEdge0_empty σ 0 (0+1) (2*0-1) nh1 0 0 fuel (by omega) (i16 0)
    (i16 (0+1))] at hr
  rw [i4] at hr
  subst hr
  refine ⟨i1, i2, i3, by show (0:Nat) + 2 = 2 * 1; omega, i5, i6, i7,
    ?_, ?_, ?_, ?_, ?_, ?_, ?_, by omega, ?_, by omega⟩
  · intro x
    show upd (upd σ.hSHead 0 none) (0 + 1) none x = none
    simp [upd, i8 x]
  · intro x
    show upd (upd σ.hSTail 0 none) (0 + 1) none x = none
    simp [upd, i9 x]
  · intro x
    show upd (upd σ.hLeft 0 none) (0 + 1) none x = none
    simp [upd, i10 x]
  · intro x
    show upd (upd σ.hRight 0 none) (0 + 1) none x = none
    simp [upd, i11 x]
  · intro j hj
    have hj0 : j = 0 := by omega
    subst hj0
    refine ⟨?_, ?_, ?_, ?_, ?_, ?_, ?_, ?_⟩
    · show upd (upd σ.hFrom 0 0) (0 + 1) (0 + 1) (2*0) = 0
      rw [upd_other _ _ _ _ (by omega), upd_same]
    · show upd (upd σ.hTo 0 (0 + 1)) (0 + 1) 0 (2*0) = 0 + 1
      rw [upd_other _ _ _ _ (by omega), upd_same]
    · show upd (upd σ.hFrom 0 0) (0 + 1) (0 + 1) (2*0+1) = 0 + 1
      rw [show 2*0+1 = 0 + 1 from rfl, upd_same]
    · show upd (upd σ.hTo 0 (0 + 1)) (0 + 1) 0 (2*0+1) = 0
      rw [show 2*0+1 = 0 + 1 from rfl, upd_same]
    · show upd (upd σ.hMult 0 0) (0 + 1) 0 (2*0) = 0
      rw [upd_other _ _ _ _ (by omega), upd_same]
    · show upd (upd σ.hMult 0 0) (0 + 1) 0 (2*0+1) = 0
      rw [show 2*0+1 = 0 + 1 from rfl, upd_same]
    · show upd (upd σ.hTwin 0 (0 + 1)) (0 + 1) 0 (2*0) = 2*0+1
      rw [upd_other _ _ _ _ (by omega), upd_same]
    · show upd (upd σ.hTwin 0 (0 + 1)) (0 + 1) 0 (2*0+1) = 2*0
      rw [show 2*0+1 = 0 + 1 from rfl, upd_same]
  · intro _
    refine ⟨?_, ?_, ?_⟩
    · show upd (upd σ.vHead 0 (some 0)) (0 + 1) (some (0 + 1)) 0 = some 0
      rw [upd_other _ _ _ _ (by omega), upd_same]
    · show upd (upd σ.hCw 0 0) (0 + 1) (0 + 1) 0 = 0
      rw [upd_other _ _ _ _ (by omega), upd_same]
    · show upd (upd σ.hCcw 0 0) (0 + 1) (0 + 1) 0 = 0
      rw [upd_other _ _ _ _ (by omega), upd_same]
  · intro _
    refine ⟨?_, ?_, ?_⟩
    · show upd (upd σ.vHead 0 (some 0)) (0 + 1) (some (0 + 1)) 1 = some (2*1-1)
      rw [show (1:Nat) = 0 + 1 from rfl, upd_same]
    · show upd (upd σ.hCw 0 0) (0 + 1) (0 + 1) (2*1-1) = 2*1-1
      rw [show (2*1-1 : Nat) = 0 + 1 from rfl, upd_same]
    · show upd (upd σ.hCcw 0 0) (0 + 1) (0 + 1) (2*1-1) = 2*1-1
      rw [show (2*1-1 : Nat) = 0 + 1 from rfl, upd_same]
  · intro v hv
    show upd (upd σ.vHead 0 (some 0)) (0 + 1) (some (0 + 1)) v = none
    rw [upd_other _ _ _ _ (by omega), upd_other _ _ _ _ (by omega)]
    exact i16 v

/-- Invariant of the construct_boundary edge loop on the empty graph: after
k steps the graph has the n boundary vertices, handle pairs (2j, 2j+1) for
j < k forming phantom edges j -> j+1, a singleton rotation at vertex 0, a
2-element rotation at each middle vertex, and a singleton rotation
{2k-1} at vertex k. -/
theorem boundaryEdgeLoop_inv (filling : Nat → Bool) (nh : Nat → Nat)
    (fuel n : Nat) (hn : 1 ≤ n) :
    ∀ k, k ≤ n - 1 →
      ∀ σ, σ = boundaryEdgeLoop nh fuel k (boundaryVertLoop filling n emptyG) →
      σ.boundaryIds = List.range n ∧
      σ.innerIds = [] ∧
      σ.faceIds = [] ∧
      σ.nextH = 2 * k ∧
      σ.nextS = 0 ∧
      σ.nextF = 0 ∧
      (∀ i, i < n → σ.vFilled i = filling i ∧ σ.vBoundary i = true) ∧
      (∀ x, σ.hSHead x = none) ∧
      (∀ x, σ.hSTail x = none) ∧
      (∀ x, σ.hLeft x = none) ∧
      (∀ x, σ.hRight x = none) ∧
      (∀ j, j < k → σ.hFrom (2*j) = j ∧ σ.hTo (2*j) = j + 1 ∧
        σ.hFrom (2*j+1) = j + 1 ∧ σ.hTo (2*j+1) = j ∧
        σ.hMult (2*j) = 0 ∧ σ.hMult (2*j+1) = 0 ∧
        σ.hTwin (2*j) = 2*j+1 ∧ σ.hTwin (2*j+1) = 2*j) ∧
      (0 < k → σ.vHead 0 = some 0 ∧ σ.hCw 0 = 0 ∧ σ.hCcw 0 = 0) ∧
      (0 < k → σ.vHead k = some (2*k-1) ∧ σ.hCw (2*k-1) = 2*k-1 ∧
        σ.hCcw (2*k-1) = 2*k-1) ∧
      (∀ j, 0 < j → j < k → σ.hCw (2*j) = 2*j-1 ∧ σ.hCw (2*j-1) = 2*j ∧
        σ.hCcw (2*j) = 2*j-1 ∧ σ.hCcw (2*j-1) = 2*j) ∧
      (∀ v, k < v → σ.vHead v = none) ∧
      (k = 0 → σ.vHead 0 = none) := by
  intro k
  induction k with
  | zero =>
    intro _ σ hσ
    subst hσ
    simp only [boundaryEdgeLoop]
    obtain ⟨g1, g2, g3, g4, g5, g6, g7, g8, g9, g10, g11, g12, g13, g14, g15,
      g16, g17, g18, g19, g20, g21, g22, g23⟩ :=
      boundaryVertLoop_fields filling n emptyG
    have hv : ∀ v, (boundaryVertLoop filling n emptyG).vHead v = none := by
      intro v
      by_cases hvn : v < n
      · exact g20 v hvn
      · rw [g21 v (by omega)]; rfl
    refine ⟨by rw [g1]; rfl, by rw [g2]; rfl, by rw [g3]; rfl,
      by rw [g4]; rfl, by rw [g5]; rfl, by rw [g6]; rfl, g22,
      by intro x; rw [g13]; rfl, by intro x; rw [g14]; rfl,
      by intro x; rw [g15]; rfl, by intro x; rw [g16]; rfl,
      by intro j hj; omega, by intro h; omega, by intro h; omega,
      by intro j hj0 hj; omega, fun v _ => hv v, fun _ => hv 0⟩
  | succ k ih =>
    intro hk σ hσ
    obtain ⟨i1, i2, i3, i4, i5, i6, i7, i8, i9, i10, i11, i12, i13, i14, i15,
      i16, i17⟩ := ih (by omega) _ rfl
    by_cases hk0 : k = 0
    · subst hk0
      have h17 : ∀ v, (boundaryEdgeLoop nh fuel 0
          (boundaryVertLoop filling n emptyG)).vHead v = none := by
        intro v
        by_cases hv : 0 < v
        · exact i16 v hv
        · have : v = 0 := by omega
          subst this
          exact i17 rfl
      exact edgeStepZero _ filling n (nh 0) fuel i1 i2 i3 i4 i5 i6 i7 i8 i9
        i10 i11 h17 σ hσ
    · exact edgeStepSucc _ filling n k (nh k) fuel (by omega) i1 i2 i3 i4 i5
        i6 i7 i8 i9 i10 i11 i12 i13 i14 i15 i16 σ hσ

/-- State after the closing edge of construct_boundary: n boundary
vertices, handle pairs (2j, 2j+1) forming the phantom cycle j -> (j+1) mod
n, a 2-element rotation circle at every vertex (vertex 0 holds {0, 2n-1},
vertex j holds {2j-1, 2j}), and no faces assigned yet. -/
theorem boundaryFinalEdge (filling : Nat → Bool) (nh : Nat → Nat)
    (fuel n : Nat) (hn : 1 ≤ n) :
    ∀ r, r = (createHourglassBetween
        (boundaryEdgeLoop nh fuel (n - 1) (boundaryVertLoop filling n emptyG))
        (n - 1) 0 0 (2 * (n - 1) - 1) (nh (n - 1)) 0 (nh n) fuel).1 →
      r.boundaryIds = List.range n ∧
      r.innerIds = [] ∧
      r.faceIds = [] ∧
      r.nextH = 2 * n ∧
      r.nextS = 0 ∧
      r.nextF = 0 ∧
      (∀ i, i < n → r.vFilled i = filling i ∧ r.vBoundary i = true) ∧
      (∀ x, r.hSHead x = none) ∧
      (∀ x, r.hSTail x = none) ∧
      (∀ x, r.hLeft x = none) ∧
      (∀ x, r.hRight x = none) ∧
      (∀ j, j < n → r.hFrom (2*j) = j ∧ r.hTo (2*j) = (j + 1) % n ∧
        r.hFrom (2*j+1) = (j + 1) % n ∧ r.hTo (2*j+1) = j ∧
        r.hMult (2*j) = 0 ∧ r.hMult (2*j+1) = 0 ∧
        r.hTwin (2*j) = 2*j+1 ∧ r.hTwin (2*j+1) = 2*j) ∧
      (r.hCw 0 = 2*n-1 ∧ r.hCcw 0 = 2*n-1 ∧ r.hCw (2*n-1) = 0 ∧
        r.hCcw (2*n-1) = 0) ∧
      (∀ j, 0 < j → j < n → r.hCw (2*j) = 2*j-1 ∧ r.hCw (2*j-1) = 2*j ∧
        r.hCcw (2*j) = 2*j-1 ∧ r.hCcw (2*j-1) = 2*j) := by
  intro r hr
  obtain ⟨i1, i2, i3, i4, i5, i6, i7, i8, i9, i10, i11, i12, i13, i14, i15,
    i16, i17⟩ := boundaryEdgeLoop_inv filling nh fuel n hn (n - 1) (le_refl _)
    _ rfl
  set σ : GState :=
    boundaryEdgeLoop nh fuel (n - 1) (boundaryVertLoop filling n emptyG)
    with hσdef
  by_cases hn1 : n = 1
  · subst hn1
    norm_num at hr i4
    rw [createEdge0_self σ 0 0 (nh 0) 0 (nh 1) fuel (i17 rfl) (by rw [i4])]
      at hr
    rw [i4] at hr
    subst hr
    refine ⟨i1, i2, i3, by show (0:Nat) + 2 = 2 * 1; omega, i5, i6, i7,
      ?_, ?_, ?_, ?_, ?_, ?_, by intro j hj0 hj1; omega⟩
    · intro x
      simp [upd, i8 x]
    · intro x
      simp [upd, i9 x]
    · intro x
      simp [upd, i10 x]
    · intro x
      simp [upd, i11 x]
    · intro j hj
      have hj0 : j = 0 := by omega
      subst hj0
      refine ⟨?_, ?_, ?_, ?_, ?_, ?_, ?_, ?_⟩ <;>
        · simp only [upd]
          split_ifs <;> first | omega | (exfalso; assumption)
    · refine ⟨?_, ?_, ?_, ?_⟩ <;>
        · simp only [upd]
          split_ifs <;> first | omega | (exfalso; assumption)
  · have hn2 : 0 < n - 1 := by omega
    obtain ⟨hva, hsing1, hsing1c⟩ := i14 hn2
    obtain ⟨hv0, hcw0, hccw0⟩ := i13 hn2
    rw [createEdge0_one_one σ (n-1) 0 (2*(n-1)-1) (nh (n-1)) 0 (nh n) fuel
      (2*(n-1)-1) 0 (by omega) hva hv0 (by rw [i4]; omega) hsing1
      (by rw [i4]; omega) hcw0 (by omega)] at hr
    rw [i4] at hr
    subst hr
    refine ⟨i1, i2, i3, by show 2*(n-1) + 2 = 2 * n; omega, i5, i6, i7,
      ?_, ?_, ?_, ?_, ?_, ?_, ?_⟩
    · intro x
      simp [upd, i8 x]
    · intro x
      simp [upd, i9 x]
    · intro x
      simp [upd, i10 x]
    · intro x
      simp [upd, i11 x]
    · intro j hj
      by_cases hje : j = n - 1
      · subst hje
        have hmod : (n - 1 + 1) % n = 0 := by
          rw [show n - 1 + 1 = n by omega, Nat.mod_self]
        rw [hmod]
        refine ⟨?_, ?_, ?_, ?_, ?_, ?_, ?_, ?_⟩ <;>
          · simp only [upd]
            split_ifs <;> omega
      · have hmod : (j + 1) % n = j + 1 := Nat.mod_eq_of_lt (by omega)
        rw [hmod]
        obtain ⟨e1, e2, e3, e4, e5, e6, e7, e8⟩ := i12 j (by omega)
        refine ⟨?_, ?_, ?_, ?_, ?_, ?_, ?_, ?_⟩ <;>
          · simp only [upd]
            split_ifs <;> omega
    · refine ⟨?_, ?_, ?_, ?_⟩ <;>
        · simp only [upd]
          split_ifs <;> first | omega | (exfalso; assumption)
    · intro j hj0 hjn
      by_cases hje : j = n - 1
      · subst hje
        refine ⟨?_, ?_, ?_, ?_⟩ <;>
          · simp only [upd]
            split_ifs <;> omega
      · obtain ⟨e1, e2, e3, e4⟩ := i15 j hj0 (by omega)
        refine ⟨?_, ?_, ?_, ?_⟩ <;>
          · simp only [upd]
            split_ifs <;> omega

/-- The initialize_half_hourglasses walk over a closed right-turn cycle:
it terminates, assigns this face as right face of every visited
half-hourglass and as left face of each twin, and changes nothing else
(apart from the boundary flag of the face). -/
theorem faceInitAux_run (fid head : Nat) :
    ∀ (fuel : Nat) (σ : GState) (cur : Nat) (L : List Nat),
      stepOrbit (hRightTurn σ) head fuel cur = some L →
      ∃ σ2, faceInitAux fid head fuel σ cur = some σ2 ∧
        σ2.hCw = σ.hCw ∧ σ2.hCcw = σ.hCcw ∧ σ2.hTwin = σ.hTwin ∧
        σ2.hFrom = σ.hFrom ∧ σ2.hTo = σ.hTo ∧ σ2.hMult = σ.hMult ∧
        σ2.hSHead = σ.hSHead ∧ σ2.hSTail = σ.hSTail ∧
        σ2.vFilled = σ.vFilled ∧ σ2.vBoundary = σ.vBoundary ∧
        σ2.vHead = σ.vHead ∧ σ2.fHead = σ.fHead ∧ σ2.fOuter = σ.fOuter ∧
        σ2.innerIds = σ.innerIds ∧ σ2.boundaryIds = σ.boundaryIds ∧
        σ2.faceIds = σ.faceIds ∧ σ2.nextH = σ.nextH ∧ σ2.nextS = σ.nextS ∧
        σ2.nextF = σ.nextF ∧ σ2.sCw = σ.sCw ∧ σ2.sCcw = σ.sCcw ∧
        σ2.sTwin = σ.sTwin ∧ σ2.sHg = σ.sHg ∧
        (∀ x, x ∈ L → σ2.hRight x = some fid) ∧
        (∀ x, x ∈ L → σ2.hLeft (σ.hTwin x) = some fid) ∧
        (∀ x, x ∉ L → σ2.hRight x = σ.hRight x) ∧
        (∀ x, (∀ y ∈ L, x ≠ σ.hTwin y) → σ2.hLeft x = σ.hLeft x) := by
  intro fuel
  induction fuel with
  | zero =>
    intro σ cur L horb
    simp [stepOrbit] at horb
  | succ fuel ih =>
    intro σ cur L horb
    rw [stepOrbit] at horb
    simp only [faceInitAux]
    set S : GState := { σ with
        hRight := upd σ.hRight cur (some fid)
        hLeft := upd σ.hLeft (σ.hTwin cur) (some fid)
        fBoundary := if σ.hMult cur = 0 then upd σ.fBoundary fid true
          else σ.fBoundary } with hS
    by_cases hs : hRightTurn σ cur = head
    · rw [if_pos hs] at horb
      injection horb with hL
      subst hL
      rw [if_pos (show hRightTurn S cur = head from hs)]
      refine ⟨S, rfl, rfl, rfl, rfl, rfl, rfl, rfl, rfl, rfl, rfl, rfl, rfl,
        rfl, rfl, rfl, rfl, rfl, rfl, rfl, rfl, rfl, rfl, rfl, rfl,
        ?_, ?_, ?_, ?_⟩
      · intro x hx
        have hx' : x = cur := by simpa using hx
        subst hx'
        show upd σ.hRight x (some fid) x = some fid
        rw [upd_same]
      · intro x hx
        have hx' : x = cur := by simpa using hx
        subst hx'
        show upd σ.hLeft (σ.hTwin x) (some fid) (σ.hTwin x) = some fid
        rw [upd_same]
      · intro x hx
        have hx' : x ≠ cur := by simpa using hx
        show upd σ.hRight cur (some fid) x = σ.hRight x
        rw [upd_other _ _ _ _ hx']
      · intro x hx
        have hx' : x ≠ σ.hTwin cur := hx cur (by simp)
        show upd σ.hLeft (σ.hTwin cur) (some fid) x = σ.hLeft x
        rw [upd_other _ _ _ _ hx']
    · rw [if_neg hs] at horb
      rcases Option.map_eq_some'.mp horb with ⟨L2, hL2, hcons⟩
      subst hcons
      rw [if_neg (show ¬ (hRightTurn S cur = head) from hs)]
      obtain ⟨σ2, hrun, k1, k2, k3, k4, k5, k6, k7, k8, k9, k10, k11, k12, k13,
        k14, k15, k16, k17, k18, k19, k20, k21, k22, k23, kR, kL, kRf, kLf⟩ :=
        ih S (hRightTurn S cur) L2
          (show stepOrbit (hRightTurn S) head fuel (hRightTurn S cur) = some L2
            from hL2)
      refine ⟨σ2, hrun, k1, k2, k3, k4, k5, k6, k7, k8, k9, k10, k11, k12, k13,
        k14, k15, k16, k17, k18, k19, k20, k21, k22, k23, ?_, ?_, ?_, ?_⟩
      · intro x hx
        by_cases hx2 : x ∈ L2
        · exact kR x hx2
        · have hx' : x = cur := by
            rcases List.mem_cons.mp hx with h | h
            · exact h
            · exact absurd h hx2
          subst hx'
          rw [kRf x hx2]
          show upd σ.hRight x (some fid) x = some fid
          rw [upd_same]
      · intro x hx
        rcases List.mem_cons.mp hx with hx' | hx'
        · subst hx'
          by_cases hex : ∃ z ∈ L2, σ.hTwin x = S.hTwin z
          · obtain ⟨z, hz, hzz⟩ := hex
            rw [show σ.hTwin x = S.hTwin z from hzz]
            exact kL z hz
          · rw [kLf (σ.hTwin x) (fun z hz h => hex ⟨z, hz, h⟩)]
            show upd σ.hLeft (σ.hTwin x) (some fid) (σ.hTwin x) = some fid
            rw [upd_same]
        · exact kL x hx'
      · intro x hx
        have hxc : x ≠ cur := fun h => hx (by simp [h])
        have hx2 : x ∉ L2 := fun h => hx (by simp [h])
        rw [kRf x hx2]
        show upd σ.hRight cur (some fid) x = σ.hRight x
        rw [upd_other _ _ _ _ hxc]
      · intro x hx
        have hxc : x ≠ σ.hTwin cur := hx cur (by simp)
        have hx2 : ∀ y ∈ L2, x ≠ S.hTwin y := fun y hy => hx y (by simp [hy])
        rw [kLf x hx2]
        show upd σ.hLeft (σ.hTwin cur) (some fid) x = σ.hLeft x
        rw [upd_other _ _ _ _ hxc]

/-- Face construction (the Face constructor) over a closed right-turn
cycle: it allocates the next face id, terminates, and performs exactly the
face assignments of the walk. -/
theorem mkFace_run (σ : GState) (hh fuel : Nat) (L : List Nat)
    (horb : stepOrbit (hRightTurn σ) hh fuel hh = some L) :
    ∃ σ2, mkFace σ hh false fuel = some (σ2, σ.nextF) ∧
      σ2.hCw = σ.hCw ∧ σ2.hCcw = σ.hCcw ∧ σ2.hTwin = σ.hTwin ∧
      σ2.hFrom = σ.hFrom ∧ σ2.hTo = σ.hTo ∧ σ2.hMult = σ.hMult ∧
      σ2.hSHead = σ.hSHead ∧ σ2.hSTail = σ.hSTail ∧
      σ2.vFilled = σ.vFilled ∧ σ2.vBoundary = σ.vBoundary ∧
      σ2.vHead = σ.vHead ∧
      σ2.innerIds = σ.innerIds ∧ σ2.boundaryIds = σ.boundaryIds ∧
      σ2.faceIds = σ.faceIds ∧ σ2.nextH = σ.nextH ∧ σ2.nextS = σ.nextS ∧
      σ2.nextF = σ.nextF + 1 ∧
      (∀ x, x ∈ L → σ2.hRight x = some σ.nextF) ∧
      (∀ x, x ∈ L → σ2.hLeft (σ.hTwin x) = some σ.nextF) ∧
      (∀ x, x ∉ L → σ2.hRight x = σ.hRight x) ∧
      (∀ x, (∀ y ∈ L, x ≠ σ.hTwin y) → σ2.hLeft x = σ.hLeft x) := by
  simp only [mkFace, faceInit]
  set S : GState := { σ with
      fOuter := upd σ.fOuter σ.nextF false
      nextF := σ.nextF + 1 } with hSdef
  set S2 : GState := { S with
      fHead := upd S.fHead σ.nextF hh
      fBoundary := upd S.fBoundary σ.nextF false } with hS2def
  obtain ⟨σ2, hrun, k1, k2, k3, k4, k5, k6, k7, k8, k9, k10, k11, k12, k13,
    k14, k15, k16, k17, k18, k19, k20, k21, k22, k23, kR, kL, kRf, kLf⟩ :=
    faceInitAux_run σ.nextF hh fuel S2 hh L
      (show stepOrbit (hRightTurn S2) hh fuel hh = some L from horb)
  rw [hrun]
  refine ⟨σ2, rfl, k1, k2, k3, k4, k5, k6, k7, k8, k9, k10, k11, k14, k15,
    k16, k17, k18, by rw [k19], ?_, ?_, ?_, ?_⟩
  · intro x hx
    exact kR x hx
  · intro x hx
    exact kL x hx
  · intro x hx
    exact kRf x hx
  · intro x hx
    exact kLf x hx

/-- The right-turn walk of the inner boundary face: from handle 2(n-1) it
visits the even handles 0, 2, ..., 2(n-2) and closes. -/
theorem boundary_inner_circ (r : GState) (n : Nat) (hn : 1 ≤ n)
    (htw : ∀ j, j < n → r.hTwin (2*j) = 2*j+1)
    (hccw0 : r.hCcw (2*n-1) = 0)
    (hccwj : ∀ j, 0 < j → j < n → r.hCcw (2*j-1) = 2*j) :
    IsCircFrom (hRightTurn r) (2*(n-1))
      ((List.range (n-1)).map (fun j => 2*j)) := by
  have hstep : ∀ j, j < n →
      hRightTurn r (2*j) = (if j = n - 1 then 0 else 2*(j+1)) := by
    intro j hj
    show r.hCcw (r.hTwin (2*j)) = _
    rw [htw j hj]
    by_cases hje : j = n - 1
    · rw [if_pos hje, hje, show 2*(n-1)+1 = 2*n-1 by omega, hccw0]
    · rw [if_neg hje, show 2*j+1 = 2*(j+1)-1 by omega,
        hccwj (j+1) (by omega) (by omega)]
  constructor
  · match n, hn with
    | 1, _ => simp
    | n' + 2, _ =>
      rw [show n' + 2 - 1 = n' + 1 by omega]
      rw [List.chain'_cons']
      constructor
      · intro b hb
        rw [List.range_succ_eq_map] at hb
        simp only [List.map_cons, List.head?_cons] at hb
        injection hb with hb
        subst hb
        have h1 := hstep (n' + 1) (by omega)
        rw [if_pos (by omega)] at h1
        rw [h1]
      · rw [List.chain'_map]
        cases n' with
        | zero => simp [List.range_succ]
        | succ n'' =>
          rw [List.chain'_range_succ]
          intro m hm
          have h1 := hstep m (by omega)
          rw [if_neg (by omega)] at h1
          exact h1
  · have hlast : ((2*(n-1)) :: (List.range (n-1)).map (fun j => 2*j)).getLast
        (List.cons_ne_nil _ _) = if n = 1 then 2*(n-1) else 2*(n-2) := by
      match n, hn with
      | 1, _ => simp
      | n' + 2, _ =>
        rw [if_neg (by omega)]
        refine @getLast_of_decomp _ _ _ (2*(n'+2-1) ::
          (List.range (n'+2-2)).map (fun j => 2*j)) ?_
        rw [show n'+2-1 = n'+1 by omega, show n'+2-2 = n' by omega,
          List.range_succ]
        simp
    rw [hlast]
    by_cases hn1 : n = 1
    · rw [if_pos hn1]
      have h1 := hstep (n-1) (by omega)
      rw [if_pos rfl] at h1
      rw [h1]
      omega
    · rw [if_neg hn1]
      have h1 := hstep (n-2) (by omega)
      rw [if_neg (by omega), show n-2+1 = n-1 by omega] at h1
      exact h1

/-- The right-turn walk of the outer boundary face: from handle 2n-1 it
visits the odd handles 2n-3, 2n-5, ..., 1 and closes. -/
theorem boundary_outer_circ (r : GState) (n : Nat) (hn : 1 ≤ n)
    (htw : ∀ j, j < n → r.hTwin (2*j+1) = 2*j)
    (hccw0 : r.hCcw 0 = 2*n-1)
    (hccwj : ∀ j, 0 < j → j < n → r.hCcw (2*j) = 2*j-1) :
    IsCircFrom (hRightTurn r) (2*n-1)
      ((List.range (n-1)).map (fun t => 2*(n-2-t)+1)) := by
  have hstep : ∀ j, j < n →
      hRightTurn r (2*j+1) = (if j = 0 then 2*n-1 else 2*(j-1)+1) := by
    intro j hj
    show r.hCcw (r.hTwin (2*j+1)) = _
    rw [htw j hj]
    by_cases hj0 : j = 0
    · rw [if_pos hj0, hj0]
      exact hccw0
    · rw [if_neg hj0, hccwj j (by omega) hj]
      omega
  constructor
  · match n, hn with
    | 1, _ => simp
    | n' + 2, _ =>
      rw [show n' + 2 - 1 = n' + 1 by omega]
      rw [List.chain'_cons']
      constructor
      · intro b hb
        rw [List.range_succ_eq_map] at hb
        simp only [List.map_cons, List.head?_cons] at hb
        injection hb with hb
        subst hb
        have h1 := hstep (n' + 1) (by omega)
        rw [if_neg (by omega)] at h1
        rw [show (2*(n'+2)-1 : Nat) = 2*(n'+1)+1 by omega, h1]
        omega
      · rw [List.chain'_map]
        cases n' with
        | zero => simp [List.range_succ]
        | succ n'' =>
          rw [List.chain'_range_succ]
          intro m hm
          have h1 := hstep (n''+1+2-2-m) (by omega)
          rw [if_neg (by omega)] at h1
          rw [h1]
          omega
  · have hlast : ((2*n-1) :: (List.range (n-1)).map
        (fun t => 2*(n-2-t)+1)).getLast (List.cons_ne_nil _ _)
        = if n = 1 then 2*n-1 else 2*0+1 := by
      match n, hn with
      | 1, _ => simp
      | n' + 2, _ =>
        rw [if_neg (by omega)]
        refine @getLast_of_decomp _ _ _ ((2*(n'+2)-1) ::
          (List.range (n'+2-2)).map (fun t => 2*(n'+2-2-t)+1)) ?_
        rw [show n'+2-1 = n'+1 by omega, show n'+2-2 = n' by omega,
          List.range_succ]
        simp
    rw [hlast]
    by_cases hn1 : n = 1
    · rw [if_pos hn1]
      have h1 := hstep 0 (by omega)
      rw [if_pos rfl] at h1
      rw [show 2*n-1 = 2*0+1 by omega, h1]
      omega
    · rw [if_neg hn1]
      have h1 := hstep 0 (by omega)
      rw [if_pos rfl] at h1
      exact h1

/-- The second component of createHourglassBetween at multiplicity 0 is the
handle of the fresh hourglass. -/
theorem createHourglassBetween_snd (s : GState)
    (v1 v2 tgt1 nh1 tgt2 nh2 fuel : Nat) :
    (createHourglassBetween s v1 v2 0 tgt1 nh1 tgt2 nh2 fuel).2 = s.nextH := rfl

/-- Every even handle 2j with j < n lies on the inner boundary face walk. -/
theorem mem_innerL {n j : Nat} (hj : j < n) :
    2*j ∈ (2*(n-1) :: (List.range (n-1)).map (fun j => 2*j)) := by
  simp only [List.mem_cons, List.mem_map, List.mem_range]
  by_cases hje : j = n - 1
  · left
    omega
  · right
    exact ⟨j, by omega, rfl⟩

/-- No odd handle lies on the inner boundary face walk. -/
theorem not_mem_innerL_odd (n j : Nat) :
    2*j+1 ∉ (2*(n-1) :: (List.range (n-1)).map (fun j => 2*j)) := by
  simp only [List.mem_cons, List.mem_map, List.mem_range]
  rintro (h | ⟨a, _, h⟩) <;> omega

/-- Every odd handle 2j+1 with j < n lies on the outer boundary face walk. -/
theorem mem_outerL {n j : Nat} (hj : j < n) :
    2*j+1 ∈ ((2*n-1) :: (List.range (n-1)).map (fun t => 2*(n-2-t)+1)) := by
  simp only [List.mem_cons, List.mem_map, List.mem_range]
  by_cases hje : j = n - 1
  · left
    omega
  · right
    exact ⟨n-2-j, by omega, by omega⟩

/-- No even handle lies on the outer boundary face walk. -/
theorem not_mem_outerL_even (n j : Nat) (hn : 1 ≤ n) :
    2*j ∉ ((2*n-1) :: (List.range (n-1)).map (fun t => 2*(n-2-t)+1)) := by
  simp only [List.mem_cons, List.mem_map, List.mem_range]
  rintro (h | ⟨a, _, h⟩) <;> omega

/-- The inner boundary face walk has no repeated handle. -/
theorem innerL_nodup (n : Nat) :
    (2*(n-1) :: (List.range (n-1)).map (fun j => 2*j)).Nodup := by
  rw [List.nodup_cons]
  refine ⟨?_, List.Nodup.map (fun a b hab => by omega) (List.nodup_range _)⟩
  intro hmem
  simp only [List.mem_map, List.mem_range] at hmem
  obtain ⟨j, hj, he⟩ := hmem
  omega

/-- The outer boundary face walk has no repeated handle. -/
theorem outerL_nodup (n : Nat) :
    ((2*n-1) :: (List.range (n-1)).map (fun t => 2*(n-2-t)+1)).Nodup := by
  rw [List.nodup_cons]
  constructor
  · intro hmem
    simp only [List.mem_map, List.mem_range] at hmem
    obtain ⟨t, ht, he⟩ := hmem
    omega
  · refine List.Nodup.map_on ?_ (List.nodup_range _)
    intro a ha b hb hab
    simp only [List.mem_range] at ha hb
    omega

/-- C7: for every positive n, running construct_boundary on the empty graph
succeeds and produces exactly the n boundary vertices 0..n-1 (with the
requested fill statuses), no interior vertices, a single cycle of
multiplicity-0 (phantom) edges joining vertex j to vertex (j+1) mod n, and
exactly the two faces 0 (inner) and 1 (outer) bounding that cycle from its
two sides; on any non-empty graph it raises an error and performs no
mutation.  The angle-driven insertion heads are abstracted by the oracle nh
and the result holds for every oracle, fill assignment and fuel at least n. -/
theorem c7_construct_boundary (n fuel : Nat) (filling : Nat → Bool)
    (nh : Nat → Nat) (hn : 1 ≤ n) (hfuel : n ≤ fuel) :
    (∀ s, order s ≠ 0 →
      construct_boundary s n filling nh fuel =
        some (Except.error
          "Cannot call construct_boundary on a non-empty graph.")) ∧
    ∃ g, construct_boundary emptyG n filling nh fuel =
        some (Except.ok g) ∧
      g.boundaryIds = List.range n ∧
      g.innerIds = [] ∧
      g.faceIds = [0, 1] ∧
      order g = n ∧
      g.nextH = 2 * n ∧
      g.nextF = 2 ∧
      (∀ i, i < n → g.vFilled i = filling i ∧ g.vBoundary i = true) ∧
      (∀ j, j < n →
        g.hFrom (2*j) = j ∧ g.hTo (2*j) = (j + 1) % n ∧
        g.hFrom (2*j+1) = (j + 1) % n ∧ g.hTo (2*j+1) = j ∧
        g.hMult (2*j) = 0 ∧ g.hMult (2*j+1) = 0 ∧
        g.hTwin (2*j) = 2*j+1 ∧ g.hTwin (2*j+1) = 2*j ∧
        g.hRight (2*j) = some 0 ∧ g.hLeft (2*j+1) = some 0 ∧
        g.hRight (2*j+1) = some 1 ∧ g.hLeft (2*j) = some 1) := by
  constructor
  · intro s hs
    simp only [construct_boundary]
    rw [if_pos hs]
  · have horder : ¬ order emptyG ≠ 0 := by simp [order, emptyG]
    have hp2 : (createHourglassBetween
        (boundaryEdgeLoop nh fuel (n - 1) (boundaryVertLoop filling n emptyG))
        (n - 1) 0 0 (2 * (n - 1) - 1) (nh (n - 1)) 0 (nh n) fuel).2
        = 2 * (n - 1) := by
      rw [createHourglassBetween_snd]
      exact (boundaryEdgeLoop_inv filling nh fuel n hn (n - 1) (le_refl _)
        _ rfl).2.2.2.1
    obtain ⟨F1, F2, F3, F4, F5, F6, F7, F8, F9, F10, F11, F12, F13, F14⟩ :=
      boundaryFinalEdge filling nh fuel n hn _ rfl
    simp only [construct_boundary]
    rw [if_neg horder, hp2]
    set r : GState := (createHourglassBetween
        (boundaryEdgeLoop nh fuel (n - 1) (boundaryVertLoop filling n emptyG))
        (n - 1) 0 0 (2 * (n - 1) - 1) (nh (n - 1)) 0 (nh n) fuel).1 with hrdef
    have hcircI : IsCircFrom (hRightTurn r) (2*(n-1))
        ((List.range (n-1)).map (fun j => 2*j)) :=
      boundary_inner_circ r n hn
        (fun j hj => (F12 j hj).2.2.2.2.2.2.1)
        F13.2.2.2
        (fun j h0 hj => (F14 j h0 hj).2.2.2)
    have horbI : stepOrbit (hRightTurn r) (2*(n-1)) fuel (2*(n-1)) =
        some (2*(n-1) :: (List.range (n-1)).map (fun j => 2*j)) :=
      stepOrbit_circ _ hcircI (innerL_nodup n)
        (by simp only [List.length_map, List.length_range]; omega)
    obtain ⟨σ3, hmk1, a1, a2, a3, a4, a5, a6, a7, a8, a9, a10, a11, a12, a13,
      a14, a15, a16, a17, aR, aL, aRf, aLf⟩ :=
      mkFace_run r (2*(n-1)) fuel _ horbI
    rw [F6] at hmk1 aR aL
    have hcircO : IsCircFrom (hRightTurn σ3) (2*n-1)
        ((List.range (n-1)).map (fun t => 2*(n-2-t)+1)) := by
      have hO := boundary_outer_circ r n hn
        (fun j hj => (F12 j hj).2.2.2.2.2.2.2)
        F13.2.1
        (fun j h0 hj => (F14 j h0 hj).2.2.1)
      have hstepeq : hRightTurn σ3 = hRightTurn r := by
        funext x
        show σ3.hCcw (σ3.hTwin x) = r.hCcw (r.hTwin x)
        rw [a2, a3]
      rw [hstepeq]
      exact hO
    have horbO : stepOrbit (hRightTurn σ3) (2*n-1) fuel (2*n-1) =
        some ((2*n-1) :: (List.range (n-1)).map (fun t => 2*(n-2-t)+1)) :=
      stepOrbit_circ _ hcircO (outerL_nodup n)
        (by simp only [List.length_map, List.length_range]; omega)
    obtain ⟨σ4, hmk2, b1, b2, b3, b4, b5, b6, b7, b8, b9, b10, b11, b12, b13,
      b14, b15, b16, b17, bR, bL, bRf, bLf⟩ :=
      mkFace_run σ3 (2*n-1) fuel _ horbO
    have hnf3 : σ3.nextF = 1 := by rw [a17, F6]
    rw [hnf3] at hmk2 bR bL
    have htwin3 : σ3.hTwin (2*(n-1)) = 2*n-1 := by
      rw [a3, show (2*n-1 : Nat) = 2*(n-1)+1 by omega]
      exact (F12 (n-1) (by omega)).2.2.2.2.2.2.1
    have hmk2' : mkFace σ3 (σ3.hTwin (2*(n-1))) false fuel =
        some (σ4, 1) := by
      rw [htwin3]
      exact hmk2
    simp only [hmk1, hmk2']
    refine ⟨_, rfl, ?_, ?_, ?_, ?_, ?_, ?_, ?_, ?_⟩
    · show σ4.boundaryIds = List.range n
      rw [b13, a13]
      exact F1
    · show σ4.innerIds = []
      rw [b12, a12]
      exact F2
    · show σ4.faceIds ++ [0, 1] = [0, 1]
      rw [b14, a14, F3]
      rfl
    · show ({ σ4 with faceIds := σ4.faceIds ++ [0, 1] } :
          GState).innerIds.length + σ4.boundaryIds.length = n
      show σ4.innerIds.length + σ4.boundaryIds.length = n
      rw [b12, a12, F2, b13, a13, F1]
      simp
    · show σ4.nextH = 2 * n
      rw [b15, a15]
      exact F4
    · show σ4.nextF = 2
      rw [b17, a17, F6]
    · intro i hi
      refine ⟨?_, ?_⟩
      · show σ4.vFilled i = filling i
        rw [b9, a9]
        exact (F7 i hi).1
      · show σ4.vBoundary i = true
        rw [b10, a10]
        exact (F7 i hi).2
    · intro j hj
      have F12j := F12 j hj
      have hfr : ∀ y ∈ (2*n-1) ::
          (List.range (n-1)).map (fun t => 2*(n-2-t)+1),
          2*j+1 ≠ σ3.hTwin y := by
        intro y hy
        rw [a3]
        rcases List.mem_cons.mp hy with h | h
        · subst h
          rw [show (2*n-1 : Nat) = 2*(n-1)+1 by omega,
            (F12 (n-1) (by omega)).2.2.2.2.2.2.2]
          omega
        · obtain ⟨t, ht, he⟩ := List.mem_map.mp h
          rw [List.mem_range] at ht
          rw [← he, (F12 (n-2-t) (by omega)).2.2.2.2.2.2.2]
          omega
      refine ⟨?_, ?_, ?_, ?_, ?_, ?_, ?_, ?_, ?_, ?_, ?_, ?_⟩
      · show σ4.hFrom (2*j) = j
        rw [b4, a4]
        exact F12j.1
      · show σ4.hTo (2*j) = (j + 1) % n
        rw [b5, a5]
        exact F12j.2.1
      · show σ4.hFrom (2*j+1) = (j + 1) % n
        rw [b4, a4]
        exact F12j.2.2.1
      · show σ4.hTo (2*j+1) = j
        rw [b5, a5]
        exact F12j.2.2.2.1
      · show σ4.hMult (2*j) = 0
        rw [b6, a6]
        exact F12j.2.2.2.2.1
      · show σ4.hMult (2*j+1) = 0
        rw [b6, a6]
        exact F12j.2.2.2.2.2.1
      · show σ4.hTwin (2*j) = 2*j+1
        rw [b3, a3]
        exact F12j.2.2.2.2.2.2.1
      · show σ4.hTwin (2*j+1) = 2*j
        rw [b3, a3]
        exact F12j.2.2.2.2.2.2.2
      · show σ4.hRight (2*j) = some 0
        rw [bRf (2*j) (not_mem_outerL_even n j hn)]
        exact aR (2*j) (mem_innerL hj)
      · show σ4.hLeft (2*j+1) = some 0
        rw [bLf (2*j+1) hfr]
        have h0 := aL (2*j) (mem_innerL hj)
        rw [F12j.2.2.2.2.2.2.1] at h0
        exact h0
      · show σ4.hRight (2*j+1) = some 1
        exact bR (2*j+1) (mem_outerL hj)
      · show σ4.hLeft (2*j) = some 1
        have h1 := bL (2*j+1) (mem_outerL hj)
        rw [a3, F12j.2.2.2.2.2.2.2] at h1
        exact h1

/-- Witness for C7: construct_boundary at n = 8 — the spec scenario — with a
trivial oracle and all-filled vertices, fuel 8. -/
theorem c7_construct_boundary_witness :
    (1 ≤ 8) ∧ (8 ≤ 8) ∧
    ((∀ s, order s ≠ 0 →
      construct_boundary s 8 (fun _ => true) (fun _ => 0) 8 =
        some (Except.error
          "Cannot call construct_boundary on a non-empty graph.")) ∧
    ∃ g, construct_boundary emptyG 8 (fun _ => true) (fun _ => 0) 8 =
        some (Except.ok g) ∧
      g.boundaryIds = List.range 8 ∧
      g.innerIds = [] ∧
      g.faceIds = [0, 1] ∧
      order g = 8 ∧
      g.nextH = 2 * 8 ∧
      g.nextF = 2 ∧
      (∀ i, i < 8 → g.vFilled i = (fun _ => true) i ∧
        g.vBoundary i = true) ∧
      (∀ j, j < 8 →
        g.hFrom (2*j) = j ∧ g.hTo (2*j) = (j + 1) % 8 ∧
        g.hFrom (2*j+1) = (j + 1) % 8 ∧ g.hTo (2*j+1) = j ∧
        g.hMult (2*j) = 0 ∧ g.hMult (2*j+1) = 0 ∧
        g.hTwin (2*j) = 2*j+1 ∧ g.hTwin (2*j+1) = 2*j ∧
        g.hRight (2*j) = some 0 ∧ g.hLeft (2*j+1) = some 0 ∧
        g.hRight (2*j+1) = some 1 ∧ g.hLeft (2*j) = some 1)) :=
  ⟨by decide, by decide,
    c7_construct_boundary 8 8 (fun _ => true) (fun _ => 0)
      (by decide) (by decide)⟩

end Hpg
